import Mathlib

/-!
# Web calculator (calculator.js): state machine and number formatter

A shallow embedding of `src/calculator.js`.

* JavaScript strings are lists of characters, one `Char` per UTF-16 code unit
  (code units in the surrogate range are outside the model).
* JavaScript Numbers are IEEE-754 binary64 values, modelled exactly by
  `JSNumber`; the built-ins the source calls (`parseFloat`, `isFinite`,
  `Math.abs`, `Math.round`, `Number.prototype.toString`,
  `Number.prototype.toExponential`, the arithmetic operators) follow ECMA-262.
* The page is the record `Page`: the global `calculatorState` object and the
  text content of the element with id `display` (absent when there is no such
  element).
-/

namespace Calculator

/-! ## IEEE-754 binary64 numbers -/

/-- A JavaScript Number. `fin neg m e` is the finite value
`(-1)^neg * m * 2^e / 2^1074`; in canonical form `m < 2^53`, `e ≤ 2045`, and
`m < 2^52` only when `e = 0` (zero and the subnormals). -/
inductive JSNumber where
  | nan : JSNumber
  | inf (neg : Bool) : JSNumber
  | fin (neg : Bool) (m : Nat) (e : Nat) : JSNumber
deriving DecidableEq

namespace JSNumber

/-- The binary exponent of the quotient `t` (already scaled by `2^1074`): the
largest `e < 4096` with `2^(52+e) ≤ t`, found bit by bit; `0` when `t < 2^53`. -/
def expOf (t : Nat) : Nat :=
  [2048, 1024, 512, 256, 128, 64, 32, 16, 8, 4, 2, 1].foldl
    (fun e b => if 2 ^ (52 + e + b) ≤ t then e + b else e) 0

/-- The Number value for the rational `n / d` with sign `neg`: round to nearest,
ties to even, overflow to infinity, gradual underflow (`d` is positive). -/
def roundQ (neg : Bool) (n d : Nat) : JSNumber :=
  if n = 0 then .fin neg 0 0 else
  let e := expOf (n * 2 ^ 1074 / d)
  let q := n * 2 ^ 1074 / (d * 2 ^ e)
  let r := n * 2 ^ 1074 % (d * 2 ^ e)
  let q1 := if d * 2 ^ e < 2 * r ∨ (2 * r = d * 2 ^ e ∧ q % 2 = 1) then q + 1 else q
  let m := if q1 = 2 ^ 53 then 2 ^ 52 else q1
  let e1 := if q1 = 2 ^ 53 then e + 1 else e
  if 2045 < e1 then .inf neg else .fin neg m e1

/-- The Number value of a natural number literal. -/
def ofNat (n : Nat) : JSNumber := roundQ false n 1

/-- Unary minus. -/
def neg : JSNumber → JSNumber
  | .nan => .nan
  | .inf s => .inf (!s)
  | .fin s m e => .fin (!s) m e

/-- Function `Math.abs`. -/
def abs : JSNumber → JSNumber
  | .nan => .nan
  | .inf _ => .inf false
  | .fin _ m e => .fin false m e

/-- Number::add (ECMA-262 6.1.6.1.7). -/
def add : JSNumber → JSNumber → JSNumber
  | .nan, _ => .nan
  | _, .nan => .nan
  | .inf a, .inf b => if a = b then .inf a else .nan
  | .inf a, .fin _ _ _ => .inf a
  | .fin _ _ _, .inf b => .inf b
  | .fin s1 m1 e1, .fin s2 m2 e2 =>
    if s1 = s2 then roundQ s1 (m1 * 2 ^ e1 + m2 * 2 ^ e2) (2 ^ 1074)
    else if m1 * 2 ^ e1 = m2 * 2 ^ e2 then .fin false 0 0
    else if m2 * 2 ^ e2 < m1 * 2 ^ e1 then roundQ s1 (m1 * 2 ^ e1 - m2 * 2 ^ e2) (2 ^ 1074)
    else roundQ s2 (m2 * 2 ^ e2 - m1 * 2 ^ e1) (2 ^ 1074)

/-- Number::subtract: `x - y` is `x + (-y)`. -/
def sub (x y : JSNumber) : JSNumber := add x (neg y)

/-- Number::multiply (ECMA-262 6.1.6.1.4). -/
def mul : JSNumber → JSNumber → JSNumber
  | .nan, _ => .nan
  | _, .nan => .nan
  | .inf a, .inf b => .inf (a != b)
  | .inf a, .fin b m _ => if m = 0 then .nan else .inf (a != b)
  | .fin a m _, .inf b => if m = 0 then .nan else .inf (a != b)
  | .fin s1 m1 e1, .fin s2 m2 e2 =>
    roundQ (s1 != s2) (m1 * 2 ^ e1 * (m2 * 2 ^ e2)) (2 ^ 1074 * 2 ^ 1074)

/-- Number::divide (ECMA-262 6.1.6.1.5). -/
def div : JSNumber → JSNumber → JSNumber
  | .nan, _ => .nan
  | _, .nan => .nan
  | .inf _, .inf _ => .nan
  | .inf a, .fin b _ _ => .inf (a != b)
  | .fin a _ _, .inf b => .fin (a != b) 0 0
  | .fin s1 m1 e1, .fin s2 m2 e2 =>
    if m2 = 0 then (if m1 = 0 then .nan else .inf (s1 != s2))
    else roundQ (s1 != s2) (m1 * 2 ^ e1) (m2 * 2 ^ e2)

/-- The position of a Number on the extended real line, scaled by `2^1074`;
`none` for NaN. Both infinities lie beyond every finite value. -/
def key : JSNumber → Option Int
  | .nan => none
  | .inf false => some (2 ^ 4000)
  | .inf true => some (-(2 ^ 4000))
  | .fin false m e => some (m * 2 ^ e)
  | .fin true m e => some (-(m * 2 ^ e))

/-- Strict equality `x === y` on Numbers: NaN equals nothing, `+0 === -0`. -/
def strictEq (x y : JSNumber) : Bool :=
  match key x, key y with
  | some a, some b => decide (a = b)
  | _, _ => false

/-- Relational `x < y`. -/
def lt (x y : JSNumber) : Bool :=
  match key x, key y with
  | some a, some b => decide (a < b)
  | _, _ => false

/-- Relational `x > y`. -/
def gt (x y : JSNumber) : Bool := lt y x

/-- Relational `x >= y`. -/
def ge (x y : JSNumber) : Bool :=
  match key x, key y with
  | some a, some b => decide (b ≤ a)
  | _, _ => false

/-- Global `isFinite` applied to a Number. -/
def isFinite : JSNumber → Bool
  | .fin _ _ _ => true
  | _ => false

/-- Global `isNaN` applied to a Number. -/
def isNaN : JSNumber → Bool
  | .nan => true
  | _ => false

/-- The constant `Number.MAX_SAFE_INTEGER`, `2^53 - 1`. -/
def MAX_SAFE_INTEGER : JSNumber := ofNat (2 ^ 53 - 1)

/-- The literal `0`. -/
def zero : JSNumber := .fin false 0 0

/-- The literal `1e15`. -/
def lit1e15 : JSNumber := ofNat (10 ^ 15)

/-- The literal `1e10`. -/
def lit1e10 : JSNumber := ofNat (10 ^ 10)

/-- The literal `1e-6`. -/
def lit1eNeg6 : JSNumber := roundQ false 1 (10 ^ 6)

/-- Function `Math.round`: the integer nearest to `x`, ties towards `+∞`
(`floor(x + 1/2)`, computed exactly); the sign of a zero result is the sign of
`x`. -/
def round : JSNumber → JSNumber
  | .nan => .nan
  | .inf s => .inf s
  | .fin false m e => roundQ false ((2 * (m * 2 ^ e) + 2 ^ 1074) / (2 * 2 ^ 1074)) 1
  | .fin true m e =>
    roundQ true ((2 * (m * 2 ^ e) - 2 ^ 1074 + (2 * 2 ^ 1074 - 1)) / (2 * 2 ^ 1074)) 1

/-- The value of a finite Number as a rational; `0` for NaN and the infinities. -/
def toRat : JSNumber → ℚ
  | .fin false m e => ((m * 2 ^ e : Nat) : ℚ) / ((2 ^ 1074 : Nat) : ℚ)
  | .fin true m e => -(((m * 2 ^ e : Nat) : ℚ) / ((2 ^ 1074 : Nat) : ℚ))
  | _ => 0

/-! ### Decimal rendering -/

/-- The character of the decimal digit `d % 10`. -/
def digitChar (d : Nat) : Char := Char.ofNat (48 + d % 10)

/-- The sign character of an exponent: `+` when it is not negative, else `-`. -/
def exponentSign (x : Int) : Char := if 0 ≤ x then Char.ofNat 43 else Char.ofNat 45

/-- The text `-` in front of a negative number, nothing otherwise. -/
def signPrefix (neg : Bool) : List Char := if neg then [Char.ofNat 45] else []

/-- The `k` low-order decimal digits of `n`, most significant first. -/
def digitsN : Nat → Nat → List Char
  | 0, _ => []
  | k + 1, n => digitsN k (n / 10) ++ [digitChar n]

/-- Worker of `natDigits`. -/
def natDigitsAux : Nat → Nat → List Char → List Char
  | 0, _, acc => acc
  | fuel + 1, n, acc =>
    if n < 10 then digitChar n :: acc
    else natDigitsAux fuel (n / 10) (digitChar n :: acc)

/-- The decimal representation of a natural number, without leading zeros. The
fuel `n + 1` exceeds the number of digits of `n`. -/
def natDigits (n : Nat) : List Char := natDigitsAux (n + 1) n []

/-- Worker of `leadingZeros`. -/
def leadingZerosAux : Nat → Nat → Nat → Nat → Nat
  | 0, _, _, z => z
  | fuel + 1, n, d, z => if n * 10 ^ (z + 1) < d then leadingZerosAux fuel n d (z + 1) else z

/-- For `0 < n / d < 1`: the number of zeros between the decimal point and the
first significant digit of `n / d`. The fuel `d` exceeds that number. -/
def leadingZeros (n d : Nat) : Nat := leadingZerosAux d n d 0

/-- The decimal position of the positive rational `n / d`: the integer `p` with
`10^(p-1) ≤ n / d < 10^p`. -/
def decPos (n d : Nat) : Int :=
  if d ≤ n then ((natDigits (n / d)).length : Int) else -(leadingZeros n d : Int)

/-- The candidate significand with `k` digits for the positive finite value
`m * 2^e / 2^1074` of decimal position `p`, if one exists: the integer `s`
nearest to `value / 10^(p-k)` among the two neighbours for which
`s * 10^(p-k)` rounds back to the value (ties to the even one), together with
its decimal position (`p + 1` when the upper neighbour is `10^k`). -/
def candidate (m e : Nat) (p : Int) (k : Nat) : Option (Nat × Int) :=
  let up := 10 ^ ((k : Int) - p).toNat
  let down := 10 ^ (p - (k : Int)).toNat
  let lo := m * 2 ^ e * up / (2 ^ 1074 * down)
  let r := m * 2 ^ e * up % (2 ^ 1074 * down)
  let okLo := decide (10 ^ (k - 1) ≤ lo) && decide (roundQ false (lo * down) up = .fin false m e)
  let okHi := decide (roundQ false ((lo + 1) * down) up = .fin false m e)
  let hi : Nat × Int := if lo + 1 = 10 ^ k then (10 ^ (k - 1), p + 1) else (lo + 1, p)
  if okLo && okHi then
    (if 2 * r < 2 ^ 1074 * down ∨ (2 * r = 2 ^ 1074 * down ∧ lo % 2 = 0) then some (lo, p)
     else some hi)
  else if okLo then some (lo, p)
  else if okHi then some hi
  else none

/-- Step 5 of Number::toString for a positive finite value: the digit count
`k`, the significand `s` and the decimal position `n`, with `k` as small as
possible. Seventeen digits always identify a binary64 value. -/
def shortest (m e : Nat) : Nat × Nat × Int :=
  let p := decPos (m * 2 ^ e) (2 ^ 1074)
  match (List.range 17).findSome? (fun i => (candidate m e p (i + 1)).map (fun c => (i + 1, c))) with
  | some r => r
  | none => (17, m * 2 ^ e * 10 ^ ((17 : Int) - p).toNat / (2 ^ 1074 * 10 ^ (p - 17).toNat), p)

/-- Steps 6 to 10 of Number::toString: lay out the digits of `s` (`k` of them)
at decimal position `n`. -/
def layout (k s : Nat) (n : Int) : List Char :=
  if (k : Int) ≤ n ∧ n ≤ 21 then
    digitsN k s ++ List.replicate (n - (k : Int)).toNat (Char.ofNat 48)
  else if 0 < n ∧ n ≤ 21 then
    (digitsN k s).take n.toNat ++ [Char.ofNat 46] ++ (digitsN k s).drop n.toNat
  else if -6 < n ∧ n ≤ 0 then
    [Char.ofNat 48, Char.ofNat 46] ++ List.replicate (-n).toNat (Char.ofNat 48) ++ digitsN k s
  else if k = 1 then
    digitsN k s ++ [Char.ofNat 101] ++ [exponentSign (n - 1)]
      ++ natDigits (n - 1).natAbs
  else
    (digitsN k s).take 1 ++ [Char.ofNat 46] ++ (digitsN k s).drop 1 ++ [Char.ofNat 101]
      ++ [exponentSign (n - 1)] ++ natDigits (n - 1).natAbs

/-- Method `Number.prototype.toString()` (radix 10), ECMA-262 Number::toString. -/
def toString : JSNumber → List Char
  | .nan => [Char.ofNat 78, Char.ofNat 97, Char.ofNat 78]
  | .inf false => "Infinity".toList
  | .inf true => "-Infinity".toList
  | .fin s m e =>
    if m = 0 then [Char.ofNat 48]
    else
      signPrefix s ++
        layout (shortest m e).1 (shortest m e).2.1 (shortest m e).2.2

/-- Method `Number.prototype.toExponential(f)`: one digit, a point, `f` digits
(the significand nearest to the value, ties upwards), then the exponent. -/
def toExponential (x : JSNumber) (f : Nat) : List Char :=
  match x with
  | .nan => toString x
  | .inf _ => toString x
  | .fin s m e =>
    if m = 0 then
      (if f = 0 then [Char.ofNat 48] else [Char.ofNat 48, Char.ofNat 46] ++ List.replicate f (Char.ofNat 48))
        ++ [Char.ofNat 101, Char.ofNat 43, Char.ofNat 48]
    else
      let p := decPos (m * 2 ^ e) (2 ^ 1074)
      let up := 10 ^ (((f : Int) + 1) - p).toNat
      let down := 10 ^ (p - ((f : Int) + 1)).toNat
      let n0 := (2 * (m * 2 ^ e) * up + 2 ^ 1074 * down) / (2 * (2 ^ 1074 * down))
      let n := if n0 = 10 ^ (f + 1) then 10 ^ f else n0
      let ex : Int := if n0 = 10 ^ (f + 1) then p else p - 1
      let ds := digitsN (f + 1) n
      signPrefix s
        ++ (if f = 0 then ds else ds.take 1 ++ [Char.ofNat 46] ++ ds.drop 1)
        ++ [Char.ofNat 101] ++ [exponentSign ex]
        ++ natDigits ex.natAbs

end JSNumber

open JSNumber

/-! ## Global `parseFloat` -/

/-- Membership in StrWhiteSpaceChar (WhiteSpace and LineTerminator code points). -/
def isStrWhiteSpaceChar (c : Char) : Bool :=
  c.toNat ∈ [9, 10, 11, 12, 13, 32, 160, 5760, 8192, 8193, 8194, 8195, 8196, 8197, 8198,
    8199, 8200, 8201, 8202, 8232, 8233, 8239, 8287, 12288, 65279]

/-- Membership in DecimalDigit. -/
def isDecimalDigit (c : Char) : Bool := decide (48 ≤ c.toNat) && decide (c.toNat ≤ 57)

/-- The mathematical value of a string of decimal digits. -/
def digitsValue (ds : List Char) : Nat := ds.foldl (fun acc c => 10 * acc + (c.toNat - 48)) 0

/-- The exponent part at the head of `r`, if there is one: its sign and magnitude
(`e` or `E`, an optional sign, at least one digit). -/
def exponentPart (r : List Char) : Option (Bool × Nat) :=
  match r with
  | c :: r1 =>
    if c = Char.ofNat 101 ∨ c = Char.ofNat 69 then
      match r1 with
      | c1 :: r2 =>
        if c1 = Char.ofNat 45 then
          (if (r2.takeWhile isDecimalDigit).isEmpty then none
           else some (true, digitsValue (r2.takeWhile isDecimalDigit)))
        else if c1 = Char.ofNat 43 then
          (if (r2.takeWhile isDecimalDigit).isEmpty then none
           else some (false, digitsValue (r2.takeWhile isDecimalDigit)))
        else
          (if (r1.takeWhile isDecimalDigit).isEmpty then none
           else some (false, digitsValue (r1.takeWhile isDecimalDigit)))
      | [] => none
    else none
  | [] => none

/-- The Number value of the decimal `mant * 10^(±ex) / 10^scale`. -/
def decimalValue (mant scale : Nat) (ex : Option (Bool × Nat)) : JSNumber :=
  match ex with
  | none => roundQ false mant (10 ^ scale)
  | some (false, x) => roundQ false (mant * 10 ^ x) (10 ^ scale)
  | some (true, x) => roundQ false mant (10 ^ (scale + x))

/-- The value of the longest prefix of `r` that is a StrUnsignedDecimalLiteral;
NaN when no prefix is one. -/
def parseUnsigned (r : List Char) : JSNumber :=
  if "Infinity".toList.isPrefixOf r then .inf false
  else
    let ip := r.takeWhile isDecimalDigit
    let r1 := r.dropWhile isDecimalDigit
    match r1 with
    | c :: r2 =>
      if c = Char.ofNat 46 then
        let fp := r2.takeWhile isDecimalDigit
        let r3 := r2.dropWhile isDecimalDigit
        if ip.isEmpty ∧ fp.isEmpty then .nan
        else decimalValue (digitsValue (ip ++ fp)) fp.length (exponentPart r3)
      else if ip.isEmpty then .nan
      else decimalValue (digitsValue ip) 0 (exponentPart r1)
    | [] => if ip.isEmpty then .nan else decimalValue (digitsValue ip) 0 none

/-- Global `parseFloat` (ECMA-262 19.2.4): skip leading white space, take the
longest prefix that is a StrDecimalLiteral, and return its Number value; NaN when
there is no such prefix. -/
def parseFloat (s : List Char) : JSNumber :=
  match s.dropWhile isStrWhiteSpaceChar with
  | c :: r =>
    if c = Char.ofNat 45 then JSNumber.neg (parseUnsigned r)
    else if c = Char.ofNat 43 then parseUnsigned r
    else parseUnsigned (c :: r)
  | [] => .nan

/-! ## The calculator -/

/-- The global `calculatorState` object. The fields `previousNumber`, `operation`
and `lastResult` hold `null` or a string. -/
structure CalculatorState where
  currentNumber : List Char
  previousNumber : Option (List Char)
  operation : Option (List Char)
  waitingForNewNumber : Bool
  lastResult : Option (List Char)
  isInitialState : Bool
deriving DecidableEq

/-- The part of the page the script reads and writes: the state object and the
`textContent` of the element with id `display` (`none` when the page has no such
element). -/
structure Page where
  calculatorState : CalculatorState
  display : Option (List Char)
deriving DecidableEq

/-- The object literal that initialises `calculatorState`. -/
def initialState : CalculatorState :=
  { currentNumber := [Char.ofNat 48], previousNumber := none, operation := none,
    waitingForNewNumber := false, lastResult := none, isInitialState := true }

/-- The string `'Error'`. -/
def errorString : List Char := "Error".toList

/-- Function `formatNumber(number)`. -/
def formatNumber (number : JSNumber) : List Char :=
  if !isFinite number then errorString
  else if strictEq number zero then [Char.ofNat 48]
  else if gt (abs number) MAX_SAFE_INTEGER then toExponential number 6
  else if ge (abs number) lit1e15 || (lt (abs number) lit1eNeg6 && !strictEq number zero) then
    toExponential number 6
  else
    let rounded := div (JSNumber.round (mul number lit1e10)) lit1e10
    let resultString := JSNumber.toString rounded
    if 20 < resultString.length then toExponential number 6
    else resultString

/-- The string that `updateDisplay` assigns to `display.textContent`. -/
def displayValue (st : CalculatorState) : List Char :=
  let shown :=
    if !st.waitingForNewNumber && !st.isInitialState && !isNaN (parseFloat st.currentNumber)
        && decide (st.currentNumber ≠ errorString) then
      if Char.ofNat 46 ∈ st.currentNumber ∧
          6 < (((st.currentNumber.dropWhile (fun c => c != Char.ofNat 46)).drop 1).takeWhile
            (fun c => c != Char.ofNat 46)).length then
        formatNumber (parseFloat st.currentNumber)
      else if ge (abs (parseFloat st.currentNumber)) lit1e10 then
        formatNumber (parseFloat st.currentNumber)
      else st.currentNumber
    else st.currentNumber
  if 12 < shown.length ∧ shown ≠ errorString then
    if !isNaN (parseFloat shown) then formatNumber (parseFloat shown)
    else shown.take 12
  else shown

/-- Function `updateDisplay()`: when the display element exists, write the
display value into it. -/
def updateDisplay (p : Page) : Page :=
  match p.display with
  | some _ => { p with display := some (displayValue p.calculatorState) }
  | none => p

/-- Function `clear()`. -/
def clear (p : Page) : Page :=
  updateDisplay { p with calculatorState :=
    { p.calculatorState with
      currentNumber := [Char.ofNat 48]
      previousNumber := none
      operation := none
      waitingForNewNumber := false
      lastResult := none
      isInitialState := true } }

/-- Function `resetState()`. -/
def resetState (p : Page) : Page := clear p

/-- The tail of the digit branch of `inputNumber` (source lines 159-170): `st` is
the state as already modified, `newNumber` the candidate entry. -/
def inputNumberCommit (p : Page) (st : CalculatorState) (newNumber : List Char) : Page :=
  if !isNaN (parseFloat newNumber) && gt (abs (parseFloat newNumber)) MAX_SAFE_INTEGER then
    { p with calculatorState := st }
  else
    updateDisplay { p with calculatorState := { st with currentNumber := newNumber } }

/-- Function `inputNumber(number)`. -/
def inputNumber (p : Page) (number : List Char) : Page :=
  if number = [Char.ofNat 46] then
    if Char.ofNat 46 ∈ p.calculatorState.currentNumber then p
    else if p.calculatorState.waitingForNewNumber then
      updateDisplay { p with calculatorState :=
        { p.calculatorState with
          currentNumber := [Char.ofNat 48, Char.ofNat 46]
          waitingForNewNumber := false } }
    else if 12 ≤ p.calculatorState.currentNumber.length then p
    else
      updateDisplay { p with calculatorState :=
        { p.calculatorState with
          currentNumber := p.calculatorState.currentNumber ++ [Char.ofNat 46] } }
  else if p.calculatorState.waitingForNewNumber then
    inputNumberCommit p
      { p.calculatorState with waitingForNewNumber := false, isInitialState := false } number
  else if p.calculatorState.isInitialState then
    inputNumberCommit p { p.calculatorState with isInitialState := false } number
  else if 12 ≤ p.calculatorState.currentNumber.length then p
  else inputNumberCommit p p.calculatorState (p.calculatorState.currentNumber ++ number)

/-- The error block of `calculate` (source lines 225-231 and 241-247). -/
def calculateError (p : Page) : Page :=
  updateDisplay { p with calculatorState :=
    { p.calculatorState with
      currentNumber := errorString
      previousNumber := none
      operation := none
      waitingForNewNumber := true
      lastResult := none } }

/-- The part of `calculate` after the `switch` (source lines 239-262). -/
def calculateFinish (p : Page) (result : JSNumber) : Page :=
  if !isFinite result then calculateError p
  else
    updateDisplay { p with calculatorState :=
      { p.calculatorState with
        currentNumber := formatNumber result
        lastResult := some (formatNumber result)
        previousNumber := none
        operation := none
        waitingForNewNumber := true
        isInitialState := false } }

/-- Function `calculate()`. -/
def calculate (p : Page) : Page :=
  match p.calculatorState.previousNumber, p.calculatorState.operation with
  | some previousNumber, some operation =>
    if operation = [Char.ofNat 43] then
      calculateFinish p (add (parseFloat previousNumber) (parseFloat p.calculatorState.currentNumber))
    else if operation = [Char.ofNat 45] then
      calculateFinish p (sub (parseFloat previousNumber) (parseFloat p.calculatorState.currentNumber))
    else if operation = [Char.ofNat 215] then
      calculateFinish p (mul (parseFloat previousNumber) (parseFloat p.calculatorState.currentNumber))
    else if operation = [Char.ofNat 247] then
      if strictEq (parseFloat p.calculatorState.currentNumber) zero then calculateError p
      else
        calculateFinish p
          (div (parseFloat previousNumber) (parseFloat p.calculatorState.currentNumber))
    else p
  | _, _ => p

/-- The part of `inputOperation` after the pending calculation (source lines
183-196): store the entry and the operator, then refresh the display. -/
def inputOperationStore (p : Page) (operation : List Char) : Page :=
  let currentNumber := p.calculatorState.currentNumber
  updateDisplay { p with calculatorState :=
    { p.calculatorState with
      previousNumber := some currentNumber
      operation := some operation
      waitingForNewNumber := true
      isInitialState := false } }

/-- Function `inputOperation(operation)`. -/
def inputOperation (p : Page) (operation : List Char) : Page :=
  inputOperationStore
    (if p.calculatorState.previousNumber ≠ none ∧ p.calculatorState.operation ≠ none ∧
        p.calculatorState.waitingForNewNumber = false then calculate p
     else p)
    operation

/-- Abstract relational comparison `x < y` on strings (ECMA-262 IsLessThan):
lexicographic order of the code units; a proper prefix is smaller. -/
def strLt : List Char → List Char → Bool
  | _, [] => false
  | [], _ :: _ => true
  | a :: as, b :: bs =>
    if a.toNat < b.toNat then true
    else if b.toNat < a.toNat then false
    else strLt as bs

/-- What `handleKeyboard(event)` leaves behind: the page, and whether
`event.preventDefault()` was called. -/
structure KeyboardResult where
  page : Page
  defaultPrevented : Bool
deriving DecidableEq

/-- The `Backspace` case of `handleKeyboard` (source lines 313-323), after the call
of `event.preventDefault()`. -/
def handleKeyboardBackspace (p : Page) : Page :=
  let currentNumber := p.calculatorState.currentNumber
  if 1 < currentNumber.length then
    updateDisplay { p with calculatorState :=
      { p.calculatorState with currentNumber := currentNumber.dropLast } }
  else
    updateDisplay { p with calculatorState :=
      { p.calculatorState with
        currentNumber := [Char.ofNat 48]
        isInitialState := true } }

/-- Function `handleKeyboard(event)`, as a function of `event.key`. The test
`key >= '0' && key <= '9'` compares strings. -/
def handleKeyboard (p : Page) (key : List Char) : KeyboardResult :=
  if !strLt key [Char.ofNat 48] && !strLt [Char.ofNat 57] key then
    { page := inputNumber p key, defaultPrevented := true }
  else if key = [Char.ofNat 46] ∨ key = [Char.ofNat 44] then
    { page := inputNumber p [Char.ofNat 46], defaultPrevented := true }
  else if key = [Char.ofNat 43] then
    { page := inputOperation p [Char.ofNat 43], defaultPrevented := true }
  else if key = [Char.ofNat 45] then
    { page := inputOperation p [Char.ofNat 45], defaultPrevented := true }
  else if key = [Char.ofNat 42] then
    { page := inputOperation p [Char.ofNat 215], defaultPrevented := true }
  else if key = [Char.ofNat 47] then
    { page := inputOperation p [Char.ofNat 247], defaultPrevented := true }
  else if key = "Enter".toList ∨ key = [Char.ofNat 61] then
    { page := calculate p, defaultPrevented := true }
  else if key = "Escape".toList ∨ key = [Char.ofNat 99] ∨ key = [Char.ofNat 67] then
    { page := clear p, defaultPrevented := true }
  else if key = "Backspace".toList then
    { page := handleKeyboardBackspace p, defaultPrevented := true }
  else
    { page := p, defaultPrevented := false }

/-! ## Vocabulary of the properties -/

/-- The arithmetic `a op b` that `calculate` performs for the operator string `op`
(`+`, `-`, `×`, `÷`); NaN stands for any other string. -/
def applyOperator (op : List Char) (a b : JSNumber) : JSNumber :=
  if op = [Char.ofNat 43] then add a b
  else if op = [Char.ofNat 45] then sub a b
  else if op = [Char.ofNat 215] then mul a b
  else if op = [Char.ofNat 247] then div a b
  else .nan

/-- The operator strings `+`, `-`, `×` and `÷`. -/
def IsOperator (op : List Char) : Prop :=
  op = [Char.ofNat 43] ∨ op = [Char.ofNat 45] ∨ op = [Char.ofNat 215] ∨ op = [Char.ofNat 247]

instance (op : List Char) : Decidable (IsOperator op) := by unfold IsOperator; infer_instance

/-- The state `calculate` leaves behind on an error. The flag `isInitialState` is
not written by the error block and keeps the value `i`. -/
def errorState (i : Bool) : CalculatorState :=
  { currentNumber := errorString, previousNumber := none, operation := none,
    waitingForNewNumber := true, lastResult := none, isInitialState := i }

/-- A page whose display element exists, holding the state `st`. -/
def pageOf (st : CalculatorState) : Page := { calculatorState := st, display := some st.currentNumber }

/-- A state with a pending operation: entry `cur`, stored operand `prev`, stored
operator `op`, not waiting for a new number. -/
def pendingState (prev op cur : List Char) : CalculatorState :=
  { currentNumber := cur, previousNumber := some prev, operation := some op,
    waitingForNewNumber := false, lastResult := none, isInitialState := false }

/-- The typed sequence with every `.` after the first one removed. -/
def dropLaterPoints : List Char → List Char
  | [] => []
  | c :: cs =>
    if c = Char.ofNat 46 then c :: cs.filter (fun x => x != Char.ofNat 46)
    else c :: dropLaterPoints cs

/-- A single input of the number pad: a decimal digit or the decimal point. -/
def IsDigitOrPoint (c : Char) : Prop := isDecimalDigit c = true ∨ c = Char.ofNat 46

instance (c : Char) : Decidable (IsDigitOrPoint c) := by unfold IsDigitOrPoint; infer_instance

/-- An entry under construction: the calculator is neither waiting for a new
number nor in its initial state, and the entry starts with a digit, consists of
digits and at most one decimal point, and has at most twelve characters. -/
def TypingEntry (st : CalculatorState) : Prop :=
  st.waitingForNewNumber = false ∧ st.isInitialState = false ∧
    (∃ d r, st.currentNumber = d :: r ∧ isDecimalDigit d = true) ∧
    (∀ c ∈ st.currentNumber, IsDigitOrPoint c) ∧
    st.currentNumber.count (Char.ofNat 46) ≤ 1 ∧ st.currentNumber.length ≤ 12

/-- A state right after the result `cur`: nothing pending, waiting for a new
number. -/
def waitingState (cur : List Char) : CalculatorState :=
  { currentNumber := cur, previousNumber := none, operation := none,
    waitingForNewNumber := true, lastResult := some cur, isInitialState := false }

/-- The inputs of the calculator: the ten digits, the decimal point, the four
operators, equals, clear and the Backspace key. -/
inductive Key where
  | digit (n : Fin 10)
  | point
  | plus
  | minus
  | times
  | divide
  | equals
  | clear
  | backspace
deriving DecidableEq

/-- The effect of one input: digits and the decimal point go to `inputNumber`, the
operators to `inputOperation`, equals to `calculate`, clear to `clear`, and
Backspace to `handleKeyboard` with the key `Backspace`. -/
def press (p : Page) : Key → Page
  | .digit n => inputNumber p [digitChar n.val]
  | .point => inputNumber p [Char.ofNat 46]
  | .plus => inputOperation p [Char.ofNat 43]
  | .minus => inputOperation p [Char.ofNat 45]
  | .times => inputOperation p [Char.ofNat 215]
  | .divide => inputOperation p [Char.ofNat 247]
  | .equals => calculate p
  | .clear => Calculator.clear p
  | .backspace => (handleKeyboard p "Backspace".toList).page

/-- The pages reachable from `clear()` through the inputs of `Key`. -/
def Reachable (q : Page) : Prop := ∃ p keys, q = List.foldl press (clear p) keys

/-- The shape of a typed entry: it starts with a digit, consists of digits and at
most one decimal point, and has at most twelve characters. -/
def EntryShape (s : List Char) : Prop :=
  (∃ d r, s = d :: r ∧ isDecimalDigit d = true) ∧ (∀ c ∈ s, IsDigitOrPoint c) ∧
    s.count (Char.ofNat 46) ≤ 1 ∧ s.length ≤ 12

/-- The number of decimal digits in a string. -/
def digitCount (s : List Char) : Nat := s.countP isDecimalDigit

/-- The page `p` with `lastResult` replaced by `l`. -/
def setLastResult (p : Page) (l : Option (List Char)) : Page :=
  { p with calculatorState := { p.calculatorState with lastResult := l } }

/-- Two pages that agree on everything but `lastResult`: on `currentNumber`,
`previousNumber`, `operation`, `waitingForNewNumber`, `isInitialState` and on the
displayed string. -/
def AgreeExceptLastResult (p q : Page) : Prop :=
  p.calculatorState.currentNumber = q.calculatorState.currentNumber ∧
    p.calculatorState.previousNumber = q.calculatorState.previousNumber ∧
    p.calculatorState.operation = q.calculatorState.operation ∧
    p.calculatorState.waitingForNewNumber = q.calculatorState.waitingForNewNumber ∧
    p.calculatorState.isInitialState = q.calculatorState.isInitialState ∧
    p.display = q.display

/-- The values of the model that are Numbers: NaN, the two infinities, and the
finite values in canonical form (`m < 2^53`, `e ≤ 2045`, and `m < 2^52` only for
`e = 0`). -/
def IsNumber : JSNumber → Prop
  | .fin _ m e => m < 2 ^ 53 ∧ e ≤ 2045 ∧ (e = 0 ∨ 2 ^ 52 ≤ m)
  | _ => True

instance (x : JSNumber) : Decidable (IsNumber x) := by
  cases x <;> unfold IsNumber <;> infer_instance

/-- The function `formatNumber` with the test against `MAX_SAFE_INTEGER` (source
lines 24-28) removed; everything else is as in `formatNumber`. -/
def formatNumberNoSafeBranch (number : JSNumber) : List Char :=
  if !isFinite number then errorString
  else if strictEq number zero then [Char.ofNat 48]
  else if ge (abs number) lit1e15 || (lt (abs number) lit1eNeg6 && !strictEq number zero) then
    toExponential number 6
  else
    let rounded := div (JSNumber.round (mul number lit1e10)) lit1e10
    let resultString := JSNumber.toString rounded
    if 20 < resultString.length then toExponential number 6
    else resultString

/-- The string `newNumber` that the digit branch of `inputNumber` builds for the
digit `d` (source lines 138-155): the digit alone when a new number starts, the
entry with the digit appended otherwise. -/
def digitCandidate (st : CalculatorState) (d : Char) : List Char :=
  if st.waitingForNewNumber || st.isInitialState then [d] else st.currentNumber ++ [d]

/-! ## Basic facts -/

@[simp]
theorem updateDisplay_calculatorState (p : Page) :
    (updateDisplay p).calculatorState = p.calculatorState := by
  unfold updateDisplay; split <;> rfl

theorem calculateError_state (p : Page) :
    (calculateError p).calculatorState = errorState p.calculatorState.isInitialState := by
  simp [calculateError, errorState]

theorem calculateFinish_state (p : Page) (r : JSNumber) (h : isFinite r = true) :
    (calculateFinish p r).calculatorState =
      { currentNumber := formatNumber r, previousNumber := none, operation := none,
        waitingForNewNumber := true, lastResult := some (formatNumber r),
        isInitialState := false } := by
  simp [calculateFinish, h]

theorem calculateFinish_not_finite (p : Page) (r : JSNumber) (h : isFinite r = false) :
    calculateFinish p r = calculateError p := by
  simp [calculateFinish, h]

/-- What `calculate` does once `previousNumber` is set and `operation` is one of
the four operators. -/
theorem calculate_eq (p : Page) (prev op : List Char)
    (hprev : p.calculatorState.previousNumber = some prev)
    (hop : p.calculatorState.operation = some op) (h4 : IsOperator op) :
    calculate p =
      if op = [Char.ofNat 247] ∧ strictEq (parseFloat p.calculatorState.currentNumber) zero = true
      then calculateError p
      else calculateFinish p
        (applyOperator op (parseFloat prev) (parseFloat p.calculatorState.currentNumber)) := by
  unfold calculate
  rw [hprev, hop]
  rcases h4 with h | h | h | h <;> subst h <;> simp [applyOperator]

theorem calculate_of_not_pending (p : Page)
    (h : p.calculatorState.previousNumber = none ∨ p.calculatorState.operation = none) :
    calculate p = p := by
  unfold calculate
  rcases h with h | h
  · rw [h]
  · rw [h]; cases p.calculatorState.previousNumber <;> rfl

theorem inputOperationStore_state (p : Page) (op : List Char) :
    (inputOperationStore p op).calculatorState =
      { p.calculatorState with
        previousNumber := some p.calculatorState.currentNumber, operation := some op,
        waitingForNewNumber := true, isInitialState := false } := by
  simp [inputOperationStore]

theorem inputOperation_of_not_triggered (p : Page) (op : List Char)
    (h : p.calculatorState.previousNumber = none ∨ p.calculatorState.operation = none ∨
      p.calculatorState.waitingForNewNumber = true) :
    inputOperation p op = inputOperationStore p op := by
  unfold inputOperation
  rw [if_neg]
  rintro ⟨h1, h2, h3⟩
  rcases h with h | h | h
  · exact h1 h
  · exact h2 h
  · rw [h3] at h; exact Bool.noConfusion h

theorem isNaN_eq_true (x : JSNumber) : isNaN x = true ↔ x = .nan := by
  cases x <;> simp [isNaN]

theorem add_nan_right (x : JSNumber) : add x .nan = .nan := by cases x <;> rfl
theorem sub_nan_right (x : JSNumber) : sub x .nan = .nan := by cases x <;> rfl
theorem mul_nan_right (x : JSNumber) : mul x .nan = .nan := by cases x <;> rfl
theorem div_nan_right (x : JSNumber) : div x .nan = .nan := by cases x <;> rfl

theorem applyOperator_nan_left (op : List Char) (y : JSNumber) :
    applyOperator op .nan y = .nan := by
  unfold applyOperator; split_ifs <;> first | rfl | (cases y <;> rfl)

theorem applyOperator_nan_right (op : List Char) (x : JSNumber) :
    applyOperator op x .nan = .nan := by
  unfold applyOperator
  split_ifs
  · exact add_nan_right x
  · exact sub_nan_right x
  · exact mul_nan_right x
  · exact div_nan_right x
  · rfl

/-- The invariant behind C6: once the calculator waits for a new number with the
entry copied into `previousNumber`, further operator presses only replace
`operation`. -/
theorem foldl_inputOperation_waiting (ops : List (List Char)) (q : Page) (op0 : List Char)
    (hw : q.calculatorState.waitingForNewNumber = true)
    (hp : q.calculatorState.previousNumber = some q.calculatorState.currentNumber)
    (ho : q.calculatorState.operation = some op0) :
    (ops.foldl inputOperation q).calculatorState.operation =
        some ((op0 :: ops).getLast (List.cons_ne_nil _ _)) ∧
      (ops.foldl inputOperation q).calculatorState.previousNumber =
        q.calculatorState.previousNumber ∧
      (ops.foldl inputOperation q).calculatorState.currentNumber =
        q.calculatorState.currentNumber := by
  induction ops generalizing q op0 with
  | nil => exact ⟨by simpa using ho, rfl, rfl⟩
  | cons op rest ih =>
    have hs : (inputOperation q op).calculatorState =
        { q.calculatorState with
          previousNumber := some q.calculatorState.currentNumber, operation := some op,
          waitingForNewNumber := true, isInitialState := false } := by
      rw [inputOperation_of_not_triggered q op (Or.inr (Or.inr hw)), inputOperationStore_state]
    have := ih (inputOperation q op) op (by rw [hs]) (by rw [hs]) (by rw [hs])
    rw [List.foldl_cons]
    refine ⟨?_, ?_, ?_⟩
    · rw [this.1, List.getLast_cons (List.cons_ne_nil _ _)]
    · rw [this.2.1, hs, hp]
    · rw [this.2.2, hs]

/-! ## A formatted finite number is never the text `Error` -/

theorem digitChar_ne_E (d : Nat) : digitChar d ≠ Char.ofNat 69 := by
  unfold digitChar
  have h : d % 10 < 10 := Nat.mod_lt _ (by decide)
  generalize d % 10 = r at h
  interval_cases r <;> decide

theorem E_not_mem_digitsN (k n : Nat) : Char.ofNat 69 ∉ digitsN k n := by
  induction k generalizing n with
  | zero => simp [digitsN]
  | succ k ih =>
    simp only [digitsN, List.mem_append, List.mem_singleton, not_or]
    exact ⟨ih _, fun h => digitChar_ne_E _ h.symm⟩

theorem E_not_mem_natDigitsAux (fuel n : Nat) (acc : List Char)
    (hacc : Char.ofNat 69 ∉ acc) : Char.ofNat 69 ∉ natDigitsAux fuel n acc := by
  induction fuel generalizing n acc with
  | zero => simpa [natDigitsAux] using hacc
  | succ fuel ih =>
    unfold natDigitsAux
    split_ifs
    · simp only [List.mem_cons, not_or]
      exact ⟨fun h => digitChar_ne_E _ h.symm, hacc⟩
    · apply ih
      simp only [List.mem_cons, not_or]
      exact ⟨fun h => digitChar_ne_E _ h.symm, hacc⟩

theorem E_not_mem_natDigits (n : Nat) : Char.ofNat 69 ∉ natDigits n :=
  E_not_mem_natDigitsAux _ _ _ (List.not_mem_nil _)

theorem E_not_mem_append {a b : List Char} (ha : Char.ofNat 69 ∉ a) (hb : Char.ofNat 69 ∉ b) :
    Char.ofNat 69 ∉ a ++ b := by
  simp only [List.mem_append, not_or]
  exact ⟨ha, hb⟩

theorem E_not_mem_take {l : List Char} (h : Char.ofNat 69 ∉ l) (n : Nat) :
    Char.ofNat 69 ∉ l.take n := fun hm => h (List.mem_of_mem_take hm)

theorem E_not_mem_drop {l : List Char} (h : Char.ofNat 69 ∉ l) (n : Nat) :
    Char.ofNat 69 ∉ l.drop n := fun hm => h (List.mem_of_mem_drop hm)

theorem E_not_mem_replicate (n : Nat) (c : Char) (hc : c ≠ Char.ofNat 69) :
    Char.ofNat 69 ∉ List.replicate n c := by
  intro h
  exact hc (List.eq_of_mem_replicate h).symm

theorem E_not_mem_sign (x : Int) : Char.ofNat 69 ∉ [exponentSign x] := by
  unfold exponentSign
  split_ifs <;> decide

theorem E_not_mem_signPrefix (s : Bool) : Char.ofNat 69 ∉ signPrefix s := by
  cases s <;> decide

theorem E_not_mem_layout (k s : Nat) (n : Int) : Char.ofNat 69 ∉ layout k s n := by
  have hd := E_not_mem_digitsN k s
  have h0 : ∀ j, Char.ofNat 69 ∉ List.replicate j (Char.ofNat 48) :=
    fun j => E_not_mem_replicate j _ (by decide)
  have hdot : Char.ofNat 69 ∉ [Char.ofNat 46] := by decide
  have he : Char.ofNat 69 ∉ [Char.ofNat 101] := by decide
  have hz : Char.ofNat 69 ∉ [Char.ofNat 48, Char.ofNat 46] := by decide
  have hx := E_not_mem_natDigits (n - 1).natAbs
  unfold layout
  split_ifs
  · exact E_not_mem_append hd (h0 _)
  · exact E_not_mem_append (E_not_mem_append (E_not_mem_take hd _) hdot) (E_not_mem_drop hd _)
  · exact E_not_mem_append (E_not_mem_append hz (h0 _)) hd
  · exact E_not_mem_append (E_not_mem_append (E_not_mem_append hd he) (E_not_mem_sign _)) hx
  · exact E_not_mem_append (E_not_mem_append (E_not_mem_append (E_not_mem_append
      (E_not_mem_append (E_not_mem_take hd _) hdot) (E_not_mem_drop hd _)) he)
      (E_not_mem_sign _)) hx

theorem E_not_mem_toString (x : JSNumber) : Char.ofNat 69 ∉ JSNumber.toString x := by
  cases x with
  | nan => decide
  | inf s => cases s <;> decide
  | fin s m e =>
    simp only [JSNumber.toString]
    split_ifs
    · decide
    · exact E_not_mem_append (E_not_mem_signPrefix s) (E_not_mem_layout _ _ _)

theorem E_not_mem_toExponential (x : JSNumber) (f : Nat) :
    Char.ofNat 69 ∉ toExponential x f := by
  cases x with
  | nan => simp only [toExponential]; exact E_not_mem_toString _
  | inf s => simp only [toExponential]; exact E_not_mem_toString _
  | fin s m e =>
    have h0 : ∀ j, Char.ofNat 69 ∉ List.replicate j (Char.ofNat 48) :=
      fun j => E_not_mem_replicate j _ (by decide)
    have hdot : Char.ofNat 69 ∉ [Char.ofNat 46] := by decide
    have he : Char.ofNat 69 ∉ [Char.ofNat 101] := by decide
    have hd := fun k n => E_not_mem_digitsN k n
    simp only [toExponential]
    split_ifs
    · exact E_not_mem_append (by decide) (by decide)
    · exact E_not_mem_append (E_not_mem_append (by decide) (h0 _)) (by decide)
    all_goals
      refine E_not_mem_append (E_not_mem_append (E_not_mem_append (E_not_mem_append
        (E_not_mem_signPrefix s) ?_) he) (E_not_mem_sign _)) (E_not_mem_natDigits _)
      first
        | exact hd _ _
        | exact E_not_mem_append (E_not_mem_append (E_not_mem_take (hd _ _) _) hdot)
            (E_not_mem_drop (hd _ _) _)

/-- A finite number is never formatted as the text `Error`. -/
theorem formatNumber_ne_error (x : JSNumber) (h : isFinite x = true) :
    formatNumber x ≠ errorString := by
  have key : Char.ofNat 69 ∉ formatNumber x := by
    unfold formatNumber
    rw [h]
    simp only [Bool.not_true, Bool.false_eq_true, if_false]
    split_ifs
    · decide
    · exact E_not_mem_toExponential _ _
    · exact E_not_mem_toExponential _ _
    · exact E_not_mem_toExponential _ _
    · exact E_not_mem_toString _
  intro he
  rw [he] at key
  exact key (by decide)

/-! ## Typing digits -/

theorem expOf_spec (t : Nat) : expOf t = 0 ∨ 2 ^ (52 + expOf t) ≤ t := by
  have step : ∀ (bs : List Nat) (e0 : Nat), (e0 = 0 ∨ 2 ^ (52 + e0) ≤ t) →
      (bs.foldl (fun e b => if 2 ^ (52 + e + b) ≤ t then e + b else e) e0 = 0 ∨
        2 ^ (52 + bs.foldl (fun e b => if 2 ^ (52 + e + b) ≤ t then e + b else e) e0) ≤ t) := by
    intro bs
    induction bs with
    | nil => intro e0 h; exact h
    | cons b bs ih =>
      intro e0 h
      rw [List.foldl_cons]
      apply ih
      split_ifs with hb
      · right; rw [← Nat.add_assoc]; exact hb
      · exact h
  exact step _ 0 (Or.inl rfl)

theorem MAX_SAFE_INTEGER_eq : MAX_SAFE_INTEGER = .fin false (2 ^ 53 - 1) 1074 := by decide!

/-- The shape of a rounded non-zero rational: the significand is the quotient or
its successor, renormalised when it reaches `2^53`. -/
theorem roundQ_shape (neg : Bool) (n d : Nat) (h0 : n ≠ 0) :
    ∃ q1, q1 ≤ n * 2 ^ 1074 / (d * 2 ^ expOf (n * 2 ^ 1074 / d)) + 1 ∧
      roundQ neg n d =
        if 2045 < (if q1 = 2 ^ 53 then expOf (n * 2 ^ 1074 / d) + 1
            else expOf (n * 2 ^ 1074 / d)) then .inf neg
        else .fin neg (if q1 = 2 ^ 53 then 2 ^ 52 else q1)
          (if q1 = 2 ^ 53 then expOf (n * 2 ^ 1074 / d) + 1 else expOf (n * 2 ^ 1074 / d)) := by
  refine ⟨if d * 2 ^ expOf (n * 2 ^ 1074 / d) <
        2 * (n * 2 ^ 1074 % (d * 2 ^ expOf (n * 2 ^ 1074 / d))) ∨
      (2 * (n * 2 ^ 1074 % (d * 2 ^ expOf (n * 2 ^ 1074 / d))) =
          d * 2 ^ expOf (n * 2 ^ 1074 / d) ∧
        n * 2 ^ 1074 / (d * 2 ^ expOf (n * 2 ^ 1074 / d)) % 2 = 1)
      then n * 2 ^ 1074 / (d * 2 ^ expOf (n * 2 ^ 1074 / d)) + 1
      else n * 2 ^ 1074 / (d * 2 ^ expOf (n * 2 ^ 1074 / d)), ?_, ?_⟩
  · split_ifs
    · exact le_refl _
    · exact Nat.le_succ _
  · rw [roundQ, if_neg h0]

set_option exponentiation.threshold 2000 in
/-- A natural number below `2^40` converts to a finite Number that does not exceed
`Number.MAX_SAFE_INTEGER`. -/
theorem roundQ_small (n : Nat) (hn : n < 2 ^ 40) :
    ∃ m e, roundQ false n 1 = .fin false m e ∧ m * 2 ^ e ≤ (2 ^ 53 - 1) * 2 ^ 1074 := by
  by_cases h0 : n = 0
  · subst h0
    exact ⟨0, 0, rfl, by rw [Nat.zero_mul]; exact Nat.zero_le _⟩
  · obtain ⟨q1, hq1, hr⟩ := roundQ_shape false n 1 h0
    rw [hr]
    rw [Nat.div_one, Nat.one_mul] at *
    have hspec := expOf_spec (n * 2 ^ 1074)
    generalize hP : (2 : Nat) ^ 1074 = P at *
    have hPpos : 0 < P := hP ▸ Nat.pow_pos (by decide)
    generalize he : expOf (n * P) = e at *
    have hlt : n * P < 2 ^ 1114 := by
      have : (2 : Nat) ^ 1114 = 2 ^ 40 * 2 ^ 1074 := by rw [← Nat.pow_add]
      rw [this, hP]
      exact Nat.mul_lt_mul_of_pos_right hn hPpos
    have hebound : e ≤ 1061 := by
      rcases hspec with h | h
      · omega
      · have h2 : 2 ^ (52 + e) < 2 ^ 1114 := lt_of_le_of_lt h hlt
        have := (Nat.pow_lt_pow_iff_right (by decide : 1 < 2)).1 h2
        omega
    have hpe : 2 ^ e ≤ 2 ^ 1061 := Nat.pow_le_pow_right (by decide) hebound
    have hEP : 2 ^ e ≤ P := by
      rw [← hP]
      exact le_trans hpe (Nat.pow_le_pow_right (by decide) (by decide))
    have hbound : q1 * 2 ^ e ≤ (2 ^ 53 - 1) * P := by
      have h0 : q1 * 2 ^ e ≤ (n * P / 2 ^ e + 1) * 2 ^ e := Nat.mul_le_mul_right _ hq1
      have hq : n * P / 2 ^ e * 2 ^ e ≤ n * P := Nat.div_mul_le_self _ _
      have h1 : (n * P / 2 ^ e + 1) * 2 ^ e ≤ n * P + 2 ^ e := by
        rw [Nat.add_mul, Nat.one_mul]; omega
      have h2 : n * P + 2 ^ e ≤ 2 ^ 40 * P + P := by
        have : n * P ≤ 2 ^ 40 * P := Nat.mul_le_mul_right _ (le_of_lt hn)
        omega
      have h3 : 2 ^ 40 * P + P ≤ (2 ^ 53 - 1) * P := by
        have : 2 ^ 40 * P + P = (2 ^ 40 + 1) * P := by rw [Nat.add_mul, Nat.one_mul]
        rw [this]
        exact Nat.mul_le_mul_right _ (by decide)
      exact le_trans h0 (le_trans h1 (le_trans h2 h3))
    by_cases hq : q1 = 2 ^ 53
    · rw [if_pos hq, if_pos hq, if_neg (by omega)]
      refine ⟨_, _, rfl, ?_⟩
      have : (2 : Nat) ^ 52 * 2 ^ (e + 1) = 2 ^ 53 * 2 ^ e := by
        have hexp : 52 + (e + 1) = 53 + e := by omega
        rw [← Nat.pow_add, ← Nat.pow_add, hexp]
      rw [this]
      rw [hq] at hbound
      exact hbound
    · rw [if_neg hq, if_neg hq, if_neg (by omega)]
      exact ⟨_, _, rfl, hbound⟩

/-- The safe-integer guard of `inputNumber` is passed by every Number obtained
from a natural number below `2^40`. -/
theorem guard_small (n : Nat) (hn : n < 2 ^ 40) :
    gt (abs (roundQ false n 1)) MAX_SAFE_INTEGER = false := by
  obtain ⟨m, e, hr, hb⟩ := roundQ_small n hn
  rw [hr, MAX_SAFE_INTEGER_eq]
  simp only [JSNumber.abs, JSNumber.gt, JSNumber.lt, JSNumber.key, decide_eq_false_iff_not, not_lt]
  exact_mod_cast hb

theorem isDecimalDigit_iff (c : Char) :
    isDecimalDigit c = true ↔ 48 ≤ c.toNat ∧ c.toNat ≤ 57 := by
  simp [isDecimalDigit]

theorem digit_ne_of_toNat (c : Char) (hc : isDecimalDigit c = true) (k : Nat)
    (hk : (Char.ofNat k).toNat < 48 ∨ 57 < (Char.ofNat k).toNat) : c ≠ Char.ofNat k := by
  intro h
  rw [isDecimalDigit_iff, h] at hc
  omega

theorem not_whiteSpace_of_digit (c : Char) (hc : isDecimalDigit c = true) :
    isStrWhiteSpaceChar c = false := by
  rw [isDecimalDigit_iff] at hc
  simp only [isStrWhiteSpaceChar, decide_eq_false_iff_not, List.mem_cons, List.mem_singleton,
    List.not_mem_nil, or_false]
  omega

theorem digitsValue_foldl_lt (ds : List Char) (hd : ∀ c ∈ ds, isDecimalDigit c = true)
    (acc : Nat) :
    ds.foldl (fun acc c => 10 * acc + (c.toNat - 48)) acc < (acc + 1) * 10 ^ ds.length := by
  induction ds generalizing acc with
  | nil => simp
  | cons c ds ih =>
    have hc := (isDecimalDigit_iff c).1 (hd c (List.mem_cons_self _ _))
    have h := ih (fun x hx => hd x (List.mem_cons_of_mem _ hx)) (10 * acc + (c.toNat - 48))
    rw [List.foldl_cons, List.length_cons, Nat.pow_succ]
    refine lt_of_lt_of_le h ?_
    have h1 : 10 * acc + (c.toNat - 48) + 1 ≤ (acc + 1) * 10 := by omega
    calc (10 * acc + (c.toNat - 48) + 1) * 10 ^ ds.length
        ≤ (acc + 1) * 10 * 10 ^ ds.length := Nat.mul_le_mul_right _ h1
      _ = (acc + 1) * (10 ^ ds.length * 10) := by
        rw [Nat.mul_assoc, Nat.mul_comm 10 (10 ^ ds.length)]

theorem digitsValue_lt (ds : List Char) (hd : ∀ c ∈ ds, isDecimalDigit c = true) :
    digitsValue ds < 10 ^ ds.length := by
  have h := digitsValue_foldl_lt ds hd 0
  rw [Nat.zero_add, Nat.one_mul] at h
  exact h

/-- On a non-empty string of decimal digits `parseFloat` returns the Number value
of the integer the digits spell. -/
theorem parseFloat_digits (ds : List Char) (hne : ds ≠ [])
    (hd : ∀ c ∈ ds, isDecimalDigit c = true) :
    parseFloat ds = roundQ false (digitsValue ds) 1 := by
  cases ds with
  | nil => exact absurd rfl hne
  | cons c r =>
    have hc := hd c (List.mem_cons_self _ _)
    have hws := not_whiteSpace_of_digit c hc
    have h45 : c ≠ Char.ofNat 45 := digit_ne_of_toNat c hc 45 (by decide)
    have h43 : c ≠ Char.ofNat 43 := digit_ne_of_toNat c hc 43 (by decide)
    have h73 : c ≠ Char.ofNat 73 := digit_ne_of_toNat c hc 73 (by decide)
    have hinf : "Infinity".toList.isPrefixOf (c :: r) = false := by
      have : "Infinity".toList = Char.ofNat 73 :: "nfinity".toList := by decide
      rw [this, List.isPrefixOf]
      simp [Ne.symm h73]
    have htake : (c :: r).takeWhile isDecimalDigit = c :: r :=
      List.takeWhile_eq_self_iff.2 hd
    have hdrop : (c :: r).dropWhile isDecimalDigit = [] :=
      List.dropWhile_eq_nil_iff.2 hd
    unfold parseFloat
    rw [List.dropWhile_cons_of_neg (by simp [hws])]
    simp only [h45, h43, if_false]
    unfold parseUnsigned
    rw [hinf]
    simp only [Bool.false_eq_true, if_false, htake, hdrop, List.isEmpty_cons, decimalValue,
      Nat.pow_zero]

/-- The safe-integer guard of `inputNumber` never rejects an entry of at most
twelve decimal digits. -/
theorem guard_digits (ds : List Char) (hne : ds ≠ [])
    (hd : ∀ c ∈ ds, isDecimalDigit c = true) (hlen : ds.length ≤ 12) :
    (!isNaN (parseFloat ds) && gt (abs (parseFloat ds)) MAX_SAFE_INTEGER) = false := by
  have hv : digitsValue ds < 2 ^ 40 := by
    have h1 := digitsValue_lt ds hd
    have h2 : 10 ^ ds.length ≤ 10 ^ 12 := Nat.pow_le_pow_right (by decide) hlen
    have h3 : 10 ^ 12 < 2 ^ 40 := by decide
    omega
  rw [parseFloat_digits ds hne hd, guard_small _ hv, Bool.and_false]

theorem inputNumberCommit_state (q : Page) (st : CalculatorState) (newNumber : List Char)
    (hg : (!isNaN (parseFloat newNumber) &&
      gt (abs (parseFloat newNumber)) MAX_SAFE_INTEGER) = false) :
    (inputNumberCommit q st newNumber).calculatorState =
      { st with currentNumber := newNumber } := by
  unfold inputNumberCommit
  rw [hg]
  simp

/-- The first digit after `clear()` replaces the placeholder. -/
theorem inputNumber_first_digit (q : Page) (d : Char) (hd : isDecimalDigit d = true)
    (hw : q.calculatorState.waitingForNewNumber = false)
    (hi : q.calculatorState.isInitialState = true) :
    (inputNumber q [d]).calculatorState =
      { q.calculatorState with currentNumber := [d], isInitialState := false } := by
  have hdot : [d] ≠ [Char.ofNat 46] := by
    intro h
    exact digit_ne_of_toNat d hd 46 (by decide) (List.head_eq_of_cons_eq h)
  have hg := guard_digits [d] (List.cons_ne_nil _ _)
    (by intro c hc; rw [List.mem_singleton] at hc; rw [hc]; exact hd) (by simp)
  unfold inputNumber
  rw [if_neg hdot, hw, hi]
  simp only [Bool.false_eq_true, if_false, if_true]
  rw [inputNumberCommit_state _ _ _ hg]

/-- A further digit is appended while the entry has fewer than twelve characters
and is ignored otherwise. -/
theorem inputNumber_next_digit (q : Page) (d : Char) (hd : isDecimalDigit d = true)
    (hw : q.calculatorState.waitingForNewNumber = false)
    (hi : q.calculatorState.isInitialState = false)
    (hcur : ∀ c ∈ q.calculatorState.currentNumber, isDecimalDigit c = true) :
    (inputNumber q [d]).calculatorState =
      { q.calculatorState with
        currentNumber :=
          if q.calculatorState.currentNumber.length < 12 then
            q.calculatorState.currentNumber ++ [d]
          else q.calculatorState.currentNumber } := by
  have hdot : [d] ≠ [Char.ofNat 46] := by
    intro h
    exact digit_ne_of_toNat d hd 46 (by decide) (List.head_eq_of_cons_eq h)
  unfold inputNumber
  rw [if_neg hdot, hw, hi]
  simp only [Bool.false_eq_true, if_false]
  by_cases hlen : 12 ≤ q.calculatorState.currentNumber.length
  · rw [if_pos hlen, if_neg (by omega)]
  · have hg := guard_digits (q.calculatorState.currentNumber ++ [d]) (by simp)
      (by
        intro c hc
        rw [List.mem_append, List.mem_singleton] at hc
        rcases hc with hc | hc
        · exact hcur c hc
        · rw [hc]; exact hd)
      (by rw [List.length_append, List.length_singleton]; omega)
    rw [if_neg hlen, if_pos (by omega), inputNumberCommit_state _ _ _ hg]

/-- The invariant behind C2: while digits are typed the entry is the first twelve
characters of everything typed so far. -/
theorem foldl_inputNumber_digits (rest : List Char) (q : Page)
    (hrest : ∀ c ∈ rest, isDecimalDigit c = true)
    (hw : q.calculatorState.waitingForNewNumber = false)
    (hi : q.calculatorState.isInitialState = false)
    (hcur : ∀ c ∈ q.calculatorState.currentNumber, isDecimalDigit c = true)
    (hlen : q.calculatorState.currentNumber.length ≤ 12) :
    (rest.foldl (fun q d => inputNumber q [d]) q).calculatorState.currentNumber =
        (q.calculatorState.currentNumber ++ rest).take 12 ∧
      (rest.foldl (fun q d => inputNumber q [d]) q).calculatorState.waitingForNewNumber =
        false ∧
      (rest.foldl (fun q d => inputNumber q [d]) q).calculatorState.isInitialState = false := by
  induction rest generalizing q with
  | nil =>
    refine ⟨?_, hw, hi⟩
    rw [List.foldl_nil, List.append_nil, List.take_of_length_le hlen]
  | cons d rest ih =>
    have hd := hrest d (List.mem_cons_self _ _)
    have hs := inputNumber_next_digit q d hd hw hi hcur
    rw [List.foldl_cons]
    have hnext := ih (inputNumber q [d]) (fun c hc => hrest c (List.mem_cons_of_mem _ hc))
      (by rw [hs]; exact hw) (by rw [hs]; exact hi)
      (by
        rw [hs]
        intro c hc
        simp only at hc
        split_ifs at hc
        · rw [List.mem_append, List.mem_singleton] at hc
          rcases hc with hc | hc
          · exact hcur c hc
          · rw [hc]; exact hd
        · exact hcur c hc)
      (by
        rw [hs]
        simp only
        split_ifs
        · rw [List.length_append, List.length_singleton]; omega
        · exact hlen)
    refine ⟨?_, hnext.2⟩
    rw [hnext.1, hs]
    simp only
    split_ifs with h12
    · rw [List.append_assoc, List.singleton_append]
    · have h12eq : q.calculatorState.currentNumber.length = 12 := by omega
      rw [List.take_append_of_le_length (by omega), List.take_append_of_le_length (by omega)]

/-! ## Typing digits and decimal points -/

set_option exponentiation.threshold 2000 in
/-- A rational below `2^40` converts to a finite Number that does not exceed
`Number.MAX_SAFE_INTEGER`. -/
theorem roundQ_bounded (n d : Nat) (hd : 0 < d) (hn : n < 2 ^ 40) :
    ∃ m e, roundQ false n d = .fin false m e ∧ m * 2 ^ e ≤ (2 ^ 53 - 1) * 2 ^ 1074 := by
  by_cases h0 : n = 0
  · subst h0
    exact ⟨0, 0, rfl, by rw [Nat.zero_mul]; exact Nat.zero_le _⟩
  · obtain ⟨q1, hq1, hr⟩ := roundQ_shape false n d h0
    rw [hr]
    have hspec := expOf_spec (n * 2 ^ 1074 / d)
    generalize hP : (2 : Nat) ^ 1074 = P at *
    have hPpos : 0 < P := hP ▸ Nat.pow_pos (by decide)
    generalize he : expOf (n * P / d) = e at *
    have hlt : n * P < 2 ^ 1114 := by
      have : (2 : Nat) ^ 1114 = 2 ^ 40 * 2 ^ 1074 := by rw [← Nat.pow_add]
      rw [this, hP]
      exact Nat.mul_lt_mul_of_pos_right hn hPpos
    have hdiv : n * P / d ≤ n * P := Nat.div_le_self _ _
    have hebound : e ≤ 1061 := by
      rcases hspec with h | h
      · omega
      · have h2 : 2 ^ (52 + e) < 2 ^ 1114 := lt_of_le_of_lt h (lt_of_le_of_lt hdiv hlt)
        have := (Nat.pow_lt_pow_iff_right (by decide : 1 < 2)).1 h2
        omega
    have hpe : 2 ^ e ≤ 2 ^ 1061 := Nat.pow_le_pow_right (by decide) hebound
    have hEP : 2 ^ e ≤ P := by
      rw [← hP]
      exact le_trans hpe (Nat.pow_le_pow_right (by decide) (by decide))
    have hEpos : 0 < 2 ^ e := Nat.pow_pos (by decide)
    have hbound : q1 * 2 ^ e ≤ (2 ^ 53 - 1) * P := by
      have h0 : q1 * 2 ^ e ≤ (n * P / (d * 2 ^ e) + 1) * 2 ^ e := Nat.mul_le_mul_right _ hq1
      have hq : n * P / (d * 2 ^ e) * 2 ^ e ≤ n * P := by
        have h1 : n * P / (d * 2 ^ e) ≤ n * P / 2 ^ e :=
          Nat.div_le_div_left (Nat.le_mul_of_pos_left _ hd) hEpos
        exact le_trans (Nat.mul_le_mul_right _ h1) (Nat.div_mul_le_self _ _)
      have h1 : (n * P / (d * 2 ^ e) + 1) * 2 ^ e ≤ n * P + 2 ^ e := by
        rw [Nat.add_mul, Nat.one_mul]; omega
      have h2 : n * P + 2 ^ e ≤ 2 ^ 40 * P + P := by
        have : n * P ≤ 2 ^ 40 * P := Nat.mul_le_mul_right _ (le_of_lt hn)
        omega
      have h3 : 2 ^ 40 * P + P ≤ (2 ^ 53 - 1) * P := by
        have : 2 ^ 40 * P + P = (2 ^ 40 + 1) * P := by rw [Nat.add_mul, Nat.one_mul]
        rw [this]
        exact Nat.mul_le_mul_right _ (by decide)
      exact le_trans h0 (le_trans h1 (le_trans h2 h3))
    by_cases hq : q1 = 2 ^ 53
    · rw [if_pos hq, if_pos hq, if_neg (by omega)]
      refine ⟨_, _, rfl, ?_⟩
      have : (2 : Nat) ^ 52 * 2 ^ (e + 1) = 2 ^ 53 * 2 ^ e := by
        have hexp : 52 + (e + 1) = 53 + e := by omega
        rw [← Nat.pow_add, ← Nat.pow_add, hexp]
      rw [this]
      rw [hq] at hbound
      exact hbound
    · rw [if_neg hq, if_neg hq, if_neg (by omega)]
      exact ⟨_, _, rfl, hbound⟩

theorem guard_bounded (n d : Nat) (hd : 0 < d) (hn : n < 2 ^ 40) :
    gt (abs (roundQ false n d)) MAX_SAFE_INTEGER = false := by
  obtain ⟨m, e, hr, hb⟩ := roundQ_bounded n d hd hn
  rw [hr, MAX_SAFE_INTEGER_eq]
  simp only [JSNumber.abs, JSNumber.gt, JSNumber.lt, JSNumber.key, decide_eq_false_iff_not,
    not_lt]
  exact_mod_cast hb

/-- On digits, a decimal point and further digits `parseFloat` returns the Number
value of the decimal the text spells. -/
theorem parseFloat_decimal (ip fp : List Char) (hne : ip ≠ [])
    (hip : ∀ c ∈ ip, isDecimalDigit c = true) (hfp : ∀ c ∈ fp, isDecimalDigit c = true) :
    parseFloat (ip ++ Char.ofNat 46 :: fp) =
      roundQ false (digitsValue (ip ++ fp)) (10 ^ fp.length) := by
  cases ip with
  | nil => exact absurd rfl hne
  | cons c r =>
    have hc := hip c (List.mem_cons_self _ _)
    have hws := not_whiteSpace_of_digit c hc
    have h45 : c ≠ Char.ofNat 45 := digit_ne_of_toNat c hc 45 (by decide)
    have h43 : c ≠ Char.ofNat 43 := digit_ne_of_toNat c hc 43 (by decide)
    have h73 : c ≠ Char.ofNat 73 := digit_ne_of_toNat c hc 73 (by decide)
    have hinf : "Infinity".toList.isPrefixOf (c :: (r ++ Char.ofNat 46 :: fp)) = false := by
      have : "Infinity".toList = Char.ofNat 73 :: "nfinity".toList := by decide
      rw [this, List.isPrefixOf]
      simp [Ne.symm h73]
    have hpt : isDecimalDigit (Char.ofNat 46) = false := by decide
    have htake : (c :: (r ++ Char.ofNat 46 :: fp)).takeWhile isDecimalDigit = c :: r := by
      rw [← List.cons_append, List.takeWhile_append_of_pos hip, List.takeWhile_cons, hpt]
      simp
    have hdrop : (c :: (r ++ Char.ofNat 46 :: fp)).dropWhile isDecimalDigit =
        Char.ofNat 46 :: fp := by
      rw [← List.cons_append, List.dropWhile_append_of_pos hip, List.dropWhile_cons, hpt]
      simp
    have htakefp : fp.takeWhile isDecimalDigit = fp := List.takeWhile_eq_self_iff.2 hfp
    have hdropfp : fp.dropWhile isDecimalDigit = [] := List.dropWhile_eq_nil_iff.2 hfp
    rw [List.cons_append]
    unfold parseFloat
    rw [List.dropWhile_cons_of_neg (by simp [hws])]
    simp only [h45, h43, if_false]
    unfold parseUnsigned
    rw [hinf]
    simp only [Bool.false_eq_true, if_false, htake, hdrop, htakefp, hdropfp, List.isEmpty_cons,
      false_and, decimalValue, exponentPart, List.cons_append]
    rw [if_pos trivial]

theorem point_not_digit : isDecimalDigit (Char.ofNat 46) = false := by decide

theorem digit_ne_point (c : Char) (hc : isDecimalDigit c = true) : c ≠ Char.ofNat 46 := by
  intro h
  rw [h, point_not_digit] at hc
  exact Bool.noConfusion hc

theorem digit_of_ne_point (c : Char) (hc : IsDigitOrPoint c) (hne : c ≠ Char.ofNat 46) :
    isDecimalDigit c = true := by
  rcases hc with h | h
  · exact h
  · exact absurd h hne

/-- The safe-integer guard of `inputNumber` never rejects an entry that starts with
a digit, consists of digits and at most one decimal point, and has at most twelve
characters. -/
theorem guard_entry (s : List Char) (hhead : ∃ d r, s = d :: r ∧ isDecimalDigit d = true)
    (hall : ∀ c ∈ s, IsDigitOrPoint c) (hcount : s.count (Char.ofNat 46) ≤ 1)
    (hlen : s.length ≤ 12) :
    (!isNaN (parseFloat s) && gt (abs (parseFloat s)) MAX_SAFE_INTEGER) = false := by
  by_cases hmem : Char.ofNat 46 ∈ s
  · obtain ⟨ip, fp, rfl⟩ := List.append_of_mem hmem
    rw [List.count_append, List.count_cons_self] at hcount
    have hip0 : Char.ofNat 46 ∉ ip := List.count_eq_zero.1 (by omega)
    have hfp0 : Char.ofNat 46 ∉ fp := List.count_eq_zero.1 (by omega)
    have hip : ∀ c ∈ ip, isDecimalDigit c = true := fun c hc =>
      digit_of_ne_point c (hall c (List.mem_append_left _ hc)) (fun h => hip0 (h ▸ hc))
    have hfp : ∀ c ∈ fp, isDecimalDigit c = true := fun c hc =>
      digit_of_ne_point c
        (hall c (List.mem_append_right _ (List.mem_cons_of_mem _ hc))) (fun h => hfp0 (h ▸ hc))
    have hne : ip ≠ [] := by
      rintro rfl
      obtain ⟨d, r, hdr, hd⟩ := hhead
      rw [List.nil_append] at hdr
      exact digit_ne_point d hd (List.head_eq_of_cons_eq hdr).symm
    have hlen2 : (ip ++ fp).length ≤ 11 := by
      rw [List.length_append, List.length_cons] at hlen
      rw [List.length_append]
      omega
    have hv : digitsValue (ip ++ fp) < 2 ^ 40 := by
      have h1 := digitsValue_lt (ip ++ fp) (by
        intro c hc
        rcases List.mem_append.1 hc with h | h
        · exact hip c h
        · exact hfp c h)
      have h2 : 10 ^ (ip ++ fp).length ≤ 10 ^ 11 := Nat.pow_le_pow_right (by decide) hlen2
      have h3 : 10 ^ 11 < 2 ^ 40 := by decide
      omega
    rw [parseFloat_decimal ip fp hne hip hfp,
      guard_bounded _ _ (Nat.pow_pos (by decide)) hv, Bool.and_false]
  · obtain ⟨d, r, hdr, _⟩ := hhead
    exact guard_digits s (by rw [hdr]; exact List.cons_ne_nil _ _)
      (fun c hc => digit_of_ne_point c (hall c hc) (fun h => hmem (h ▸ hc))) hlen

/-- One input of the number pad while an entry is under construction: the
character is appended unless it is a second decimal point or the entry has
reached twelve characters, and the entry stays under construction. -/
theorem typing_step (q : Page) (c : Char) (hc : IsDigitOrPoint c)
    (hT : TypingEntry q.calculatorState) :
    (inputNumber q [c]).calculatorState =
        { q.calculatorState with
          currentNumber :=
            if (c = Char.ofNat 46 ∧ Char.ofNat 46 ∈ q.calculatorState.currentNumber) ∨
                12 ≤ q.calculatorState.currentNumber.length then
              q.calculatorState.currentNumber
            else q.calculatorState.currentNumber ++ [c] } ∧
      TypingEntry (inputNumber q [c]).calculatorState := by
  obtain ⟨hw, hi, hhead, hall, hcount, hlen⟩ := hT
  have hstate : (inputNumber q [c]).calculatorState =
      { q.calculatorState with
        currentNumber :=
          if (c = Char.ofNat 46 ∧ Char.ofNat 46 ∈ q.calculatorState.currentNumber) ∨
              12 ≤ q.calculatorState.currentNumber.length then
            q.calculatorState.currentNumber
          else q.calculatorState.currentNumber ++ [c] } := by
    by_cases hp : c = Char.ofNat 46
    · subst hp
      unfold inputNumber
      rw [if_pos rfl, hw]
      simp only [Bool.false_eq_true, if_false, true_and]
      by_cases hmem : Char.ofNat 46 ∈ q.calculatorState.currentNumber
      · rw [if_pos hmem, if_pos (Or.inl hmem)]
      · rw [if_neg hmem]
        by_cases hl : 12 ≤ q.calculatorState.currentNumber.length
        · rw [if_pos hl, if_pos (Or.inr hl)]
        · rw [if_neg hl, if_neg (by tauto), updateDisplay_calculatorState]
    · have hdot : [c] ≠ [Char.ofNat 46] := fun h => hp (List.head_eq_of_cons_eq h)
      have hd := digit_of_ne_point c hc hp
      unfold inputNumber
      rw [if_neg hdot, hw, hi]
      simp only [Bool.false_eq_true, if_false, hp, false_and, false_or]
      by_cases hl : 12 ≤ q.calculatorState.currentNumber.length
      · rw [if_pos hl, if_pos hl]
      · have hg := guard_entry (q.calculatorState.currentNumber ++ [c])
          (by
            obtain ⟨d, r, hdr, hdd⟩ := hhead
            exact ⟨d, r ++ [c], by rw [hdr, List.cons_append], hdd⟩)
          (by
            intro x hx
            rcases List.mem_append.1 hx with h | h
            · exact hall x h
            · rw [List.mem_singleton.1 h]; exact hc)
          (by
            rw [List.count_append, List.count_cons_of_ne (Ne.symm hp), List.count_nil]
            exact hcount)
          (by rw [List.length_append, List.length_singleton]; omega)
        rw [if_neg hl, inputNumberCommit_state _ _ _ hg, if_neg hl]
  refine ⟨hstate, ?_⟩
  rw [hstate]
  refine ⟨hw, hi, ?_, ?_, ?_, ?_⟩
  · simp only
    split_ifs
    · exact hhead
    · obtain ⟨d, r, hdr, hdd⟩ := hhead
      exact ⟨d, r ++ [c], by rw [hdr, List.cons_append], hdd⟩
  · simp only
    split_ifs
    · exact hall
    · intro x hx
      rcases List.mem_append.1 hx with h | h
      · exact hall x h
      · rw [List.mem_singleton.1 h]; exact hc
  · simp only
    split_ifs with h
    · exact hcount
    · rw [List.count_append]
      by_cases hp : c = Char.ofNat 46
      · subst hp
        have : Char.ofNat 46 ∉ q.calculatorState.currentNumber := by tauto
        rw [List.count_eq_zero.2 this, List.count_singleton_self]
      · rw [List.count_cons_of_ne (Ne.symm hp), List.count_nil]
        exact hcount
  · simp only
    split_ifs with h
    · exact hlen
    · rw [List.length_append, List.length_singleton]
      have : ¬ 12 ≤ q.calculatorState.currentNumber.length := by tauto
      omega

/-- The invariant behind C13: the entry is the first twelve characters of what
was typed, the decimal points after the first one left out. -/
theorem foldl_typing (rest : List Char) (q : Page) (hrest : ∀ c ∈ rest, IsDigitOrPoint c)
    (hT : TypingEntry q.calculatorState) :
    (rest.foldl (fun q c => inputNumber q [c]) q).calculatorState.currentNumber =
      (q.calculatorState.currentNumber ++
        (if Char.ofNat 46 ∈ q.calculatorState.currentNumber then
          rest.filter (fun x => x != Char.ofNat 46)
         else dropLaterPoints rest)).take 12 := by
  induction rest generalizing q with
  | nil =>
    have hlen := hT.2.2.2.2.2
    simp only [List.foldl_nil, List.filter_nil, dropLaterPoints, ite_self, List.append_nil]
    rw [List.take_of_length_le hlen]
  | cons c rest ih =>
    have hc := hrest c (List.mem_cons_self _ _)
    obtain ⟨hs, hT2⟩ := typing_step q c hc hT
    have hlen := hT.2.2.2.2.2
    rw [List.foldl_cons, ih (inputNumber q [c]) (fun x hx => hrest x (List.mem_cons_of_mem _ hx))
      hT2, hs]
    simp only
    by_cases hl : 12 ≤ q.calculatorState.currentNumber.length
    · rw [if_pos (Or.inr hl), List.take_append_of_le_length hl,
        List.take_append_of_le_length hl]
    · by_cases hp : c = Char.ofNat 46
      · subst hp
        by_cases hmem : Char.ofNat 46 ∈ q.calculatorState.currentNumber
        · rw [if_pos (Or.inl ⟨rfl, hmem⟩), if_pos hmem, if_pos hmem]
          simp
        · rw [if_neg (by tauto), if_pos (by simp), if_neg hmem, List.append_assoc]
          simp [dropLaterPoints]
      · rw [if_neg (by tauto)]
        by_cases hmem : Char.ofNat 46 ∈ q.calculatorState.currentNumber
        · rw [if_pos (List.mem_append_left _ hmem), if_pos hmem, List.append_assoc]
          simp [hp]
        · have hn : Char.ofNat 46 ∉ q.calculatorState.currentNumber ++ [c] := by
            intro h
            rcases List.mem_append.1 h with h | h
            · exact hmem h
            · exact hp (List.mem_singleton.1 h).symm
          rw [if_neg hn, if_neg hmem, List.append_assoc]
          simp [dropLaterPoints, hp]

theorem inputNumberCommit_count (p : Page) (st : CalculatorState) (newNumber : List Char)
    (hst : st.currentNumber.count (Char.ofNat 46) ≤ 1)
    (hnew : newNumber.count (Char.ofNat 46) ≤ 1) :
    (inputNumberCommit p st newNumber).calculatorState.currentNumber.count (Char.ofNat 46) ≤
      1 := by
  unfold inputNumberCommit
  split_ifs
  · exact hst
  · rw [updateDisplay_calculatorState]
    exact hnew

/-- One digit or decimal point never produces a second decimal point. -/
theorem inputNumber_count (p : Page) (c : Char) (hc : IsDigitOrPoint c)
    (h : p.calculatorState.currentNumber.count (Char.ofNat 46) ≤ 1) :
    (inputNumber p [c]).calculatorState.currentNumber.count (Char.ofNat 46) ≤ 1 := by
  by_cases hp : c = Char.ofNat 46
  · subst hp
    unfold inputNumber
    rw [if_pos rfl]
    split_ifs with hmem hw hl
    · exact h
    · rw [updateDisplay_calculatorState]
      show [Char.ofNat 48, Char.ofNat 46].count (Char.ofNat 46) ≤ 1
      decide
    · exact h
    · rw [updateDisplay_calculatorState]
      simp only
      rw [List.count_append, List.count_eq_zero.2 hmem, List.count_singleton_self]
  · have hdot : [c] ≠ [Char.ofNat 46] := fun h => hp (List.head_eq_of_cons_eq h)
    have hone : [c].count (Char.ofNat 46) ≤ 1 := by
      rw [List.count_cons_of_ne (Ne.symm hp), List.count_nil]
      exact Nat.zero_le _
    unfold inputNumber
    rw [if_neg hdot]
    split_ifs
    · exact inputNumberCommit_count _ _ _ h hone
    · exact inputNumberCommit_count _ _ _ h hone
    · exact h
    · refine inputNumberCommit_count _ _ _ h ?_
      rw [List.count_append, List.count_cons_of_ne (Ne.symm hp), List.count_nil]
      exact h

theorem foldl_inputNumber_count (inputs : List Char) (q : Page)
    (hall : ∀ c ∈ inputs, IsDigitOrPoint c)
    (h : q.calculatorState.currentNumber.count (Char.ofNat 46) ≤ 1) :
    (inputs.foldl (fun q c => inputNumber q [c]) q).calculatorState.currentNumber.count
      (Char.ofNat 46) ≤ 1 := by
  induction inputs generalizing q with
  | nil => exact h
  | cons c rest ih =>
    rw [List.foldl_cons]
    exact ih _ (fun x hx => hall x (List.mem_cons_of_mem _ hx))
      (inputNumber_count q c (hall c (List.mem_cons_self _ _)) h)

theorem formatNumber_not_finite (x : JSNumber) (h : isFinite x = false) :
    formatNumber x = errorString := by
  unfold formatNumber
  rw [h]
  rfl

theorem strLt_digit (d : Char) (hd : isDecimalDigit d = true) :
    (!strLt [d] [Char.ofNat 48] && !strLt [Char.ofNat 57] [d]) = true := by
  rw [isDecimalDigit_iff] at hd
  have h48 : (Char.ofNat 48).toNat = 48 := by decide
  have h57 : (Char.ofNat 57).toNat = 57 := by decide
  simp only [strLt, h48, h57]
  have h1 : ¬ d.toNat < 48 := by omega
  have h2 : ¬ 57 < d.toNat := by omega
  simp [h1, h2]

/-! ## Reachable states -/

theorem isDecimalDigit_digitChar (n : Nat) : isDecimalDigit (digitChar n) = true := by
  unfold digitChar
  have h : n % 10 < 10 := Nat.mod_lt _ (by decide)
  generalize n % 10 = r at h
  interval_cases r <;> decide

theorem handleKeyboard_backspace (p : Page) :
    handleKeyboard p "Backspace".toList =
      { page := handleKeyboardBackspace p, defaultPrevented := true } := rfl

theorem handleKeyboardBackspace_state (p : Page) :
    (handleKeyboardBackspace p).calculatorState =
      if 1 < p.calculatorState.currentNumber.length then
        { p.calculatorState with currentNumber := p.calculatorState.currentNumber.dropLast }
      else
        { p.calculatorState with currentNumber := [Char.ofNat 48], isInitialState := true } := by
  unfold handleKeyboardBackspace
  simp only
  split_ifs <;> rw [updateDisplay_calculatorState]

theorem inputNumberCommit_frame (p : Page) (st : CalculatorState) (newNumber : List Char) :
    (inputNumberCommit p st newNumber).calculatorState.previousNumber = st.previousNumber ∧
      (inputNumberCommit p st newNumber).calculatorState.operation = st.operation ∧
      (inputNumberCommit p st newNumber).calculatorState.lastResult = st.lastResult := by
  unfold inputNumberCommit
  split_ifs
  · exact ⟨rfl, rfl, rfl⟩
  · rw [updateDisplay_calculatorState]
    exact ⟨rfl, rfl, rfl⟩

/-- Typing never touches the pending operation or the last result. -/
theorem inputNumber_frame (p : Page) (number : List Char) :
    (inputNumber p number).calculatorState.previousNumber = p.calculatorState.previousNumber ∧
      (inputNumber p number).calculatorState.operation = p.calculatorState.operation ∧
      (inputNumber p number).calculatorState.lastResult = p.calculatorState.lastResult := by
  unfold inputNumber
  split_ifs
  · exact ⟨rfl, rfl, rfl⟩
  · rw [updateDisplay_calculatorState]
    exact ⟨rfl, rfl, rfl⟩
  · exact ⟨rfl, rfl, rfl⟩
  · rw [updateDisplay_calculatorState]
    exact ⟨rfl, rfl, rfl⟩
  · exact inputNumberCommit_frame _ _ _
  · exact inputNumberCommit_frame _ _ _
  · exact ⟨rfl, rfl, rfl⟩
  · exact inputNumberCommit_frame _ _ _

/-- Either `calculate` returns at once, or it ends with nothing pending and the
calculator waiting for a new number. -/
theorem calculate_cases (p : Page) :
    calculate p = p ∨
      ((calculate p).calculatorState.previousNumber = none ∧
        (calculate p).calculatorState.operation = none ∧
        (calculate p).calculatorState.waitingForNewNumber = true) := by
  have herr : (calculateError p).calculatorState.previousNumber = none ∧
      (calculateError p).calculatorState.operation = none ∧
      (calculateError p).calculatorState.waitingForNewNumber = true := by
    rw [calculateError_state]
    exact ⟨rfl, rfl, rfl⟩
  have hfin : ∀ r, (calculateFinish p r).calculatorState.previousNumber = none ∧
      (calculateFinish p r).calculatorState.operation = none ∧
      (calculateFinish p r).calculatorState.waitingForNewNumber = true := by
    intro r
    unfold calculateFinish
    split_ifs
    · exact herr
    · rw [updateDisplay_calculatorState]
      exact ⟨rfl, rfl, rfl⟩
  unfold calculate
  split
  · split_ifs
    · exact Or.inr (hfin _)
    · exact Or.inr (hfin _)
    · exact Or.inr (hfin _)
    · exact Or.inr herr
    · exact Or.inr (hfin _)
    · exact Or.inl rfl
  · exact Or.inl rfl

/-- Induction over the reachable pages. -/
theorem reachable_induction (P : Page → Prop) (h0 : ∀ p, P (clear p))
    (hstep : ∀ q k, P q → P (press q k)) : ∀ q, Reachable q → P q := by
  have key : ∀ (keys : List Key) (q : Page), P q → P (List.foldl press q keys) := by
    intro keys
    induction keys with
    | nil => intro q hq; exact hq
    | cons k ks ih => intro q hq; exact ih _ (hstep q k hq)
  rintro q ⟨p, keys, rfl⟩
  exact key keys _ (h0 p)

theorem clear_state (p : Page) : (clear p).calculatorState = initialState := by
  simp [clear, initialState]

/-- The pending operand and the pending operator are set and cleared together by
every input. -/
theorem press_pending (q : Page) (k : Key)
    (h : q.calculatorState.previousNumber = none ↔ q.calculatorState.operation = none) :
    (press q k).calculatorState.previousNumber = none ↔
      (press q k).calculatorState.operation = none := by
  have hnum : ∀ s, ((inputNumber q s).calculatorState.previousNumber = none ↔
      (inputNumber q s).calculatorState.operation = none) := by
    intro s
    obtain ⟨h1, h2, _⟩ := inputNumber_frame q s
    rw [h1, h2]
    exact h
  have hop : ∀ op, ((inputOperation q op).calculatorState.previousNumber = none ↔
      (inputOperation q op).calculatorState.operation = none) := by
    intro op
    unfold inputOperation
    rw [inputOperationStore_state]
    simp
  cases k with
  | digit n => exact hnum _
  | point => exact hnum _
  | plus => exact hop _
  | minus => exact hop _
  | times => exact hop _
  | divide => exact hop _
  | equals =>
    show (calculate q).calculatorState.previousNumber = none ↔
      (calculate q).calculatorState.operation = none
    rcases calculate_cases q with hc | ⟨h1, h2, _⟩
    · rw [hc]; exact h
    · rw [h1, h2]
  | clear =>
    show (clear q).calculatorState.previousNumber = none ↔
      (clear q).calculatorState.operation = none
    rw [clear_state]
    exact ⟨fun _ => rfl, fun _ => rfl⟩
  | backspace =>
    show (handleKeyboardBackspace q).calculatorState.previousNumber = none ↔
      (handleKeyboardBackspace q).calculatorState.operation = none
    rw [handleKeyboardBackspace_state]
    split_ifs <;> exact h

theorem entryShape_singleton (d : Char) (hd : isDecimalDigit d = true) : EntryShape [d] := by
  refine ⟨⟨d, [], rfl, hd⟩, ?_, ?_, ?_⟩
  · intro c hc
    rw [List.mem_singleton.1 hc]
    exact Or.inl hd
  · rw [List.count_cons_of_ne (Ne.symm (digit_ne_point d hd)), List.count_nil]
    exact Nat.zero_le _
  · simp

theorem entryShape_zero : EntryShape [Char.ofNat 48] := entryShape_singleton _ (by decide)

theorem entryShape_zero_point : EntryShape [Char.ofNat 48, Char.ofNat 46] := by
  refine ⟨⟨Char.ofNat 48, [Char.ofNat 46], rfl, by decide⟩, ?_, by decide, by decide⟩
  intro c hc
  rw [List.mem_cons, List.mem_singleton] at hc
  rcases hc with h | h
  · rw [h]; exact Or.inl (by decide)
  · exact Or.inr h

theorem entryShape_append (s : List Char) (c : Char) (hs : EntryShape s)
    (hc : IsDigitOrPoint c) (hpt : c = Char.ofNat 46 → Char.ofNat 46 ∉ s)
    (hlen : s.length < 12) : EntryShape (s ++ [c]) := by
  obtain ⟨⟨d, r, hdr, hd⟩, hall, hcount, _⟩ := hs
  refine ⟨⟨d, r ++ [c], by rw [hdr, List.cons_append], hd⟩, ?_, ?_, ?_⟩
  · intro x hx
    rcases List.mem_append.1 hx with h | h
    · exact hall x h
    · rw [List.mem_singleton.1 h]; exact hc
  · rw [List.count_append]
    by_cases hp : c = Char.ofNat 46
    · rw [List.count_eq_zero.2 (hpt hp), hp, List.count_singleton_self]
    · rw [List.count_cons_of_ne (Ne.symm hp), List.count_nil]
      exact hcount
  · rw [List.length_append, List.length_singleton]
    omega

theorem entryShape_dropLast (s : List Char) (hs : EntryShape s) (hlen : 1 < s.length) :
    EntryShape s.dropLast := by
  obtain ⟨⟨d, r, hdr, hd⟩, hall, hcount, hl⟩ := hs
  have hr : r ≠ [] := by
    rintro rfl
    rw [hdr] at hlen
    simp at hlen
  refine ⟨⟨d, r.dropLast, by rw [hdr, List.dropLast_cons_of_ne_nil hr], hd⟩, ?_, ?_, ?_⟩
  · intro x hx
    exact hall x (List.dropLast_subset s hx)
  · exact le_trans (List.Sublist.count_le (List.dropLast_sublist s) _) hcount
  · rw [List.length_dropLast]
    omega

theorem inputNumber_point_of_mem (q : Page)
    (hmem : Char.ofNat 46 ∈ q.calculatorState.currentNumber) :
    inputNumber q [Char.ofNat 46] = q := by
  unfold inputNumber
  rw [if_pos rfl, if_pos hmem]

/-- The entry keeps the shape of a typed entry whenever the calculator is not
waiting for a new number. -/
theorem press_entryShape (q : Page) (k : Key)
    (h : q.calculatorState.waitingForNewNumber = false →
      EntryShape q.calculatorState.currentNumber) :
    (press q k).calculatorState.waitingForNewNumber = false →
      EntryShape (press q k).calculatorState.currentNumber := by
  have hop : ∀ op, (inputOperation q op).calculatorState.waitingForNewNumber = false →
      EntryShape (inputOperation q op).calculatorState.currentNumber := by
    intro op hw
    unfold inputOperation at hw
    rw [inputOperationStore_state] at hw
    exact Bool.noConfusion hw
  cases k with
  | digit n =>
    intro _
    show EntryShape (inputNumber q [digitChar n.val]).calculatorState.currentNumber
    have hd := isDecimalDigit_digitChar n.val
    generalize digitChar n.val = d at hd
    have hdot : [d] ≠ [Char.ofNat 46] := fun h =>
      digit_ne_point d hd (List.head_eq_of_cons_eq h)
    have hg1 := guard_digits [d] (List.cons_ne_nil _ _)
      (by intro c hc; rw [List.mem_singleton.1 hc]; exact hd) (by simp)
    unfold inputNumber
    rw [if_neg hdot]
    by_cases hw : q.calculatorState.waitingForNewNumber = true
    · rw [if_pos hw, inputNumberCommit_state _ _ _ hg1]
      exact entryShape_singleton d hd
    · rw [if_neg hw]
      have hs := h (by simpa using hw)
      by_cases hi : q.calculatorState.isInitialState = true
      · rw [if_pos hi, inputNumberCommit_state _ _ _ hg1]
        exact entryShape_singleton d hd
      · rw [if_neg hi]
        by_cases hl : 12 ≤ q.calculatorState.currentNumber.length
        · rw [if_pos hl]
          exact hs
        · have hs2 := entryShape_append _ d hs (Or.inl hd)
            (fun hp => absurd hp (digit_ne_point d hd)) (by omega)
          rw [if_neg hl, inputNumberCommit_state _ _ _
            (guard_entry _ hs2.1 hs2.2.1 hs2.2.2.1 hs2.2.2.2)]
          exact hs2
  | point =>
    show (inputNumber q [Char.ofNat 46]).calculatorState.waitingForNewNumber = false →
      EntryShape (inputNumber q [Char.ofNat 46]).calculatorState.currentNumber
    by_cases hmem : Char.ofNat 46 ∈ q.calculatorState.currentNumber
    · rw [inputNumber_point_of_mem q hmem]
      exact h
    · intro _
      unfold inputNumber
      rw [if_pos rfl, if_neg hmem]
      by_cases hw : q.calculatorState.waitingForNewNumber = true
      · rw [if_pos hw, updateDisplay_calculatorState]
        exact entryShape_zero_point
      · rw [if_neg hw]
        have hs := h (by simpa using hw)
        by_cases hl : 12 ≤ q.calculatorState.currentNumber.length
        · rw [if_pos hl]
          exact hs
        · rw [if_neg hl, updateDisplay_calculatorState]
          exact entryShape_append _ _ hs (Or.inr rfl) (fun _ => hmem) (by omega)
  | plus => exact hop _
  | minus => exact hop _
  | times => exact hop _
  | divide => exact hop _
  | equals =>
    show (calculate q).calculatorState.waitingForNewNumber = false →
      EntryShape (calculate q).calculatorState.currentNumber
    rcases calculate_cases q with hc | ⟨_, _, h3⟩
    · rw [hc]; exact h
    · intro hw
      rw [h3] at hw
      exact Bool.noConfusion hw
  | clear =>
    intro _
    show EntryShape (clear q).calculatorState.currentNumber
    rw [clear_state]
    exact entryShape_zero
  | backspace =>
    show (handleKeyboardBackspace q).calculatorState.waitingForNewNumber = false →
      EntryShape (handleKeyboardBackspace q).calculatorState.currentNumber
    rw [handleKeyboardBackspace_state]
    split_ifs with hl
    · intro hw
      exact entryShape_dropLast _ (h hw) hl
    · intro _
      exact entryShape_zero

/-! ## The field `lastResult` is write-only -/

theorem agree_refl (p : Page) : AgreeExceptLastResult p p := ⟨rfl, rfl, rfl, rfl, rfl, rfl⟩

theorem agree_setLastResult (p : Page) (l : Option (List Char)) :
    AgreeExceptLastResult p (setLastResult p l) := ⟨rfl, rfl, rfl, rfl, rfl, rfl⟩

theorem eq_setLastResult_of_agree (p q : Page) (h : AgreeExceptLastResult p q) :
    q = setLastResult p q.calculatorState.lastResult := by
  obtain ⟨⟨c1, p1, o1, w1, l1, i1⟩, d1⟩ := p
  obtain ⟨⟨c2, p2, o2, w2, l2, i2⟩, d2⟩ := q
  obtain ⟨h1, h2, h3, h4, h5, h6⟩ := h
  simp only at h1 h2 h3 h4 h5 h6
  subst h1 h2 h3 h4 h5 h6
  rfl

theorem updateDisplay_setLastResult (p : Page) (l : Option (List Char)) :
    updateDisplay (setLastResult p l) = setLastResult (updateDisplay p) l := by
  obtain ⟨st, d⟩ := p
  cases d <;> rfl

theorem agree_updateDisplay (p q : Page)
    (h : p.calculatorState.currentNumber = q.calculatorState.currentNumber ∧
      p.calculatorState.previousNumber = q.calculatorState.previousNumber ∧
      p.calculatorState.operation = q.calculatorState.operation ∧
      p.calculatorState.waitingForNewNumber = q.calculatorState.waitingForNewNumber ∧
      p.calculatorState.isInitialState = q.calculatorState.isInitialState ∧
      (p.display = none ↔ q.display = none)) :
    AgreeExceptLastResult (updateDisplay p) (updateDisplay q) := by
  obtain ⟨⟨c1, p1, o1, w1, l1, i1⟩, d1⟩ := p
  obtain ⟨⟨c2, p2, o2, w2, l2, i2⟩, d2⟩ := q
  obtain ⟨h1, h2, h3, h4, h5, h6⟩ := h
  simp only at h1 h2 h3 h4 h5 h6
  subst h1 h2 h3 h4 h5
  cases d1 <;> cases d2
  · exact ⟨rfl, rfl, rfl, rfl, rfl, rfl⟩
  · simp at h6
  · simp at h6
  · exact ⟨rfl, rfl, rfl, rfl, rfl, rfl⟩

theorem agree_clear (p : Page) (l : Option (List Char)) :
    AgreeExceptLastResult (clear p) (clear (setLastResult p l)) := by
  unfold clear
  exact agree_updateDisplay _ _ ⟨rfl, rfl, rfl, rfl, rfl, Iff.rfl⟩

theorem agree_inputNumberCommit (p : Page) (st : CalculatorState) (newNumber : List Char)
    (l : Option (List Char)) :
    AgreeExceptLastResult (inputNumberCommit p st newNumber)
      (inputNumberCommit (setLastResult p l) { st with lastResult := l } newNumber) := by
  unfold inputNumberCommit
  split_ifs
  · exact ⟨rfl, rfl, rfl, rfl, rfl, rfl⟩
  · exact agree_updateDisplay _ _ ⟨rfl, rfl, rfl, rfl, rfl, Iff.rfl⟩

theorem agree_inputNumber (p : Page) (number : List Char) (l : Option (List Char)) :
    AgreeExceptLastResult (inputNumber p number) (inputNumber (setLastResult p l) number) := by
  obtain ⟨⟨c1, p1, o1, w1, l1, i1⟩, d1⟩ := p
  simp only [inputNumber, setLastResult]
  split_ifs
  · exact ⟨rfl, rfl, rfl, rfl, rfl, rfl⟩
  · exact agree_updateDisplay _ _ ⟨rfl, rfl, rfl, rfl, rfl, Iff.rfl⟩
  · exact ⟨rfl, rfl, rfl, rfl, rfl, rfl⟩
  · exact agree_updateDisplay _ _ ⟨rfl, rfl, rfl, rfl, rfl, Iff.rfl⟩
  · exact agree_inputNumberCommit _ _ _ l
  · exact agree_inputNumberCommit _ _ _ l
  · exact ⟨rfl, rfl, rfl, rfl, rfl, rfl⟩
  · exact agree_inputNumberCommit _ _ _ l

theorem agree_calculateError (p : Page) (l : Option (List Char)) :
    AgreeExceptLastResult (calculateError p) (calculateError (setLastResult p l)) := by
  unfold calculateError
  exact agree_updateDisplay _ _ ⟨rfl, rfl, rfl, rfl, rfl, Iff.rfl⟩

theorem agree_calculateFinish (p : Page) (r : JSNumber) (l : Option (List Char)) :
    AgreeExceptLastResult (calculateFinish p r) (calculateFinish (setLastResult p l) r) := by
  unfold calculateFinish
  split_ifs
  · exact agree_calculateError p l
  · exact agree_updateDisplay _ _ ⟨rfl, rfl, rfl, rfl, rfl, Iff.rfl⟩

theorem agree_calculate (p : Page) (l : Option (List Char)) :
    AgreeExceptLastResult (calculate p) (calculate (setLastResult p l)) := by
  obtain ⟨⟨c1, p1, o1, w1, l1, i1⟩, d1⟩ := p
  cases p1 with
  | none => exact ⟨rfl, rfl, rfl, rfl, rfl, rfl⟩
  | some prev =>
    cases o1 with
    | none => exact ⟨rfl, rfl, rfl, rfl, rfl, rfl⟩
    | some op =>
      simp only [calculate, setLastResult]
      split_ifs
      · exact agree_calculateFinish _ _ l
      · exact agree_calculateFinish _ _ l
      · exact agree_calculateFinish _ _ l
      · exact agree_calculateError _ l
      · exact agree_calculateFinish _ _ l
      · exact ⟨rfl, rfl, rfl, rfl, rfl, rfl⟩

theorem agree_inputOperationStore (p q : Page) (op : List Char)
    (h : AgreeExceptLastResult p q) :
    AgreeExceptLastResult (inputOperationStore p op) (inputOperationStore q op) := by
  obtain ⟨h1, h2, h3, h4, h5, h6⟩ := h
  unfold inputOperationStore
  exact agree_updateDisplay _ _ ⟨h1, by simp only [h1], rfl, rfl, rfl, by rw [h6]⟩

theorem agree_inputOperation (p : Page) (op : List Char) (l : Option (List Char)) :
    AgreeExceptLastResult (inputOperation p op) (inputOperation (setLastResult p l) op) := by
  unfold inputOperation
  apply agree_inputOperationStore
  have hc := agree_calculate p l
  obtain ⟨⟨c1, p1, o1, w1, l1, i1⟩, d1⟩ := p
  simp only [setLastResult] at hc ⊢
  split_ifs
  · exact hc
  · exact ⟨rfl, rfl, rfl, rfl, rfl, rfl⟩

theorem agree_backspace (p : Page) (l : Option (List Char)) :
    AgreeExceptLastResult (handleKeyboardBackspace p)
      (handleKeyboardBackspace (setLastResult p l)) := by
  obtain ⟨⟨c1, p1, o1, w1, l1, i1⟩, d1⟩ := p
  simp only [handleKeyboardBackspace, setLastResult]
  split_ifs
  · exact agree_updateDisplay _ _ ⟨rfl, rfl, rfl, rfl, rfl, Iff.rfl⟩
  · exact agree_updateDisplay _ _ ⟨rfl, rfl, rfl, rfl, rfl, Iff.rfl⟩

theorem agree_press (p : Page) (k : Key) (l : Option (List Char)) :
    AgreeExceptLastResult (press p k) (press (setLastResult p l) k) := by
  cases k with
  | digit n => exact agree_inputNumber p _ l
  | point => exact agree_inputNumber p _ l
  | plus => exact agree_inputOperation p _ l
  | minus => exact agree_inputOperation p _ l
  | times => exact agree_inputOperation p _ l
  | divide => exact agree_inputOperation p _ l
  | equals => exact agree_calculate p l
  | clear => exact agree_clear p l
  | backspace => exact agree_backspace p l

/-! ## Rounding error -/

theorem expOf_fold_lt (t : Nat) (j e : Nat) (h : t < 2 ^ (52 + e + 2 ^ (j + 1))) :
    t < 2 ^ (53 + ((List.range (j + 1)).reverse.map (fun i => 2 ^ i)).foldl
      (fun e b => if 2 ^ (52 + e + b) ≤ t then e + b else e) e) := by
  induction j generalizing e with
  | zero =>
    simp only [List.range_succ, List.range_zero, List.nil_append, List.reverse_singleton,
      List.map_cons, List.map_nil, List.foldl_cons, List.foldl_nil, Nat.pow_zero]
    split_ifs with hb
    · have h2 : 53 + (e + 1) = 52 + e + 2 ^ (0 + 1) := by norm_num; omega
      rw [h2]; exact h
    · have h2 : 53 + e = 52 + e + 1 := by omega
      rw [h2]; exact Nat.lt_of_not_le hb
  | succ j ih =>
    rw [List.range_succ, List.reverse_append, List.reverse_singleton, List.singleton_append,
      List.map_cons, List.foldl_cons]
    apply ih
    split_ifs with hb
    · have h2 : 52 + (e + 2 ^ (j + 1)) + 2 ^ (j + 1) = 52 + e + 2 ^ (j + 1 + 1) := by
        rw [Nat.pow_succ 2 (j + 1)]; omega
      rw [h2]; exact h
    · exact Nat.lt_of_not_le hb

set_option exponentiation.threshold 5000 in
/-- The quotient lies below the binade above its exponent. -/
theorem expOf_lt (t : Nat) (h : t < 2 ^ 4148) : t < 2 ^ (53 + expOf t) := by
  have hl : [2048, 1024, 512, 256, 128, 64, 32, 16, 8, 4, 2, 1] =
      (List.range (11 + 1)).reverse.map (fun i => 2 ^ i) := by decide
  unfold expOf
  rw [hl]
  apply expOf_fold_lt
  exact h

/-- The definition of `roundQ` on a non-zero numerator, with its local
definitions unfolded. -/
theorem roundQ_explicit (neg : Bool) (n d : Nat) (h0 : n ≠ 0) :
    roundQ neg n d =
      if 2045 < (if (if d * 2 ^ expOf (n * 2 ^ 1074 / d) <
            2 * (n * 2 ^ 1074 % (d * 2 ^ expOf (n * 2 ^ 1074 / d))) ∨
          (2 * (n * 2 ^ 1074 % (d * 2 ^ expOf (n * 2 ^ 1074 / d))) =
              d * 2 ^ expOf (n * 2 ^ 1074 / d) ∧
            n * 2 ^ 1074 / (d * 2 ^ expOf (n * 2 ^ 1074 / d)) % 2 = 1)
          then n * 2 ^ 1074 / (d * 2 ^ expOf (n * 2 ^ 1074 / d)) + 1
          else n * 2 ^ 1074 / (d * 2 ^ expOf (n * 2 ^ 1074 / d))) = 2 ^ 53
          then expOf (n * 2 ^ 1074 / d) + 1 else expOf (n * 2 ^ 1074 / d)) then .inf neg
      else .fin neg (if (if d * 2 ^ expOf (n * 2 ^ 1074 / d) <
            2 * (n * 2 ^ 1074 % (d * 2 ^ expOf (n * 2 ^ 1074 / d))) ∨
          (2 * (n * 2 ^ 1074 % (d * 2 ^ expOf (n * 2 ^ 1074 / d))) =
              d * 2 ^ expOf (n * 2 ^ 1074 / d) ∧
            n * 2 ^ 1074 / (d * 2 ^ expOf (n * 2 ^ 1074 / d)) % 2 = 1)
          then n * 2 ^ 1074 / (d * 2 ^ expOf (n * 2 ^ 1074 / d)) + 1
          else n * 2 ^ 1074 / (d * 2 ^ expOf (n * 2 ^ 1074 / d))) = 2 ^ 53
          then 2 ^ 52 else (if d * 2 ^ expOf (n * 2 ^ 1074 / d) <
            2 * (n * 2 ^ 1074 % (d * 2 ^ expOf (n * 2 ^ 1074 / d))) ∨
          (2 * (n * 2 ^ 1074 % (d * 2 ^ expOf (n * 2 ^ 1074 / d))) =
              d * 2 ^ expOf (n * 2 ^ 1074 / d) ∧
            n * 2 ^ 1074 / (d * 2 ^ expOf (n * 2 ^ 1074 / d)) % 2 = 1)
          then n * 2 ^ 1074 / (d * 2 ^ expOf (n * 2 ^ 1074 / d)) + 1
          else n * 2 ^ 1074 / (d * 2 ^ expOf (n * 2 ^ 1074 / d))))
        (if (if d * 2 ^ expOf (n * 2 ^ 1074 / d) <
            2 * (n * 2 ^ 1074 % (d * 2 ^ expOf (n * 2 ^ 1074 / d))) ∨
          (2 * (n * 2 ^ 1074 % (d * 2 ^ expOf (n * 2 ^ 1074 / d))) =
              d * 2 ^ expOf (n * 2 ^ 1074 / d) ∧
            n * 2 ^ 1074 / (d * 2 ^ expOf (n * 2 ^ 1074 / d)) % 2 = 1)
          then n * 2 ^ 1074 / (d * 2 ^ expOf (n * 2 ^ 1074 / d)) + 1
          else n * 2 ^ 1074 / (d * 2 ^ expOf (n * 2 ^ 1074 / d))) = 2 ^ 53
          then expOf (n * 2 ^ 1074 / d) + 1 else expOf (n * 2 ^ 1074 / d)) := by
  rw [roundQ, if_neg h0]

/-- The significand of a rounded non-zero rational is the quotient or its
successor (the quotient itself when the division is exact), and the value is
the significand times the unit of the exponent. -/
theorem roundQ_value (neg : Bool) (n d : Nat) (h0 : n ≠ 0) (hd : 0 < d)
    (he : expOf (n * 2 ^ 1074 / d) < 2045) :
    ∃ q1 m e, n * 2 ^ 1074 / (d * 2 ^ expOf (n * 2 ^ 1074 / d)) ≤ q1 ∧
      q1 ≤ n * 2 ^ 1074 / (d * 2 ^ expOf (n * 2 ^ 1074 / d)) + 1 ∧
      (n * 2 ^ 1074 % (d * 2 ^ expOf (n * 2 ^ 1074 / d)) = 0 →
        q1 = n * 2 ^ 1074 / (d * 2 ^ expOf (n * 2 ^ 1074 / d))) ∧
      roundQ neg n d = .fin neg m e ∧ m * 2 ^ e = q1 * 2 ^ expOf (n * 2 ^ 1074 / d) := by
  rw [roundQ_explicit neg n d h0]
  have hD : 0 < d * 2 ^ expOf (n * 2 ^ 1074 / d) := Nat.mul_pos hd (Nat.pow_pos (by decide))
  generalize expOf (n * 2 ^ 1074 / d) = e0 at *
  generalize n * 2 ^ 1074 / (d * 2 ^ e0) = q
  generalize n * 2 ^ 1074 % (d * 2 ^ e0) = r
  generalize d * 2 ^ e0 = D at *
  generalize hq1 : (if D < 2 * r ∨ (2 * r = D ∧ q % 2 = 1) then q + 1 else q) = q1
  have hb : q ≤ q1 ∧ q1 ≤ q + 1 := by
    rw [← hq1]; split_ifs <;> omega
  have hz : r = 0 → q1 = q := by
    intro hr0
    rw [← hq1, if_neg]
    rw [hr0]
    omega
  refine ⟨q1, if q1 = 2 ^ 53 then 2 ^ 52 else q1, if q1 = 2 ^ 53 then e0 + 1 else e0,
    hb.1, hb.2, hz, ?_, ?_⟩
  · by_cases hq : q1 = 2 ^ 53
    · rw [if_pos hq, if_neg (by omega)]
    · rw [if_neg hq, if_neg (by omega)]
  · by_cases hq : q1 = 2 ^ 53
    · rw [if_pos hq, if_pos hq, hq, Nat.pow_succ]
      ring
    · rw [if_neg hq, if_neg hq]

set_option exponentiation.threshold 5000 in
/-- A rational in the normal range rounds to a finite Number within one unit in
the last place, and that unit is at most `2^-52` times the rational. -/
theorem roundQ_normal (s : Bool) (n d : Nat) (hd : 0 < d)
    (hlo : 2 ^ 53 * d ≤ n * 2 ^ 1074) (hhi : n * 2 ^ 1074 < 2 ^ 2096 * d) :
    ∃ m e E, roundQ s n d = .fin s m e ∧
      m * 2 ^ e * d ≤ n * 2 ^ 1074 + d * E ∧ n * 2 ^ 1074 ≤ m * 2 ^ e * d + d * E ∧
      2 ^ 52 * (d * E) ≤ n * 2 ^ 1074 := by
  have h0 : n ≠ 0 := by
    rintro rfl
    rw [Nat.zero_mul] at hlo
    have : 0 < 2 ^ 53 * d := Nat.mul_pos (Nat.pow_pos (by decide)) hd
    omega
  have ht1 : 2 ^ 53 ≤ n * 2 ^ 1074 / d := (Nat.le_div_iff_mul_le hd).2 hlo
  have ht2 : n * 2 ^ 1074 / d < 2 ^ 2096 := (Nat.div_lt_iff_lt_mul hd).2 hhi
  have hspec := expOf_spec (n * 2 ^ 1074 / d)
  have hup := expOf_lt (n * 2 ^ 1074 / d)
    (lt_trans ht2 (Nat.pow_lt_pow_right (by decide) (by decide)))
  have hlow : 2 ^ (52 + expOf (n * 2 ^ 1074 / d)) ≤ n * 2 ^ 1074 / d := by
    rcases hspec with h | h
    · rw [h] at hup
      omega
    · exact h
  have he : expOf (n * 2 ^ 1074 / d) < 2044 := by
    have h2 := lt_of_le_of_lt hlow ht2
    have := (Nat.pow_lt_pow_iff_right (by decide : 1 < 2)).1 h2
    omega
  obtain ⟨q1, m, e, hq1, hq2, _, hr, hv⟩ := roundQ_value s n d h0 hd (by omega)
  refine ⟨m, e, 2 ^ expOf (n * 2 ^ 1074 / d), hr, ?_, ?_, ?_⟩
  all_goals generalize expOf (n * 2 ^ 1074 / d) = e0 at *
  all_goals generalize (2 : Nat) ^ 1074 = P at *
  · rw [hv]
    have h1 : n * P / (d * 2 ^ e0) * (d * 2 ^ e0) ≤ n * P := Nat.div_mul_le_self _ _
    calc q1 * 2 ^ e0 * d = q1 * (d * 2 ^ e0) := by ring
      _ ≤ (n * P / (d * 2 ^ e0) + 1) * (d * 2 ^ e0) := Nat.mul_le_mul_right _ hq2
      _ = n * P / (d * 2 ^ e0) * (d * 2 ^ e0) + d * 2 ^ e0 := by ring
      _ ≤ n * P + d * 2 ^ e0 := Nat.add_le_add_right h1 _
  · rw [hv]
    have hD : 0 < d * 2 ^ e0 := Nat.mul_pos hd (Nat.pow_pos (by decide))
    have h1 := Nat.div_add_mod (n * P) (d * 2 ^ e0)
    have h2 := Nat.mod_lt (n * P) hD
    have h3 : n * P / (d * 2 ^ e0) * (d * 2 ^ e0) ≤ q1 * (d * 2 ^ e0) :=
      Nat.mul_le_mul_right _ hq1
    have h4 : q1 * 2 ^ e0 * d = q1 * (d * 2 ^ e0) := by ring
    have h5 : d * 2 ^ e0 * (n * P / (d * 2 ^ e0)) = n * P / (d * 2 ^ e0) * (d * 2 ^ e0) := by
      ring
    omega
  · have h1 : 2 ^ (52 + e0) * d ≤ n * P := (Nat.le_div_iff_mul_le hd).1 hlow
    calc 2 ^ 52 * (d * 2 ^ e0) = 2 ^ (52 + e0) * d := by rw [Nat.pow_add]; ring
      _ ≤ n * P := h1

set_option exponentiation.threshold 5000 in
/-- A rational between `10^-7` and `10^26` rounds to a finite Number with a
relative error of at most `2^-52`. -/
theorem roundQ_error (s : Bool) (n d : Nat) (hd : 0 < d) (hlo : d ≤ n * 10 ^ 7)
    (hhi : n ≤ 10 ^ 26 * d) :
    ∃ m e, roundQ s n d = .fin s m e ∧
      |toRat (.fin false m e) - (n : ℚ) / (d : ℚ)| ≤ (n : ℚ) / (d : ℚ) / 2 ^ 52 := by
  have h1 : 2 ^ 53 * d ≤ n * 2 ^ 1074 := by
    calc 2 ^ 53 * d ≤ 2 ^ 53 * (n * 10 ^ 7) := Nat.mul_le_mul_left _ hlo
      _ = n * (2 ^ 53 * 10 ^ 7) := by ring
      _ ≤ n * 2 ^ 1074 := Nat.mul_le_mul_left _ (by norm_num)
  have h2 : n * 2 ^ 1074 < 2 ^ 2096 * d := by
    calc n * 2 ^ 1074 ≤ 10 ^ 26 * d * 2 ^ 1074 := Nat.mul_le_mul_right _ hhi
      _ = 10 ^ 26 * 2 ^ 1074 * d := by ring
      _ < 2 ^ 2096 * d := Nat.mul_lt_mul_of_pos_right (by norm_num) hd
  obtain ⟨m, e, E, hr, ha, hb, hc⟩ := roundQ_normal s n d hd h1 h2
  refine ⟨m, e, hr, ?_⟩
  show |((m * 2 ^ e : Nat) : ℚ) / ((2 ^ 1074 : Nat) : ℚ) - (n : ℚ) / (d : ℚ)| ≤ _
  generalize m * 2 ^ e = V at *
  generalize (2 : Nat) ^ 1074 = P at *
  have hPpos : (0 : ℚ) < (P : ℚ) := by
    have : 0 < P := by
      rcases Nat.eq_zero_or_pos P with h | h
      · rw [h, Nat.mul_zero] at h1
        have : 0 < 2 ^ 53 * d := Nat.mul_pos (Nat.pow_pos (by decide)) hd
        omega
      · exact h
    exact_mod_cast this
  have hdpos : (0 : ℚ) < (d : ℚ) := by exact_mod_cast hd
  have ha2 : (V : ℚ) * d ≤ n * P + d * E := by exact_mod_cast ha
  have hb2 : (n : ℚ) * P ≤ V * d + d * E := by exact_mod_cast hb
  have hc2 : (2 : ℚ) ^ 52 * (d * E) ≤ n * P := by exact_mod_cast hc
  have key : (V : ℚ) / P - n / d = (V * d - P * n) / (P * d) :=
    div_sub_div _ _ (ne_of_gt hPpos) (ne_of_gt hdpos)
  have hE : (d : ℚ) * E ≤ n * P / 2 ^ 52 := by
    rw [le_div_iff₀ (by positivity)]
    linarith
  have key2 : (n : ℚ) / d / 2 ^ 52 = (n * P / 2 ^ 52) / (P * d) := by
    rw [div_div, div_div, div_eq_div_iff (by positivity) (by positivity)]
    ring
  rw [key, key2, abs_le]
  constructor
  · rw [← neg_div]
    apply div_le_div_of_nonneg_right _ (le_of_lt (mul_pos hPpos hdpos))
    rw [neg_le, neg_sub, sub_le_iff_le_add]
    linarith
  · apply div_le_div_of_nonneg_right _ (le_of_lt (mul_pos hPpos hdpos))
    rw [sub_le_iff_le_add]
    linarith

set_option exponentiation.threshold 5000 in
/-- A natural number below `2^53` is a Number. -/
theorem roundQ_exact (s : Bool) (r : Nat) (hr : r < 2 ^ 53) :
    ∃ m e, roundQ s r 1 = .fin s m e ∧ m * 2 ^ e = r * 2 ^ 1074 := by
  by_cases h0 : r = 0
  · subst h0
    exact ⟨0, 0, rfl, by rw [Nat.zero_mul, Nat.zero_mul]⟩
  · have ht : r * 2 ^ 1074 / 1 < 2 ^ 1127 := by
      rw [Nat.div_one]
      calc r * 2 ^ 1074 < 2 ^ 53 * 2 ^ 1074 :=
            Nat.mul_lt_mul_of_pos_right hr (Nat.pow_pos (by decide))
        _ = 2 ^ 1127 := by rw [← Nat.pow_add]
    have hspec := expOf_spec (r * 2 ^ 1074 / 1)
    have he : expOf (r * 2 ^ 1074 / 1) ≤ 1074 := by
      rcases hspec with h | h
      · omega
      · have h2 := lt_of_le_of_lt h ht
        have := (Nat.pow_lt_pow_iff_right (by decide : 1 < 2)).1 h2
        omega
    obtain ⟨q1, m, e, _, _, hz, hrq, hv⟩ := roundQ_value s r 1 h0 (by decide) (by omega)
    refine ⟨m, e, hrq, ?_⟩
    rw [hv]
    generalize expOf (r * 2 ^ 1074 / 1) = e0 at *
    rw [Nat.one_mul] at hz
    have hdvd : 2 ^ e0 ∣ r * 2 ^ 1074 :=
      Dvd.dvd.mul_left (Nat.pow_dvd_pow 2 he) r
    rw [hz (Nat.mod_eq_zero_of_dvd hdvd)]
    exact Nat.div_mul_cancel hdvd

/-- Rounding depends on the rational only, not on the fraction that denotes it. -/
theorem roundQ_mul_right (s : Bool) (n d c : Nat) (hc : 0 < c) :
    roundQ s (n * c) (d * c) = roundQ s n d := by
  by_cases h0 : n = 0
  · subst h0
    rw [Nat.zero_mul, roundQ, roundQ, if_pos rfl, if_pos rfl]
  · have h0c : n * c ≠ 0 := Nat.mul_ne_zero h0 (by omega)
    have e1 : n * c * 2 ^ 1074 / (d * c) = n * 2 ^ 1074 / d := by
      rw [Nat.mul_right_comm n c, Nat.mul_div_mul_right _ _ hc]
    rw [roundQ_explicit s (n * c) (d * c) h0c, roundQ_explicit s n d h0, e1]
    generalize expOf (n * 2 ^ 1074 / d) = e0
    have e2 : n * c * 2 ^ 1074 / (d * c * 2 ^ e0) = n * 2 ^ 1074 / (d * 2 ^ e0) := by
      rw [Nat.mul_right_comm n c, Nat.mul_right_comm d c, Nat.mul_div_mul_right _ _ hc]
    have e3 : n * c * 2 ^ 1074 % (d * c * 2 ^ e0) = n * 2 ^ 1074 % (d * 2 ^ e0) * c := by
      rw [Nat.mul_right_comm n c, Nat.mul_right_comm d c, Nat.mul_mod_mul_right]
    have e4 : d * c * 2 ^ e0 = d * 2 ^ e0 * c := Nat.mul_right_comm d c _
    rw [e2, e3, e4]
    generalize n * 2 ^ 1074 / (d * 2 ^ e0) = q
    generalize n * 2 ^ 1074 % (d * 2 ^ e0) = r
    generalize d * 2 ^ e0 = D
    have c1 : (D * c < 2 * (r * c)) ↔ (D < 2 * r) := by
      rw [← Nat.mul_assoc]
      exact Nat.mul_lt_mul_right hc
    have c2 : (2 * (r * c) = D * c) ↔ (2 * r = D) := by
      rw [← Nat.mul_assoc]
      exact Nat.mul_left_inj (by omega)
    simp only [c1, c2]

/-- Two fractions of the same value round to the same Number. -/
theorem roundQ_congr (s : Bool) (n1 d1 n2 d2 : Nat) (h1 : 0 < d1) (h2 : 0 < d2)
    (h : (n1 : ℚ) / d1 = (n2 : ℚ) / d2) : roundQ s n1 d1 = roundQ s n2 d2 := by
  have hq1 : (d1 : ℚ) ≠ 0 := by exact_mod_cast (ne_of_gt h1)
  have hq2 : (d2 : ℚ) ≠ 0 := by exact_mod_cast (ne_of_gt h2)
  rw [div_eq_div_iff hq1 hq2] at h
  have hn : n1 * d2 = n2 * d1 := by exact_mod_cast h
  rw [← roundQ_mul_right s n1 d1 d2 h2, ← roundQ_mul_right s n2 d2 d1 h1, hn, Nat.mul_comm d1 d2]

/-- A power of ten with an integer exponent as a quotient of two natural powers. -/
theorem pow_toNat_div (x : Int) :
    ((10 ^ x.toNat : Nat) : ℚ) / ((10 ^ (-x).toNat : Nat) : ℚ) = (10 : ℚ) ^ x := by
  rcases le_total 0 x with h | h
  · obtain ⟨a, rfl⟩ := Int.eq_ofNat_of_zero_le h
    have h2 : (-(a : Int)).toNat = 0 := Int.toNat_eq_zero.2 (by omega)
    rw [h2, Int.toNat_ofNat, Nat.pow_zero, Nat.cast_one, div_one, zpow_natCast]
    push_cast
    rfl
  · obtain ⟨a, ha⟩ := Int.eq_ofNat_of_zero_le (neg_nonneg.2 h)
    have hx : x = -(a : Int) := by omega
    subst hx
    have h2 : (-(a : Int)).toNat = 0 := Int.toNat_eq_zero.2 (by omega)
    rw [h2, neg_neg, Int.toNat_ofNat, Nat.pow_zero, Nat.cast_one, zpow_neg, zpow_natCast,
      one_div]
    push_cast
    rfl

/-! ## Decimal position -/

theorem natDigitsAux_length (fuel : Nat) : ∀ (n : Nat) (acc : List Char), n < fuel →
    ∃ L, 1 ≤ L ∧ (natDigitsAux fuel n acc).length = acc.length + L ∧ n < 10 ^ L ∧
      (n ≠ 0 → 10 ^ (L - 1) ≤ n) := by
  induction fuel with
  | zero => intro n acc h; omega
  | succ fuel ih =>
    intro n acc h
    rw [natDigitsAux]
    by_cases h10 : n < 10
    · rw [if_pos h10]
      refine ⟨1, le_refl _, by simp, by simpa using h10, ?_⟩
      intro h0
      simp only [Nat.sub_self, Nat.pow_zero]
      omega
    · rw [if_neg h10]
      obtain ⟨L, hL1, hlen, hlt, hge⟩ := ih (n / 10) (digitChar n :: acc) (by omega)
      refine ⟨L + 1, by omega, ?_, ?_, ?_⟩
      · rw [hlen, List.length_cons]; omega
      · rw [Nat.pow_succ]
        have := (Nat.div_lt_iff_lt_mul (by decide : 0 < 10)).1 hlt
        exact this
      · intro _
        have h1 := hge (by omega)
        have h2 : 10 ^ (L - 1) * 10 ≤ n := (Nat.le_div_iff_mul_le (by decide : 0 < 10)).1 h1
        have h3 : 10 ^ (L + 1 - 1) = 10 ^ (L - 1) * 10 := by
          rw [← Nat.pow_succ]
          congr 1
          omega
        rw [h3]; exact h2

theorem natDigits_length (n : Nat) (hn : n ≠ 0) :
    1 ≤ (natDigits n).length ∧ n < 10 ^ (natDigits n).length ∧
      10 ^ ((natDigits n).length - 1) ≤ n := by
  obtain ⟨L, hL1, hlen, hlt, hge⟩ := natDigitsAux_length (n + 1) n [] (by omega)
  have hl : (natDigits n).length = L := by
    rw [natDigits, hlen, List.length_nil, Nat.zero_add]
  rw [hl]
  exact ⟨hL1, hlt, hge hn⟩

theorem leadingZerosAux_spec (n d : Nat) (hn : 0 < n) (fuel : Nat) : ∀ z : Nat,
    n * 10 ^ z < d → d ≤ fuel + z →
    n * 10 ^ leadingZerosAux fuel n d z < d ∧ d ≤ n * 10 ^ (leadingZerosAux fuel n d z + 1) := by
  induction fuel with
  | zero =>
    intro z h1 h2
    exfalso
    have h3 : z < 10 ^ z := Nat.lt_pow_self (by decide) z
    have h4 : 10 ^ z ≤ n * 10 ^ z := Nat.le_mul_of_pos_left _ hn
    omega
  | succ fuel ih =>
    intro z h1 h2
    rw [leadingZerosAux]
    by_cases h : n * 10 ^ (z + 1) < d
    · rw [if_pos h]
      exact ih (z + 1) h (by omega)
    · rw [if_neg h]
      exact ⟨h1, by omega⟩

/-- The decimal position `p` of a positive rational satisfies
`10^(p-1) ≤ n / d < 10^p`. -/
theorem decPos_spec (n d : Nat) (hn : 0 < n) (hd : 0 < d) :
    (10 : ℚ) ^ (decPos n d - 1) ≤ (n : ℚ) / d ∧ (n : ℚ) / d < (10 : ℚ) ^ (decPos n d) := by
  have hdq : (0 : ℚ) < (d : ℚ) := by exact_mod_cast hd
  unfold decPos
  by_cases h : d ≤ n
  · rw [if_pos h]
    have hf : n / d ≠ 0 := Nat.pos_iff_ne_zero.1 (Nat.div_pos h hd)
    obtain ⟨hL1, hlt, hge⟩ := natDigits_length (n / d) hf
    generalize (natDigits (n / d)).length = L at *
    have h1 : 10 ^ (L - 1) * d ≤ n := (Nat.le_div_iff_mul_le hd).1 hge
    have h2 : n < 10 ^ L * d := (Nat.div_lt_iff_lt_mul hd).1 hlt
    have e1 : ((L : Int) - 1) = ((L - 1 : Nat) : Int) := by omega
    rw [e1, zpow_natCast, zpow_natCast, le_div_iff₀ hdq, div_lt_iff₀ hdq]
    exact ⟨by exact_mod_cast h1, by exact_mod_cast h2⟩
  · rw [if_neg h]
    have hz := leadingZerosAux_spec n d hn d 0 (by rw [Nat.pow_zero, Nat.mul_one]; omega)
      (by omega)
    rw [← leadingZeros] at hz
    generalize leadingZeros n d = z at *
    obtain ⟨h1, h2⟩ := hz
    have e1 : (-(z : Int) - 1) = -((z + 1 : Nat) : Int) := by push_cast; ring
    have hp1 : (0 : ℚ) < (10 : ℚ) ^ (z + 1) := by positivity
    have hp2 : (0 : ℚ) < (10 : ℚ) ^ z := by positivity
    rw [e1, zpow_neg, zpow_neg, zpow_natCast, zpow_natCast, le_div_iff₀ hdq, div_lt_iff₀ hdq,
      inv_mul_le_iff₀ hp1, ← div_eq_inv_mul, lt_div_iff₀ hp2]
    constructor
    · have : (d : ℚ) ≤ (n : ℚ) * (10 : ℚ) ^ (z + 1) := by exact_mod_cast h2
      linarith
    · exact_mod_cast h1

/-! ## Digit strings -/

theorem digitChar_toNat (d : Nat) : (digitChar d).toNat = 48 + d % 10 := by
  have h : d % 10 < 10 := Nat.mod_lt _ (by decide)
  unfold digitChar
  generalize d % 10 = x at *
  interval_cases x <;> rfl

theorem digitsN_length (k : Nat) : ∀ n, (digitsN k n).length = k := by
  induction k with
  | zero => intro n; rfl
  | succ k ih => intro n; rw [digitsN, List.length_append, ih, List.length_singleton]

theorem digitsN_digits (k : Nat) : ∀ n, ∀ c ∈ digitsN k n, isDecimalDigit c = true := by
  induction k with
  | zero => intro n c hc; exact absurd hc (List.not_mem_nil _)
  | succ k ih =>
    intro n c hc
    rw [digitsN, List.mem_append, List.mem_singleton] at hc
    rcases hc with h | h
    · exact ih _ c h
    · rw [h]; exact isDecimalDigit_digitChar n

theorem digitsValue_append (a b : List Char) (hb : ∀ c ∈ b, isDecimalDigit c = true) :
    digitsValue (a ++ b) = digitsValue a * 10 ^ b.length + digitsValue b := by
  induction b using List.reverseRecOn with
  | nil => simp [digitsValue]
  | append_singleton b c ih =>
    have ih2 := ih (fun x hx => hb x (List.mem_append_left _ hx))
    have e : ∀ l : List Char, digitsValue (l ++ [c]) = 10 * digitsValue l + (c.toNat - 48) := by
      intro l
      unfold digitsValue
      rw [List.foldl_append, List.foldl_cons, List.foldl_nil]
    rw [← List.append_assoc, e, e, ih2, List.length_append, List.length_singleton, Nat.pow_succ]
    ring

theorem digitsValue_digitsN (k : Nat) : ∀ n, digitsValue (digitsN k n) = n % 10 ^ k := by
  induction k with
  | zero => intro n; simp [digitsN, digitsValue, Nat.mod_one]
  | succ k ih =>
    intro n
    rw [digitsN, digitsValue_append _ _ (by
      intro c hc
      rw [List.mem_singleton.1 hc]
      exact isDecimalDigit_digitChar n), ih, List.length_singleton, Nat.pow_one]
    have e : digitsValue [digitChar n] = n % 10 := by
      unfold digitsValue
      rw [List.foldl_cons, List.foldl_nil, digitChar_toNat]
      omega
    rw [e, Nat.pow_succ]
    have h1 := Nat.div_add_mod (n % (10 ^ k * 10)) 10
    have h2 : n % (10 ^ k * 10) % 10 = n % 10 := Nat.mod_mul_left_mod n (10 ^ k) 10
    have h3 : n % (10 ^ k * 10) / 10 = n / 10 % 10 ^ k := by
      rw [Nat.mul_comm (10 ^ k) 10, Nat.mod_mul_right_div_self]
    rw [h2, h3] at h1
    rw [← h1, Nat.mul_comm]

theorem digitsValue_replicate_zero (z : Nat) :
    digitsValue (List.replicate z (Char.ofNat 48)) = 0 := by
  induction z with
  | zero => rfl
  | succ z ih =>
    rw [List.replicate_succ']
    have hb : ∀ c ∈ [Char.ofNat 48], isDecimalDigit c = true := by
      intro c hc; rw [List.mem_singleton.1 hc]; decide
    rw [digitsValue_append _ _ hb, ih]
    rfl

theorem replicate_zero_digits (z : Nat) :
    ∀ c ∈ List.replicate z (Char.ofNat 48), isDecimalDigit c = true := by
  intro c hc
  rw [(List.mem_replicate.1 hc).2]
  decide

/-! ## The shortest digit string -/

theorem zpow_ten_pos (x : Int) : (0 : ℚ) < (10 : ℚ) ^ x := zpow_pos (by norm_num) x

theorem zpow_ten_add (x y : Int) : (10 : ℚ) ^ (x + y) = (10 : ℚ) ^ x * (10 : ℚ) ^ y :=
  zpow_add₀ (by norm_num) x y

/-- The truncated significand with `k` digits of a value at decimal position `p`
has exactly `k` digits and brackets the value. -/
theorem candidate_floor (V P : Nat) (p : Int) (k : Nat) (hk : 1 ≤ k) (hP : 0 < P)
    (hp1 : (10 : ℚ) ^ (p - 1) ≤ (V : ℚ) / P) (hp2 : (V : ℚ) / P < (10 : ℚ) ^ p) :
    10 ^ (k - 1) ≤ V * 10 ^ ((k : Int) - p).toNat / (P * 10 ^ (p - (k : Int)).toNat) ∧
      V * 10 ^ ((k : Int) - p).toNat / (P * 10 ^ (p - (k : Int)).toNat) < 10 ^ k ∧
      ((V * 10 ^ ((k : Int) - p).toNat / (P * 10 ^ (p - (k : Int)).toNat) : Nat) : ℚ) *
          (10 : ℚ) ^ (p - (k : Int)) ≤ (V : ℚ) / P ∧
      (V : ℚ) / P <
        (((V * 10 ^ ((k : Int) - p).toNat / (P * 10 ^ (p - (k : Int)).toNat) : Nat) : ℚ) + 1) *
          (10 : ℚ) ^ (p - (k : Int)) := by
  have hud := pow_toNat_div (p - (k : Int))
  rw [neg_sub] at hud
  have hup : 0 < 10 ^ ((k : Int) - p).toNat := Nat.pow_pos (by decide)
  have hdown : 0 < 10 ^ (p - (k : Int)).toNat := Nat.pow_pos (by decide)
  generalize 10 ^ ((k : Int) - p).toNat = up at *
  generalize 10 ^ (p - (k : Int)).toNat = down at *
  have h1 : V * up / (P * down) * (P * down) ≤ V * up := Nat.div_mul_le_self _ _
  have h2 : V * up < P * down * (V * up / (P * down) + 1) :=
    Nat.lt_mul_div_succ _ (Nat.mul_pos hP hdown)
  generalize V * up / (P * down) = lo at *
  have hPq : (0 : ℚ) < (P : ℚ) := by exact_mod_cast hP
  have hupq : (0 : ℚ) < (up : ℚ) := by exact_mod_cast hup
  have hdownq : (0 : ℚ) < (down : ℚ) := by exact_mod_cast hdown
  have h1q : (lo : ℚ) * (P * down) ≤ V * up := by exact_mod_cast h1
  have h2q : (V : ℚ) * up < P * down * (lo + 1) := by exact_mod_cast h2
  have h3 : (lo : ℚ) * (10 : ℚ) ^ (p - (k : Int)) ≤ (V : ℚ) / P := by
    rw [← hud, ← mul_div_assoc, div_le_div_iff₀ hupq hPq]
    linarith
  have h4 : (V : ℚ) / P < ((lo : ℚ) + 1) * (10 : ℚ) ^ (p - (k : Int)) := by
    rw [← hud, ← mul_div_assoc, div_lt_div_iff₀ hPq hupq]
    linarith
  have hinv : (10 : ℚ) ^ (p - (k : Int)) * (10 : ℚ) ^ ((k : Int) - p) = 1 := by
    rw [← zpow_ten_add]
    have : p - (k : Int) + ((k : Int) - p) = 0 := by ring
    rw [this, zpow_zero]
  have hkp := zpow_ten_pos ((k : Int) - p)
  refine ⟨?_, ?_, h3, h4⟩
  · have h5 : (10 : ℚ) ^ (p - 1) * (10 : ℚ) ^ ((k : Int) - p) <
        ((lo : ℚ) + 1) * (10 : ℚ) ^ (p - (k : Int)) * (10 : ℚ) ^ ((k : Int) - p) :=
      mul_lt_mul_of_pos_right (lt_of_le_of_lt hp1 h4) hkp
    rw [mul_assoc, hinv, mul_one, ← zpow_ten_add] at h5
    have e1 : p - 1 + ((k : Int) - p) = ((k - 1 : Nat) : Int) := by omega
    rw [e1, zpow_natCast] at h5
    have h6 : 10 ^ (k - 1) < lo + 1 := by exact_mod_cast h5
    omega
  · have h5 : (lo : ℚ) * (10 : ℚ) ^ (p - (k : Int)) * (10 : ℚ) ^ ((k : Int) - p) <
        (10 : ℚ) ^ p * (10 : ℚ) ^ ((k : Int) - p) :=
      mul_lt_mul_of_pos_right (lt_of_le_of_lt h3 hp2) hkp
    rw [mul_assoc, hinv, mul_one, ← zpow_ten_add] at h5
    have e1 : p + ((k : Int) - p) = ((k : Nat) : Int) := by omega
    rw [e1, zpow_natCast] at h5
    exact_mod_cast h5

/-- The definition of `candidate` with its local definitions as parameters. -/
theorem candidate_explicit (m e : Nat) (p : Int) (k up down lo r : Nat)
    (hup : up = 10 ^ ((k : Int) - p).toNat) (hdown : down = 10 ^ (p - (k : Int)).toNat)
    (hlo : lo = m * 2 ^ e * up / (2 ^ 1074 * down))
    (hr : r = m * 2 ^ e * up % (2 ^ 1074 * down)) :
    candidate m e p k =
      if (decide (10 ^ (k - 1) ≤ lo) && decide (roundQ false (lo * down) up = .fin false m e)) &&
          decide (roundQ false ((lo + 1) * down) up = .fin false m e) then
        (if 2 * r < 2 ^ 1074 * down ∨ (2 * r = 2 ^ 1074 * down ∧ lo % 2 = 0) then some (lo, p)
         else some (if lo + 1 = 10 ^ k then (10 ^ (k - 1), p + 1) else (lo + 1, p)))
      else if (decide (10 ^ (k - 1) ≤ lo) &&
          decide (roundQ false (lo * down) up = .fin false m e)) then some (lo, p)
      else if decide (roundQ false ((lo + 1) * down) up = .fin false m e) then
        some (if lo + 1 = 10 ^ k then (10 ^ (k - 1), p + 1) else (lo + 1, p))
      else none := by
  subst hup hdown hlo hr
  rfl

set_option exponentiation.threshold 2000 in
/-- A candidate that is returned has `k` digits, lies at the decimal position of
the value or one above, and denotes a decimal that rounds to the value. -/
theorem candidate_spec (m e : Nat) (p : Int) (k : Nat) (hk : 1 ≤ k)
    (hp1 : (10 : ℚ) ^ (p - 1) ≤ ((m * 2 ^ e : Nat) : ℚ) / ((2 ^ 1074 : Nat) : ℚ))
    (hp2 : ((m * 2 ^ e : Nat) : ℚ) / ((2 ^ 1074 : Nat) : ℚ) < (10 : ℚ) ^ p)
    (s : Nat) (n : Int) (h : candidate m e p k = some (s, n)) :
    10 ^ (k - 1) ≤ s ∧ s < 10 ^ k ∧ (n = p ∨ n = p + 1) ∧
      ∀ A B : Nat, 0 < B → (A : ℚ) / B = (s : ℚ) * (10 : ℚ) ^ (n - (k : Int)) →
        roundQ false A B = .fin false m e := by
  obtain ⟨f1, f2, _, _⟩ := candidate_floor (m * 2 ^ e) (2 ^ 1074) p k hk
    (Nat.pow_pos (by decide)) hp1 hp2
  rw [candidate_explicit m e p k _ _ _ _ rfl rfl rfl rfl] at h
  have hud := pow_toNat_div (p - (k : Int))
  rw [neg_sub] at hud
  have hup : 0 < 10 ^ ((k : Int) - p).toNat := Nat.pow_pos (by decide)
  generalize m * 2 ^ e * 10 ^ ((k : Int) - p).toNat % (2 ^ 1074 * 10 ^ (p - (k : Int)).toNat) = r
    at h
  generalize m * 2 ^ e * 10 ^ ((k : Int) - p).toNat / (2 ^ 1074 * 10 ^ (p - (k : Int)).toNat) = lo
    at *
  generalize 10 ^ ((k : Int) - p).toNat = up at *
  generalize 10 ^ (p - (k : Int)).toNat = down at *
  generalize (2 : Nat) ^ 1074 = P at *
  have hupq : (up : ℚ) ≠ 0 := by exact_mod_cast (ne_of_gt hup)
  have hLo : roundQ false (lo * down) up = .fin false m e →
      (10 ^ (k - 1) ≤ lo ∧ lo < 10 ^ k ∧ (p = p ∨ p = p + 1) ∧
        ∀ A B : Nat, 0 < B → (A : ℚ) / B = (lo : ℚ) * (10 : ℚ) ^ (p - (k : Int)) →
          roundQ false A B = .fin false m e) := by
    intro hok
    refine ⟨f1, f2, Or.inl rfl, ?_⟩
    intro A B hB hAB
    rw [← hok]
    apply roundQ_congr false A B (lo * down) up hB hup
    rw [hAB, ← hud]
    push_cast
    rw [mul_div_assoc]
  have hHi : roundQ false ((lo + 1) * down) up = .fin false m e →
      (10 ^ (k - 1) ≤ (if lo + 1 = 10 ^ k then ((10 ^ (k - 1) : Nat), p + 1) else (lo + 1, p)).1 ∧
        (if lo + 1 = 10 ^ k then ((10 ^ (k - 1) : Nat), p + 1) else (lo + 1, p)).1 < 10 ^ k ∧
        ((if lo + 1 = 10 ^ k then ((10 ^ (k - 1) : Nat), p + 1) else (lo + 1, p)).2 = p ∨
          (if lo + 1 = 10 ^ k then ((10 ^ (k - 1) : Nat), p + 1) else (lo + 1, p)).2 = p + 1) ∧
        ∀ A B : Nat, 0 < B →
          (A : ℚ) / B =
            ((if lo + 1 = 10 ^ k then ((10 ^ (k - 1) : Nat), p + 1) else (lo + 1, p)).1 : ℚ) *
              (10 : ℚ) ^
                ((if lo + 1 = 10 ^ k then ((10 ^ (k - 1) : Nat), p + 1) else (lo + 1, p)).2 -
                  (k : Int)) →
          roundQ false A B = .fin false m e) := by
    intro hok
    by_cases hov : lo + 1 = 10 ^ k
    · rw [if_pos hov]
      refine ⟨le_refl _, Nat.pow_lt_pow_right (by decide) (by omega), Or.inr rfl, ?_⟩
      intro A B hB hAB
      rw [← hok]
      apply roundQ_congr false A B ((lo + 1) * down) up hB hup
      rw [hAB, hov]
      push_cast
      rw [mul_div_assoc, hud, ← zpow_natCast, ← zpow_natCast, ← zpow_ten_add, ← zpow_ten_add]
      congr 1
      omega
    · rw [if_neg hov]
      refine ⟨by show 10 ^ (k - 1) ≤ lo + 1; omega, by show lo + 1 < 10 ^ k; omega,
        Or.inl rfl, ?_⟩
      intro A B hB hAB
      rw [← hok]
      apply roundQ_congr false A B ((lo + 1) * down) up hB hup
      rw [hAB, ← hud]
      push_cast
      rw [mul_div_assoc]
  simp only [Bool.and_eq_true, decide_eq_true_eq] at h
  generalize (if lo + 1 = 10 ^ k then ((10 ^ (k - 1) : Nat), p + 1) else (lo + 1, p)) = hi
    at h hHi
  split_ifs at h with c1 c2 c3 c4
  · obtain ⟨rfl, rfl⟩ := Prod.mk.inj (Option.some.inj h)
    exact hLo c1.1.2
  · rw [Option.some.inj h] at hHi
    exact hHi c1.2
  · obtain ⟨rfl, rfl⟩ := Prod.mk.inj (Option.some.inj h)
    exact hLo c3.2
  · rw [Option.some.inj h] at hHi
    exact hHi c4

theorem findSome_range {β : Type} (f : Nat → Option β) (n : Nat) :
    ((List.range n).findSome? f = none ∧ ∀ i, i < n → f i = none) ∨
      ∃ i b, i < n ∧ (List.range n).findSome? f = some b ∧ f i = some b ∧
        ∀ j, j < i → f j = none := by
  induction n with
  | zero => exact Or.inl ⟨rfl, fun i hi => absurd hi (Nat.not_lt_zero _)⟩
  | succ n ih =>
    rw [List.range_succ, List.findSome?_append]
    rcases ih with ⟨h1, h2⟩ | ⟨i, b, hi, h1, h2, h3⟩
    · rw [h1]
      cases hn : f n with
      | none =>
        left
        refine ⟨by simp [List.findSome?, hn], ?_⟩
        intro i hi
        rcases Nat.lt_succ_iff_lt_or_eq.1 hi with h | h
        · exact h2 i h
        · rw [h]; exact hn
      | some b =>
        right
        exact ⟨n, b, Nat.lt_succ_self _, by simp [List.findSome?, hn], hn, h2⟩
    · right
      exact ⟨i, b, Nat.lt_succ_of_lt hi, by rw [h1]; rfl, h2, h3⟩

set_option exponentiation.threshold 2000 in
/-- The digits chosen by `shortest`: either a checked candidate, the first one
that exists, or the seventeen-digit truncation of the value. -/
theorem shortest_spec (m e : Nat) (hV : 0 < m * 2 ^ e) :
    ∃ k s n, shortest m e = (k, s, n) ∧ 1 ≤ k ∧ k ≤ 17 ∧ 10 ^ (k - 1) ≤ s ∧ s < 10 ^ k ∧
      (n = decPos (m * 2 ^ e) (2 ^ 1074) ∨ n = decPos (m * 2 ^ e) (2 ^ 1074) + 1) ∧
      ((∀ A B : Nat, 0 < B → (A : ℚ) / B = (s : ℚ) * (10 : ℚ) ^ (n - (k : Int)) →
          roundQ false A B = .fin false m e) ∨
        (k = 17 ∧ n = decPos (m * 2 ^ e) (2 ^ 1074) ∧
          (s : ℚ) * (10 : ℚ) ^ (n - (k : Int)) ≤
            ((m * 2 ^ e : Nat) : ℚ) / ((2 ^ 1074 : Nat) : ℚ) ∧
          ((m * 2 ^ e : Nat) : ℚ) / ((2 ^ 1074 : Nat) : ℚ) <
            ((s : ℚ) + 1) * (10 : ℚ) ^ (n - (k : Int)))) ∧
      (∀ k0, 1 ≤ k0 → k0 ≤ 17 → candidate m e (decPos (m * 2 ^ e) (2 ^ 1074)) k0 ≠ none →
        k ≤ k0) := by
  obtain ⟨hp1, hp2⟩ := decPos_spec (m * 2 ^ e) (2 ^ 1074) hV (Nat.pow_pos (by decide))
  have hs : shortest m e =
      match (List.range 17).findSome?
          (fun i => (candidate m e (decPos (m * 2 ^ e) (2 ^ 1074)) (i + 1)).map
            (fun c => (i + 1, c))) with
      | some r => r
      | none => (17, m * 2 ^ e * 10 ^ ((17 : Int) - decPos (m * 2 ^ e) (2 ^ 1074)).toNat /
          (2 ^ 1074 * 10 ^ (decPos (m * 2 ^ e) (2 ^ 1074) - 17).toNat),
          decPos (m * 2 ^ e) (2 ^ 1074)) := rfl
  generalize decPos (m * 2 ^ e) (2 ^ 1074) = p at *
  rcases findSome_range (fun i => (candidate m e p (i + 1)).map (fun c => (i + 1, c))) 17 with
    ⟨h1, h2⟩ | ⟨i, b, hi, h1, h2, h3⟩
  · rw [h1] at hs
    obtain ⟨f1, f2, f3, f4⟩ := candidate_floor (m * 2 ^ e) (2 ^ 1074) p 17 (by decide)
      (Nat.pow_pos (by decide)) hp1 hp2
    refine ⟨17, _, p, hs, by decide, le_refl _, f1, f2, Or.inl rfl,
      Or.inr ⟨rfl, rfl, f3, f4⟩, ?_⟩
    intro k0 hk1 hk2 hne
    exfalso
    have := h2 (k0 - 1) (by omega)
    simp only [Option.map_eq_none'] at this
    have e1 : k0 - 1 + 1 = k0 := by omega
    rw [e1] at this
    exact hne this
  · rw [h1] at hs
    simp only [Option.map_eq_some'] at h2
    obtain ⟨⟨s, n⟩, hc, hb⟩ := h2
    obtain ⟨g1, g2, g3, g4⟩ := candidate_spec m e p (i + 1) (by omega) hp1 hp2 s n hc
    refine ⟨i + 1, s, n, by rw [hs, ← hb], by omega, by omega, g1, g2, g3, Or.inl g4, ?_⟩
    intro k0 hk1 hk2 hne
    by_contra hlt
    have := h3 (k0 - 1) (by omega)
    simp only [Option.map_eq_none'] at this
    have e1 : k0 - 1 + 1 = k0 := by omega
    rw [e1] at this
    exact hne this

/-! ## Parsing what `toString` lays out -/

theorem parseFloat_digit_head (c : Char) (r : List Char) (hc : isDecimalDigit c = true) :
    parseFloat (c :: r) = parseUnsigned (c :: r) := by
  have hws := not_whiteSpace_of_digit c hc
  have h45 : c ≠ Char.ofNat 45 := digit_ne_of_toNat c hc 45 (by decide)
  have h43 : c ≠ Char.ofNat 43 := digit_ne_of_toNat c hc 43 (by decide)
  unfold parseFloat
  rw [List.dropWhile_cons_of_neg (by simp [hws])]
  simp only [h45, h43, if_false]

/-- A minus sign in front of a decimal negates its value. -/
theorem parseFloat_signPrefix (sg : Bool) (c : Char) (r : List Char)
    (hc : isDecimalDigit c = true) :
    parseFloat (signPrefix sg ++ c :: r) =
      if sg = true then JSNumber.neg (parseFloat (c :: r)) else parseFloat (c :: r) := by
  cases sg
  · rfl
  · rw [parseFloat_digit_head c r hc]
    have h1 : signPrefix true = [Char.ofNat 45] := rfl
    rw [h1, List.singleton_append, if_pos rfl]
    unfold parseFloat
    rw [List.dropWhile_cons_of_neg (by decide)]
    simp only [if_true]

theorem exponentPart_negative (xs : List Char) (hne : xs ≠ [])
    (hxs : ∀ c ∈ xs, isDecimalDigit c = true) :
    exponentPart (Char.ofNat 101 :: Char.ofNat 45 :: xs) = some (true, digitsValue xs) := by
  have htake : xs.takeWhile isDecimalDigit = xs := List.takeWhile_eq_self_iff.2 hxs
  unfold exponentPart
  simp only [true_or, if_true, htake]
  cases xs with
  | nil => exact absurd rfl hne
  | cons a b => simp

/-- On digits and a negative exponent `parseFloat` returns the Number value of
the decimal the text spells. -/
theorem parseFloat_digits_exp (ip xs : List Char) (hne : ip ≠ [])
    (hip : ∀ c ∈ ip, isDecimalDigit c = true) (hxne : xs ≠ [])
    (hxs : ∀ c ∈ xs, isDecimalDigit c = true) :
    parseFloat (ip ++ Char.ofNat 101 :: Char.ofNat 45 :: xs) =
      roundQ false (digitsValue ip) (10 ^ (0 + digitsValue xs)) := by
  cases ip with
  | nil => exact absurd rfl hne
  | cons c r =>
    have hc := hip c (List.mem_cons_self _ _)
    have h73 : c ≠ Char.ofNat 73 := digit_ne_of_toNat c hc 73 (by decide)
    have hinf : "Infinity".toList.isPrefixOf
        (c :: (r ++ Char.ofNat 101 :: Char.ofNat 45 :: xs)) = false := by
      have : "Infinity".toList = Char.ofNat 73 :: "nfinity".toList := by decide
      rw [this, List.isPrefixOf]
      simp [Ne.symm h73]
    have he : isDecimalDigit (Char.ofNat 101) = false := by decide
    have htake : (c :: (r ++ Char.ofNat 101 :: Char.ofNat 45 :: xs)).takeWhile isDecimalDigit =
        c :: r := by
      rw [← List.cons_append, List.takeWhile_append_of_pos hip, List.takeWhile_cons, he]
      simp
    have hdrop : (c :: (r ++ Char.ofNat 101 :: Char.ofNat 45 :: xs)).dropWhile isDecimalDigit =
        Char.ofNat 101 :: Char.ofNat 45 :: xs := by
      rw [← List.cons_append, List.dropWhile_append_of_pos hip, List.dropWhile_cons, he]
      simp
    have hne46 : Char.ofNat 101 ≠ Char.ofNat 46 := by decide
    rw [List.cons_append, parseFloat_digit_head c _ hc]
    unfold parseUnsigned
    rw [hinf]
    simp only [Bool.false_eq_true, if_false, htake, hdrop, List.isEmpty_cons, hne46,
      exponentPart_negative xs hxne hxs, decimalValue]

/-- On digits, a decimal point, further digits and a negative exponent
`parseFloat` returns the Number value of the decimal the text spells. -/
theorem parseFloat_decimal_exp (ip fp xs : List Char) (hne : ip ≠ [])
    (hip : ∀ c ∈ ip, isDecimalDigit c = true) (hfp : ∀ c ∈ fp, isDecimalDigit c = true)
    (hxne : xs ≠ []) (hxs : ∀ c ∈ xs, isDecimalDigit c = true) :
    parseFloat (ip ++ Char.ofNat 46 :: (fp ++ Char.ofNat 101 :: Char.ofNat 45 :: xs)) =
      roundQ false (digitsValue (ip ++ fp)) (10 ^ (fp.length + digitsValue xs)) := by
  cases ip with
  | nil => exact absurd rfl hne
  | cons c r =>
    have hc := hip c (List.mem_cons_self _ _)
    have h73 : c ≠ Char.ofNat 73 := digit_ne_of_toNat c hc 73 (by decide)
    have hinf : "Infinity".toList.isPrefixOf
        (c :: (r ++ Char.ofNat 46 :: (fp ++ Char.ofNat 101 :: Char.ofNat 45 :: xs))) = false := by
      have : "Infinity".toList = Char.ofNat 73 :: "nfinity".toList := by decide
      rw [this, List.isPrefixOf]
      simp [Ne.symm h73]
    have hpt : isDecimalDigit (Char.ofNat 46) = false := by decide
    have he : isDecimalDigit (Char.ofNat 101) = false := by decide
    have htake : (c :: (r ++ Char.ofNat 46 ::
        (fp ++ Char.ofNat 101 :: Char.ofNat 45 :: xs))).takeWhile isDecimalDigit = c :: r := by
      rw [← List.cons_append, List.takeWhile_append_of_pos hip, List.takeWhile_cons, hpt]
      simp
    have hdrop : (c :: (r ++ Char.ofNat 46 ::
        (fp ++ Char.ofNat 101 :: Char.ofNat 45 :: xs))).dropWhile isDecimalDigit =
        Char.ofNat 46 :: (fp ++ Char.ofNat 101 :: Char.ofNat 45 :: xs) := by
      rw [← List.cons_append, List.dropWhile_append_of_pos hip, List.dropWhile_cons, hpt]
      simp
    have htakefp : (fp ++ Char.ofNat 101 :: Char.ofNat 45 :: xs).takeWhile isDecimalDigit =
        fp := by
      rw [List.takeWhile_append_of_pos hfp, List.takeWhile_cons, he]
      simp
    have hdropfp : (fp ++ Char.ofNat 101 :: Char.ofNat 45 :: xs).dropWhile isDecimalDigit =
        Char.ofNat 101 :: Char.ofNat 45 :: xs := by
      rw [List.dropWhile_append_of_pos hfp, List.dropWhile_cons, he]
      simp
    rw [List.cons_append, parseFloat_digit_head c _ hc]
    unfold parseUnsigned
    rw [hinf]
    simp only [Bool.false_eq_true, if_false, htake, hdrop, htakefp, hdropfp, List.isEmpty_cons,
      false_and, exponentPart_negative xs hxne hxs, decimalValue, List.cons_append]
    rw [if_pos trivial]

theorem digitsN_cons (k s : Nat) (hk : 1 ≤ k) :
    ∃ c r, digitsN k s = c :: r ∧ isDecimalDigit c = true := by
  have hl := digitsN_length k s
  have hd := digitsN_digits k s
  cases h : digitsN k s with
  | nil => rw [h, List.length_nil] at hl; omega
  | cons c r => exact ⟨c, r, rfl, hd c (by rw [h]; exact List.mem_cons_self _ _)⟩

theorem natDigits_seven : natDigits 7 = [Char.ofNat 55] := by decide

/-- The text laid out from `k` digits at a decimal position between `-6` and `21`
starts with a digit, parses to the Number nearest to `s * 10^(n-k)`, and is short. -/
theorem layout_spec (k s : Nat) (n : Int) (hk : 1 ≤ k) (hs : s < 10 ^ k) (hn1 : -6 ≤ n)
    (hn2 : n ≤ 21) :
    ∃ c r A B, layout k s n = c :: r ∧ isDecimalDigit c = true ∧ 0 < B ∧
      parseFloat (layout k s n) = roundQ false A B ∧
      (A : ℚ) / B = (s : ℚ) * (10 : ℚ) ^ (n - (k : Int)) ∧
      (0 < n → (layout k s n).length ≤ max n.toNat (k + 1)) ∧
      (n ≤ 0 → (layout k s n).length ≤ k + 2 + (-n).toNat) := by
  have hlen := digitsN_length k s
  have hdig := digitsN_digits k s
  have hval : digitsValue (digitsN k s) = s := by
    rw [digitsValue_digitsN, Nat.mod_eq_of_lt hs]
  obtain ⟨c0, r0, hds, hc0⟩ := digitsN_cons k s hk
  unfold layout
  generalize digitsN k s = ds at *
  by_cases h1 : (k : Int) ≤ n ∧ n ≤ 21
  · rw [if_pos h1]
    have hz := replicate_zero_digits (n - (k : Int)).toNat
    have hzl : (List.replicate (n - (k : Int)).toNat (Char.ofNat 48)).length =
        (n - (k : Int)).toNat := List.length_replicate _ _
    have hzv := digitsValue_replicate_zero (n - (k : Int)).toNat
    have hnk : ((n - (k : Int)).toNat : Int) = n - (k : Int) := Int.toNat_of_nonneg (by omega)
    generalize List.replicate (n - (k : Int)).toNat (Char.ofNat 48) = zs at *
    have hall : ∀ c ∈ ds ++ zs, isDecimalDigit c = true := by
      intro c hc
      rcases List.mem_append.1 hc with h | h
      · exact hdig c h
      · exact hz c h
    refine ⟨c0, r0 ++ zs, digitsValue (ds ++ zs), 1, by rw [hds, List.cons_append], hc0,
      by decide, parseFloat_digits _ (by rw [hds]; simp) hall, ?_, ?_, ?_⟩
    · have e : (10 : ℚ) ^ (n - (k : Int)) = (10 : ℚ) ^ (n - (k : Int)).toNat := by
        conv_lhs => rw [← hnk]
        exact zpow_natCast _ _
      rw [digitsValue_append _ _ hz, hval, hzv, hzl, Nat.add_zero, e]
      push_cast
      rw [div_one]
    · intro _
      rw [List.length_append, hlen, hzl]
      have : k + (n - (k : Int)).toNat = n.toNat := by omega
      rw [this]
      exact le_max_left _ _
    · intro h0
      omega
  · rw [if_neg h1]
    by_cases h2 : 0 < n ∧ n ≤ 21
    · rw [if_pos h2]
      have hnk : n.toNat < k := by omega
      have hn0 : 0 < n.toNat := by omega
      have htd : ds.take n.toNat ++ ds.drop n.toNat = ds := List.take_append_drop _ _
      have htl : (ds.take n.toNat).length = n.toNat := by
        rw [List.length_take, hlen]; omega
      have hdl : (ds.drop n.toNat).length = k - n.toNat := by
        rw [List.length_drop, hlen]
      have htake : ds.take n.toNat = c0 :: r0.take (n.toNat - 1) := by
        rw [hds]
        obtain ⟨j, hj⟩ : ∃ j, n.toNat = j + 1 := ⟨n.toNat - 1, by omega⟩
        rw [hj, List.take_succ_cons]
        rfl
      have e1 : ds.take n.toNat ++ [Char.ofNat 46] ++ ds.drop n.toNat =
          ds.take n.toNat ++ Char.ofNat 46 :: ds.drop n.toNat := by
        rw [List.append_assoc, List.singleton_append]
      rw [e1]
      have hp := parseFloat_decimal (ds.take n.toNat) (ds.drop n.toNat)
        (by rw [htake]; exact List.cons_ne_nil _ _)
        (fun c hc => hdig c (List.mem_of_mem_take hc))
        (fun c hc => hdig c (List.mem_of_mem_drop hc))
      rw [htd, hval, hdl] at hp
      refine ⟨c0, r0.take (n.toNat - 1) ++ Char.ofNat 46 :: ds.drop n.toNat, s,
        10 ^ (k - n.toNat), by rw [htake, List.cons_append], hc0, Nat.pow_pos (by decide),
        hp, ?_, ?_, ?_⟩
      · have e2 : n - (k : Int) = -((k - n.toNat : Nat) : Int) := by omega
        rw [e2, zpow_neg, zpow_natCast]
        push_cast
        rw [div_eq_mul_inv]
      · intro _
        rw [List.length_append, List.length_cons, htl, hdl]
        have : n.toNat + (k - n.toNat + 1) = k + 1 := by omega
        rw [this]
        exact le_max_right _ _
      · intro h0
        omega
    · rw [if_neg h2]
      by_cases h3 : -6 < n ∧ n ≤ 0
      · rw [if_pos h3]
        have hz := replicate_zero_digits (-n).toNat
        have hzl : (List.replicate (-n).toNat (Char.ofNat 48)).length = (-n).toNat :=
          List.length_replicate _ _
        have hzv := digitsValue_replicate_zero (-n).toNat
        have hnn : ((-n).toNat : Int) = -n := Int.toNat_of_nonneg (by omega)
        generalize List.replicate (-n).toNat (Char.ofNat 48) = zs at *
        have e1 : [Char.ofNat 48, Char.ofNat 46] ++ zs ++ ds =
            [Char.ofNat 48] ++ Char.ofNat 46 :: (zs ++ ds) := by
          simp
        have hfp : ∀ c ∈ zs ++ ds, isDecimalDigit c = true := by
          intro c hc
          rcases List.mem_append.1 hc with h | h
          · exact hz c h
          · exact hdig c h
        have h48 : ∀ c ∈ [Char.ofNat 48], isDecimalDigit c = true := by
          intro c hc; rw [List.mem_singleton.1 hc]; decide
        have hp := parseFloat_decimal [Char.ofNat 48] (zs ++ ds) (List.cons_ne_nil _ _) h48 hfp
        have hv : digitsValue ([Char.ofNat 48] ++ (zs ++ ds)) = s := by
          rw [digitsValue_append _ _ hfp, digitsValue_append _ _ hdig, hzv, hval]
          have : digitsValue [Char.ofNat 48] = 0 := rfl
          rw [this, Nat.zero_mul, Nat.zero_mul, Nat.zero_add, Nat.zero_add]
        rw [hv, List.length_append, hzl, hlen] at hp
        rw [e1]
        refine ⟨Char.ofNat 48, Char.ofNat 46 :: (zs ++ ds), s, 10 ^ ((-n).toNat + k), rfl,
          by decide, Nat.pow_pos (by decide), hp, ?_, ?_, ?_⟩
        · have e2 : n - (k : Int) = -(((-n).toNat + k : Nat) : Int) := by omega
          rw [e2, zpow_neg, zpow_natCast]
          push_cast
          rw [div_eq_mul_inv]
        · intro h0
          omega
        · intro _
          simp only [List.length_append, List.length_cons, List.length_nil, hzl, hlen]
          omega
      · rw [if_neg h3]
        have hn6 : n = -6 := by omega
        subst hn6
        have e7 : natDigits ((-6 : Int) - 1).natAbs = [Char.ofNat 55] := natDigits_seven
        have es : exponentSign ((-6 : Int) - 1) = Char.ofNat 45 := by decide
        have h55 : ∀ c ∈ [Char.ofNat 55], isDecimalDigit c = true := by
          intro c hc; rw [List.mem_singleton.1 hc]; decide
        have hv7 : digitsValue [Char.ofNat 55] = 7 := rfl
        rw [e7, es]
        by_cases h4 : k = 1
        · rw [if_pos h4]
          have e1 : ds ++ [Char.ofNat 101] ++ [Char.ofNat 45] ++ [Char.ofNat 55] =
              ds ++ Char.ofNat 101 :: Char.ofNat 45 :: [Char.ofNat 55] := by
            simp
          rw [e1]
          have hp := parseFloat_digits_exp ds [Char.ofNat 55] (by rw [hds]; simp) hdig
            (List.cons_ne_nil _ _) h55
          rw [hval, hv7] at hp
          refine ⟨c0, r0 ++ Char.ofNat 101 :: Char.ofNat 45 :: [Char.ofNat 55], s, 10 ^ (0 + 7),
            by rw [hds, List.cons_append], hc0, Nat.pow_pos (by decide), hp, ?_, ?_, ?_⟩
          · have e2 : (-6 : Int) - (k : Int) = -((0 + 7 : Nat) : Int) := by omega
            rw [e2, zpow_neg, zpow_natCast, div_eq_mul_inv, Nat.cast_pow]
            rfl
          · intro h0
            omega
          · intro _
            simp only [List.length_append, List.length_cons, List.length_nil, hlen]
            omega
        · rw [if_neg h4]
          have htd : ds.take 1 ++ ds.drop 1 = ds := List.take_append_drop _ _
          have htake : ds.take 1 = [c0] := by rw [hds]; rfl
          have hdl : (ds.drop 1).length = k - 1 := by rw [List.length_drop, hlen]
          have e1 : ds.take 1 ++ [Char.ofNat 46] ++ ds.drop 1 ++ [Char.ofNat 101] ++
              [Char.ofNat 45] ++ [Char.ofNat 55] =
              ds.take 1 ++ Char.ofNat 46 ::
                (ds.drop 1 ++ Char.ofNat 101 :: Char.ofNat 45 :: [Char.ofNat 55]) := by
            simp
          rw [e1]
          have hp := parseFloat_decimal_exp (ds.take 1) (ds.drop 1) [Char.ofNat 55]
            (by rw [htake]; exact List.cons_ne_nil _ _)
            (fun c hc => hdig c (List.mem_of_mem_take hc))
            (fun c hc => hdig c (List.mem_of_mem_drop hc))
            (List.cons_ne_nil _ _) h55
          rw [htd, hval, hv7, hdl] at hp
          refine ⟨c0, Char.ofNat 46 ::
              (ds.drop 1 ++ Char.ofNat 101 :: Char.ofNat 45 :: [Char.ofNat 55]), s,
            10 ^ (k - 1 + 7), by rw [htake]; rfl, hc0, Nat.pow_pos (by decide), hp, ?_, ?_, ?_⟩
          · have e2 : (-6 : Int) - (k : Int) = -((k - 1 + 7 : Nat) : Int) := by omega
            rw [e2, zpow_neg, zpow_natCast]
            push_cast
            rw [div_eq_mul_inv]
          · intro h0
            omega
          · intro _
            simp only [List.length_append, List.length_cons, List.length_nil, hdl, htake]
            omega

/-! ## Rendering a rounded number and reading it back -/

theorem toRat_fin_false (m e : Nat) :
    toRat (.fin false m e) = ((m * 2 ^ e : Nat) : ℚ) / ((2 ^ 1074 : Nat) : ℚ) := rfl

set_option exponentiation.threshold 2000 in
/-- A value below one that is the Number nearest to `N / 10^10` has a candidate
with `10 + p` digits. -/
theorem candidate_ten (m e : Nat) (p : Int) (N : Nat) (hp0 : p ≤ 0) (hp6 : -6 ≤ p)
    (hp1 : (10 : ℚ) ^ (p - 1) ≤ ((m * 2 ^ e : Nat) : ℚ) / ((2 ^ 1074 : Nat) : ℚ))
    (hp2 : ((m * 2 ^ e : Nat) : ℚ) / ((2 ^ 1074 : Nat) : ℚ) < (10 : ℚ) ^ p)
    (hN1 : 1000 ≤ N) (hN2 : N < 2 ^ 52) (hN : roundQ false N (10 ^ 10) = .fin false m e) :
    candidate m e p (10 + p).toNat ≠ none := by
  have hk0 : (((10 + p).toNat : Nat) : Int) = 10 + p := Int.toNat_of_nonneg (by omega)
  obtain ⟨f1, _, f3, f4⟩ := candidate_floor (m * 2 ^ e) (2 ^ 1074) p (10 + p).toNat (by omega)
    (Nat.pow_pos (by decide)) hp1 hp2
  have hup : (((10 + p).toNat : Nat) - p).toNat = 10 := by omega
  have hdown : (p - ((10 + p).toNat : Nat)).toNat = 0 := by omega
  have hz10 : (10 : ℚ) ^ (p - ((10 + p).toNat : Nat)) = 1 / 10 ^ 10 := by
    have : p - ((10 + p).toNat : Nat) = -((10 : Nat) : Int) := by omega
    rw [this, zpow_neg, zpow_natCast, one_div]
  obtain ⟨m1, e1, hr, herr⟩ := roundQ_error false N (10 ^ 10) (by norm_num)
    (by norm_num; omega) (by
      have : (2 : Nat) ^ 52 ≤ 10 ^ 26 * 10 ^ 10 := by norm_num
      omega)
  rw [hN] at hr
  injection hr with _ hm he
  subst hm he
  rw [toRat_fin_false] at herr
  intro hcontra
  rw [candidate_explicit m e p (10 + p).toNat _ _ _ _ rfl rfl rfl rfl] at hcontra
  rw [hup, hdown, hz10] at f3 f4
  rw [hup, hdown] at f1 hcontra
  generalize m * 2 ^ e * 10 ^ 10 % (2 ^ 1074 * 10 ^ 0) = r at hcontra
  generalize m * 2 ^ e * 10 ^ 10 / (2 ^ 1074 * 10 ^ 0) = lo at *
  generalize ((m * 2 ^ e : Nat) : ℚ) / ((2 ^ 1074 : Nat) : ℚ) = v at *
  have hNq : (N : ℚ) < 2 ^ 52 := by exact_mod_cast hN2
  have hN0 : (0 : ℚ) ≤ (N : ℚ) := Nat.cast_nonneg _
  push_cast at herr
  rw [abs_le] at herr
  obtain ⟨he1, he2⟩ := herr
  have hs1 : (N : ℚ) / 10 ^ 10 / 2 ^ 52 < 1 / 10 ^ 10 := by
    rw [div_div, div_lt_div_iff₀ (by positivity) (by positivity)]
    nlinarith
  have h5 : (lo : ℚ) < N + 1 := by
    have : (lo : ℚ) * (1 / 10 ^ 10) < (N + 1) * (1 / 10 ^ 10) := by
      have e1 : ((N : ℚ) + 1) * (1 / 10 ^ 10) = N / 10 ^ 10 + 1 / 10 ^ 10 := by ring
      rw [e1]
      linarith
    exact lt_of_mul_lt_mul_right this (by positivity)
  have h6 : (N : ℚ) < lo + 2 := by
    have : (N : ℚ) * (1 / 10 ^ 10) < (lo + 2) * (1 / 10 ^ 10) := by
      have e1 : ((lo : ℚ) + 2) * (1 / 10 ^ 10) = (lo + 1) * (1 / 10 ^ 10) + 1 / 10 ^ 10 := by
        ring
      have e2 : (N : ℚ) * (1 / 10 ^ 10) = N / 10 ^ 10 := by ring
      rw [e1, e2]
      linarith
    exact lt_of_mul_lt_mul_right this (by positivity)
  have h7 : lo < N + 1 := by exact_mod_cast h5
  have h8 : N < lo + 2 := by exact_mod_cast h6
  have hcase : N = lo ∨ N = lo + 1 := by omega
  simp only [Bool.and_eq_true, decide_eq_true_eq, Nat.pow_zero, Nat.mul_one] at hcontra
  split_ifs at hcontra with c1 c2 c3 c4
  rcases hcase with h | h
  · exact c3 ⟨f1, by rw [← h]; exact hN⟩
  · exact c4 (by rw [← h]; exact hN)

theorem signPrefix_length (sg : Bool) : (signPrefix sg).length ≤ 1 := by
  cases sg
  · exact Nat.zero_le _
  · exact le_refl _

set_option exponentiation.threshold 2000 in
/-- A Number between `10^-7` and `10^17` (one that came from ten decimals when it
is below one) renders as at most twenty characters, and the rendering parses to
a Number within `2^-51` of it, relatively. -/
theorem toString_spec (sg : Bool) (m e : Nat)
    (h1 : (1 : ℚ) / 10 ^ 7 ≤ toRat (.fin false m e))
    (h2 : toRat (.fin false m e) < 10 ^ 17)
    (h3 : toRat (.fin false m e) < 1 →
      ∃ N, 1000 ≤ N ∧ N < 2 ^ 52 ∧ roundQ false N (10 ^ 10) = .fin false m e) :
    (JSNumber.toString (.fin sg m e)).length ≤ 20 ∧
      ∃ m1 e1, parseFloat (JSNumber.toString (.fin sg m e)) = .fin sg m1 e1 ∧
        |toRat (.fin false m1 e1) - toRat (.fin false m e)| ≤
          toRat (.fin false m e) / 2 ^ 51 := by
  have hV : 0 < m * 2 ^ e := by
    rcases Nat.eq_zero_or_pos (m * 2 ^ e) with h | h
    · rw [toRat_fin_false, h, Nat.cast_zero, zero_div] at h1
      norm_num at h1
    · exact h
  have hm : m ≠ 0 := by
    rintro rfl
    rw [Nat.zero_mul] at hV
    exact absurd hV (Nat.lt_irrefl _)
  obtain ⟨hp1, hp2⟩ := decPos_spec (m * 2 ^ e) (2 ^ 1074) hV (Nat.pow_pos (by decide))
  obtain ⟨k, s, n, hsh, hk1, hk17, hs1, hs2, hn, hchk, hmin⟩ := shortest_spec m e hV
  rw [← toRat_fin_false] at hp1 hp2 hchk
  generalize decPos (m * 2 ^ e) (2 ^ 1074) = p at *
  have hvpos : (0 : ℚ) < toRat (.fin false m e) := lt_of_lt_of_le (by norm_num) h1
  have hp6 : -6 ≤ p := by
    have h : (10 : ℚ) ^ (-((7 : Nat) : Int)) < (10 : ℚ) ^ p := by
      refine lt_of_le_of_lt ?_ hp2
      rw [zpow_neg, zpow_natCast, ← one_div]
      exact h1
    have := (zpow_lt_zpow_iff_right₀ (by norm_num : (1 : ℚ) < 10)).1 h
    omega
  have hp17 : p ≤ 17 := by
    have h : (10 : ℚ) ^ (p - 1) < (10 : ℚ) ^ (((17 : Nat)) : Int) := by
      refine lt_of_le_of_lt hp1 ?_
      rw [zpow_natCast]
      exact h2
    have := (zpow_lt_zpow_iff_right₀ (by norm_num : (1 : ℚ) < 10)).1 h
    omega
  obtain ⟨c, r, A, B, hlay, hc, hB, hparse, hAB, hlen1, hlen2⟩ :=
    layout_spec k s n hk1 hs2 (by omega) (by omega)
  have htS : JSNumber.toString (.fin sg m e) = signPrefix sg ++ layout k s n := by
    show (if m = 0 then _ else _) = _
    rw [if_neg hm, hsh]
  constructor
  · rw [htS, List.length_append]
    have hsl := signPrefix_length sg
    by_cases hn0 : 0 < n
    · have := hlen1 hn0
      have h18 : max n.toNat (k + 1) ≤ 18 := max_le (by omega) (by omega)
      omega
    · have hp0 : p ≤ 0 := by omega
      have hlt1 : toRat (.fin false m e) < 1 := by
        refine lt_of_lt_of_le hp2 ?_
        have := zpow_le_zpow_right₀ (by norm_num : (1 : ℚ) ≤ 10) hp0
        rw [zpow_zero] at this
        exact this
      obtain ⟨N, hN1, hN2, hN⟩ := h3 hlt1
      rw [toRat_fin_false] at hp1 hp2
      have hcand := candidate_ten m e p N hp0 hp6 hp1 hp2 hN1 hN2 hN
      have hk := hmin (10 + p).toNat (by omega) (by omega) hcand
      have := hlen2 (by omega)
      omega
  · rw [htS, hlay, parseFloat_signPrefix sg c r hc, ← hlay, hparse]
    rcases hchk with hck | ⟨hk, hnp, hf3, hf4⟩
    · rw [hck A B hB hAB]
      refine ⟨m, e, by cases sg <;> rfl, ?_⟩
      rw [sub_self, abs_zero]
      exact div_nonneg (le_of_lt hvpos) (by positivity)
    · subst hk hnp
      have hBq : (0 : ℚ) < (B : ℚ) := by exact_mod_cast hB
      have hu : (10 : ℚ) ^ (n - ((17 : Nat) : Int)) ≤ toRat (.fin false m e) / 10 ^ 16 := by
        have e1 : n - ((17 : Nat) : Int) = (n - 1) + (-((16 : Nat) : Int)) := by omega
        rw [e1, zpow_ten_add, zpow_neg, zpow_natCast, ← div_eq_mul_inv]
        exact div_le_div_of_nonneg_right hp1 (by positivity)
      have hs16 : (1 : ℚ) / 10 ^ 7 ≤ (s : ℚ) * (10 : ℚ) ^ (n - ((17 : Nat) : Int)) := by
        have e1 : (10 : ℚ) ^ (n - 1) =
            10 ^ 16 * (10 : ℚ) ^ (n - ((17 : Nat) : Int)) := by
          have : n - 1 = ((16 : Nat) : Int) + (n - ((17 : Nat) : Int)) := by omega
          rw [this, zpow_ten_add, zpow_natCast]
        have e2 : (1 : ℚ) / 10 ^ 7 ≤ (10 : ℚ) ^ (n - 1) := by
          have := zpow_le_zpow_right₀ (by norm_num : (1 : ℚ) ≤ 10)
            (by omega : -((7 : Nat) : Int) ≤ n - 1)
          rw [zpow_neg, zpow_natCast, ← one_div] at this
          exact this
        have e3 : (10 : ℚ) ^ 16 ≤ (s : ℚ) := by exact_mod_cast hs1
        calc (1 : ℚ) / 10 ^ 7 ≤ (10 : ℚ) ^ (n - 1) := e2
          _ = 10 ^ 16 * (10 : ℚ) ^ (n - ((17 : Nat) : Int)) := e1
          _ ≤ (s : ℚ) * (10 : ℚ) ^ (n - ((17 : Nat) : Int)) :=
            mul_le_mul_of_nonneg_right e3 (le_of_lt (zpow_ten_pos _))
      rw [← hAB] at hs16
      have hupos := zpow_ten_pos (n - ((17 : Nat) : Int))
      rw [← hAB] at hf3
      have hf4b : toRat (.fin false m e) < (A : ℚ) / B + (10 : ℚ) ^ (n - ((17 : Nat) : Int)) := by
        rw [hAB]
        have : ((s : ℚ) + 1) * (10 : ℚ) ^ (n - ((17 : Nat) : Int)) =
            (s : ℚ) * (10 : ℚ) ^ (n - ((17 : Nat) : Int)) +
              (10 : ℚ) ^ (n - ((17 : Nat) : Int)) := by ring
        rw [← this]
        exact hf4
      generalize (10 : ℚ) ^ (n - ((17 : Nat) : Int)) = u at *
      generalize toRat (.fin false m e) = v at *
      have ha1 := hs16
      rw [le_div_iff₀ hBq] at ha1
      have ha2 : (A : ℚ) / B < 10 ^ 17 := lt_of_le_of_lt hf3 h2
      rw [div_lt_iff₀ hBq] at ha2
      obtain ⟨m1, e1, hr, herr⟩ := roundQ_error false A B hB
        (by
          have : (B : ℚ) ≤ (A : ℚ) * 10 ^ 7 := by linarith
          exact_mod_cast this)
        (by
          have : (A : ℚ) ≤ 10 ^ 26 * (B : ℚ) := by linarith
          exact_mod_cast this)
      rw [hr]
      refine ⟨m1, e1, by cases sg <;> rfl, ?_⟩
      generalize toRat (.fin false m1 e1) = w at *
      generalize (A : ℚ) / B = a at *
      rw [abs_le] at herr ⊢
      obtain ⟨he1, he2⟩ := herr
      constructor <;> linarith

/-! ## Formatting a result and reading it back -/

/-- The sign of a rounded rational is the sign asked for; nothing else depends
on it. -/
theorem roundQ_sign (s : Bool) (n d m e : Nat) (h : roundQ s n d = .fin s m e) :
    roundQ false n d = .fin false m e := by
  by_cases h0 : n = 0
  · subst h0
    rw [roundQ, if_pos rfl] at h ⊢
    injection h with _ hm he
    rw [← hm, ← he]
  · rw [roundQ_explicit s n d h0] at h
    rw [roundQ_explicit false n d h0]
    generalize expOf (n * 2 ^ 1074 / d) = e0 at *
    generalize n * 2 ^ 1074 / (d * 2 ^ e0) = q at *
    generalize n * 2 ^ 1074 % (d * 2 ^ e0) = r at *
    generalize d * 2 ^ e0 = D at *
    generalize (if D < 2 * r ∨ (2 * r = D ∧ q % 2 = 1) then q + 1 else q) = q1 at *
    split_ifs at h ⊢ <;> (injection h with _ hm he; rw [hm, he])

theorem lit1e10_eq : ∃ m e, lit1e10 = .fin false m e ∧ m * 2 ^ e = 10 ^ 10 * 2 ^ 1074 := by
  unfold lit1e10 ofNat
  exact roundQ_exact false (10 ^ 10) (by norm_num)

theorem lit1e15_eq : ∃ m e, lit1e15 = .fin false m e ∧ m * 2 ^ e = 10 ^ 15 * 2 ^ 1074 := by
  unfold lit1e15 ofNat
  exact roundQ_exact false (10 ^ 15) (by norm_num)

theorem lit1eNeg6_eq : ∃ m e, lit1eNeg6 = .fin false m e ∧
    |toRat (.fin false m e) - 1 / 10 ^ 6| ≤ 1 / 10 ^ 6 / 2 ^ 52 := by
  unfold lit1eNeg6
  obtain ⟨m, e, hr, herr⟩ := roundQ_error false 1 (10 ^ 6) (by norm_num) (by norm_num)
    (by norm_num)
  refine ⟨m, e, hr, ?_⟩
  push_cast at herr
  exact herr

set_option exponentiation.threshold 2000 in
/-- The integer `Math.round` produces lies within one half of its argument. -/
theorem round_spec (sg : Bool) (m e : Nat) (h : 2 ^ 1074 ≤ 2 * (m * 2 ^ e)) :
    ∃ r, JSNumber.round (.fin sg m e) = roundQ sg r 1 ∧
      |(r : ℚ) - toRat (.fin false m e)| ≤ 1 / 2 := by
  rw [toRat_fin_false]
  have hP : 0 < 2 * 2 ^ 1074 := Nat.mul_pos (by decide) (Nat.pow_pos (by decide))
  cases sg
  · refine ⟨(2 * (m * 2 ^ e) + 2 ^ 1074) / (2 * 2 ^ 1074), rfl, ?_⟩
    have h1 := Nat.div_mul_le_self (2 * (m * 2 ^ e) + 2 ^ 1074) (2 * 2 ^ 1074)
    have h2 := Nat.lt_mul_div_succ (2 * (m * 2 ^ e) + 2 ^ 1074) hP
    generalize (2 * (m * 2 ^ e) + 2 ^ 1074) / (2 * 2 ^ 1074) = r at *
    generalize m * 2 ^ e = V at *
    generalize (2 : Nat) ^ 1074 = P at *
    have hPq : (0 : ℚ) < (P : ℚ) := by
      have : 0 < P := by omega
      exact_mod_cast this
    have h1q : (r : ℚ) * (2 * P) ≤ 2 * V + P := by exact_mod_cast h1
    have h2q : (2 : ℚ) * V + P < 2 * P * (r + 1) := by exact_mod_cast h2
    have hA : (V : ℚ) / P ≤ r + 1 / 2 := by
      rw [div_le_iff₀ hPq]
      linarith
    have hB : (r : ℚ) - 1 / 2 ≤ (V : ℚ) / P := by
      rw [le_div_iff₀ hPq]
      linarith
    rw [abs_le]
    constructor <;> linarith
  · refine ⟨(2 * (m * 2 ^ e) - 2 ^ 1074 + (2 * 2 ^ 1074 - 1)) / (2 * 2 ^ 1074), rfl, ?_⟩
    have h1 := Nat.div_mul_le_self (2 * (m * 2 ^ e) - 2 ^ 1074 + (2 * 2 ^ 1074 - 1))
      (2 * 2 ^ 1074)
    have h2 := Nat.lt_mul_div_succ (2 * (m * 2 ^ e) - 2 ^ 1074 + (2 * 2 ^ 1074 - 1)) hP
    generalize (2 * (m * 2 ^ e) - 2 ^ 1074 + (2 * 2 ^ 1074 - 1)) / (2 * 2 ^ 1074) = r at *
    generalize m * 2 ^ e = V at *
    generalize (2 : Nat) ^ 1074 = P at *
    have hPq : (0 : ℚ) < (P : ℚ) := by
      have : 0 < P := by omega
      exact_mod_cast this
    have e1 : 2 * V - P + (2 * P - 1) + 1 = 2 * V + P := by omega
    have h1' : r * (2 * P) + 1 ≤ 2 * V + P := by omega
    have h2' : 2 * V + P ≤ 2 * P * (r + 1) := by omega
    have h1q : (r : ℚ) * (2 * P) + 1 ≤ 2 * V + P := by exact_mod_cast h1'
    have h2q : (2 : ℚ) * V + P ≤ 2 * P * (r + 1) := by exact_mod_cast h2'
    have hA : (V : ℚ) / P ≤ r + 1 / 2 := by
      rw [div_le_iff₀ hPq]
      linarith
    have hB : (r : ℚ) - 1 / 2 ≤ (V : ℚ) / P := by
      rw [le_div_iff₀ hPq]
      linarith
    rw [abs_le]
    constructor <;> linarith

theorem toRat_nat_div (V : Nat) :
    ((V : Nat) : ℚ) / ((2 ^ 1074 : Nat) : ℚ) = toRat (.fin false V 0) := by
  rw [toRat_fin_false, Nat.pow_zero, Nat.mul_one]

set_option exponentiation.threshold 2000 in
/-- Bounds on the value of a finite Number as bounds on its scaled value. -/
theorem toRat_bounds (m e : Nat) (lo hi : Nat) (hlo0 : 0 < lo)
    (h1 : (1 : ℚ) / lo ≤ toRat (.fin false m e)) (h2 : toRat (.fin false m e) ≤ hi) :
    2 ^ 1074 ≤ m * 2 ^ e * lo ∧ m * 2 ^ e ≤ hi * 2 ^ 1074 := by
  rw [toRat_fin_false] at h1 h2
  have hP : (0 : ℚ) < ((2 ^ 1074 : Nat) : ℚ) := by
    have : 0 < 2 ^ 1074 := Nat.pow_pos (by decide)
    exact_mod_cast this
  have hl : (0 : ℚ) < (lo : ℚ) := by exact_mod_cast hlo0
  rw [div_le_div_iff₀ hl hP, one_mul] at h1
  rw [div_le_iff₀ hP] at h2
  exact ⟨by exact_mod_cast h1, by exact_mod_cast h2⟩

set_option exponentiation.threshold 2000 in
/-- A natural lower bound on the value of a finite Number, scaled. -/
theorem toRat_ge (m e k : Nat) (h : (k : ℚ) ≤ toRat (.fin false m e)) :
    k * 2 ^ 1074 ≤ m * 2 ^ e := by
  rw [toRat_fin_false] at h
  have hP : (0 : ℚ) < ((2 ^ 1074 : Nat) : ℚ) := by
    have : 0 < 2 ^ 1074 := Nat.pow_pos (by decide)
    exact_mod_cast this
  rw [le_div_iff₀ hP] at h
  exact_mod_cast h

set_option exponentiation.threshold 2000 in
/-- The number `Math.round(x * 1e10) / 1e10` computed by `formatNumber` is finite
and close to `x`; below one it is the Number nearest to some `N / 10^10`. -/
theorem rounded_spec (sg : Bool) (m e : Nat)
    (h1 : 1 / 10 ^ 6 - 1 / 10 ^ 6 / 2 ^ 52 ≤ toRat (.fin false m e))
    (h2 : toRat (.fin false m e) < 10 ^ 15) :
    ∃ m2 e2, div (JSNumber.round (mul (.fin sg m e) lit1e10)) lit1e10 = .fin sg m2 e2 ∧
      |toRat (.fin false m2 e2) - toRat (.fin false m e)| ≤
        toRat (.fin false m e) / 10 ^ 15 + 51 / 10 ^ 12 ∧
      (toRat (.fin false m2 e2) < 1 →
        ∃ N, 1000 ≤ N ∧ N < 2 ^ 52 ∧ roundQ false N (10 ^ 10) = .fin false m2 e2) := by
  obtain ⟨m10, e10, h10, hv10⟩ := lit1e10_eq
  have hPpos : 0 < 2 ^ 1074 := Nat.pow_pos (by decide)
  have hPq : (0 : ℚ) < ((2 ^ 1074 : Nat) : ℚ) := by exact_mod_cast hPpos
  have hm10 : m10 ≠ 0 := by
    rintro rfl
    rw [Nat.zero_mul] at hv10
    have : 0 < 10 ^ 10 * 2 ^ 1074 := Nat.mul_pos (by norm_num) hPpos
    omega
  rw [h10]
  -- the product
  have hmul : mul (.fin sg m e) (.fin false m10 e10) =
      roundQ sg (m * 2 ^ e * 10 ^ 10) (2 ^ 1074) := by
    show roundQ (sg != false) (m * 2 ^ e * (m10 * 2 ^ e10)) (2 ^ 1074 * 2 ^ 1074) = _
    rw [hv10, Bool.bne_false, ← Nat.mul_assoc, roundQ_mul_right _ _ _ _ hPpos]
  have ha1 : (1 : ℚ) / ((10 ^ 7 : Nat) : ℚ) ≤ toRat (.fin false m e) := by
    refine le_trans ?_ h1
    norm_num
  have ha2 : toRat (.fin false m e) ≤ ((10 ^ 15 : Nat) : ℚ) := by
    push_cast
    exact le_of_lt h2
  obtain ⟨hX1, hX2⟩ := toRat_bounds m e (10 ^ 7) (10 ^ 15) (by norm_num) ha1 ha2
  obtain ⟨m1, e1, hr1, herr1⟩ := roundQ_error sg (m * 2 ^ e * 10 ^ 10) (2 ^ 1074) hPpos
    (by
      calc 2 ^ 1074 ≤ m * 2 ^ e * 10 ^ 7 := hX1
        _ ≤ m * 2 ^ e * 10 ^ 10 * 10 ^ 7 :=
          Nat.mul_le_mul_right _ (Nat.le_mul_of_pos_right _ (by norm_num)))
    (by
      calc m * 2 ^ e * 10 ^ 10 ≤ 10 ^ 15 * 2 ^ 1074 * 10 ^ 10 := Nat.mul_le_mul_right _ hX2
        _ ≤ 10 ^ 26 * 2 ^ 1074 := by
          rw [Nat.mul_right_comm]
          exact Nat.mul_le_mul_right _ (by norm_num))
  have hcast1 : ((m * 2 ^ e * 10 ^ 10 : Nat) : ℚ) / ((2 ^ 1074 : Nat) : ℚ) =
      toRat (.fin false m e) * 10 ^ 10 := by
    rw [toRat_fin_false]
    push_cast
    ring
  rw [hcast1] at herr1
  rw [hmul, hr1]
  -- the nearest integer
  have hb1 : (1 : ℚ) / ((2 : Nat) : ℚ) ≤ toRat (.fin false m1 e1) := by
    rw [abs_le] at herr1
    have : (1 : ℚ) / ((2 : Nat) : ℚ) = 1 / 2 := by norm_num
    rw [this]
    linarith [herr1.1]
  have hb2 : toRat (.fin false m1 e1) ≤ ((10 ^ 26 : Nat) : ℚ) := by
    rw [abs_le] at herr1
    push_cast
    linarith [herr1.2]
  obtain ⟨hY1, hY2⟩ := toRat_bounds m1 e1 2 (10 ^ 26) (by norm_num) hb1 hb2
  obtain ⟨r, hround, herr2⟩ := round_spec sg m1 e1 (by omega)
  rw [hround]
  have hrlo : (9999 : ℚ) ≤ (r : ℚ) := by
    rw [abs_le] at herr1 herr2
    linarith [herr1.1, herr2.1]
  have hrhi : (r : ℚ) ≤ 10 ^ 25 + 10 ^ 10 := by
    rw [abs_le] at herr1 herr2
    linarith [herr1.2, herr2.2]
  have hrlo' : 9999 ≤ r := by exact_mod_cast hrlo
  have hrhi' : r ≤ 10 ^ 25 + 10 ^ 10 := by exact_mod_cast hrhi
  obtain ⟨mN, eN, hrN, herr3⟩ := roundQ_error sg r 1 (by decide)
    (by omega) (by
      have : 10 ^ 25 + 10 ^ 10 ≤ 10 ^ 26 * 1 := by norm_num
      omega)
  rw [Nat.cast_one, div_one] at herr3
  rw [hrN]
  -- the quotient
  have hdiv : div (.fin sg mN eN) (.fin false m10 e10) =
      roundQ sg (mN * 2 ^ eN) (10 ^ 10 * 2 ^ 1074) := by
    show (if m10 = 0 then _ else roundQ (sg != false) (mN * 2 ^ eN) (m10 * 2 ^ e10)) = _
    rw [if_neg hm10, hv10, Bool.bne_false]
  have hn1 : (1 : ℚ) / ((10 ^ 7 : Nat) : ℚ) ≤ toRat (.fin false mN eN) := by
    rw [abs_le] at herr3
    have : (1 : ℚ) / ((10 ^ 7 : Nat) : ℚ) ≤ 1 := by norm_num
    linarith [herr3.1]
  have hn2 : toRat (.fin false mN eN) ≤ ((10 ^ 26 : Nat) : ℚ) := by
    rw [abs_le] at herr3
    push_cast
    linarith [herr3.2]
  obtain ⟨hN1, hN2⟩ := toRat_bounds mN eN (10 ^ 7) (10 ^ 26) (by norm_num) hn1 hn2
  have hD : 0 < 10 ^ 10 * 2 ^ 1074 := Nat.mul_pos (by norm_num) hPpos
  obtain ⟨m2, e2, hr2, herr4⟩ := roundQ_error sg (mN * 2 ^ eN) (10 ^ 10 * 2 ^ 1074) hD
    (by
      have hn3 : ((1000 : Nat) : ℚ) ≤ toRat (.fin false mN eN) := by
        rw [abs_le] at herr3
        push_cast
        linarith [herr3.1]
      have hN3 := toRat_ge mN eN 1000 hn3
      calc 10 ^ 10 * 2 ^ 1074 = 1000 * 2 ^ 1074 * 10 ^ 7 := by
            have : (10 : Nat) ^ 10 = 1000 * 10 ^ 7 := by norm_num
            rw [this, Nat.mul_right_comm]
        _ ≤ mN * 2 ^ eN * 10 ^ 7 := Nat.mul_le_mul_right _ hN3)
    (by
      calc mN * 2 ^ eN ≤ 10 ^ 26 * 2 ^ 1074 := hN2
        _ ≤ 10 ^ 26 * (10 ^ 10 * 2 ^ 1074) := by
          rw [← Nat.mul_assoc]
          exact Nat.mul_le_mul_right _ (by norm_num))
  have hcast4 : ((mN * 2 ^ eN : Nat) : ℚ) / ((10 ^ 10 * 2 ^ 1074 : Nat) : ℚ) =
      toRat (.fin false mN eN) / 10 ^ 10 := by
    have e10 : ((10 ^ 10 : Nat) : ℚ) = 10 ^ 10 := by norm_num
    rw [toRat_fin_false, Nat.cast_mul (10 ^ 10) (2 ^ 1074), e10, mul_comm ((10 : ℚ) ^ 10),
      ← div_div]
  rw [hcast4] at herr4
  rw [hdiv, hr2]
  refine ⟨m2, e2, rfl, ?_, ?_⟩
  · clear hX1 hX2 hY1 hY2 hN1 hN2 hD hr2 hdiv hrN hround hr1 hmul hv10 hPpos hPq hcast1 hcast4
    generalize toRat (.fin false m e) = a at h1 h2 herr1 ⊢
    generalize toRat (.fin false m1 e1) = b at herr1 herr2
    generalize toRat (.fin false mN eN) = nN at herr3 herr4
    generalize toRat (.fin false m2 e2) = c at herr4 ⊢
    rw [abs_le] at herr1 herr2 herr3 herr4 ⊢
    obtain ⟨p1, p2⟩ := herr1
    obtain ⟨p3, p4⟩ := herr2
    obtain ⟨p5, p6⟩ := herr3
    obtain ⟨p7, p8⟩ := herr4
    constructor <;> linarith
  · intro hc1
    have hr52 : (r : ℚ) < 2 ^ 52 := by
      rw [abs_le] at herr3 herr4
      linarith [herr3.1, herr4.1]
    have hr52' : r < 2 ^ 52 := by exact_mod_cast hr52
    refine ⟨r, by omega, hr52', ?_⟩
    obtain ⟨mE, eE, hrE, hvE⟩ := roundQ_exact sg r (by
      have : (2 : Nat) ^ 52 ≤ 2 ^ 53 := by norm_num
      omega)
    have hEq := hrN.symm.trans hrE
    obtain ⟨_, hm, he⟩ := JSNumber.fin.inj hEq
    rw [hm, he, hvE, roundQ_mul_right sg _ _ _ hPpos] at hr2
    exact roundQ_sign sg _ _ _ _ hr2

set_option exponentiation.threshold 2000 in
/-- In the range of plain decimals `formatNumber` takes its last branch and returns
the text of `Math.round(x * 1e10) / 1e10`, which reads back close to `x`. -/
theorem formatNumber_fin_round_trip (sg : Bool) (m e : Nat)
    (hlo : ge (abs (.fin sg m e)) lit1eNeg6 = true)
    (hhi : lt (abs (.fin sg m e)) lit1e15 = true) :
    ∃ m3 e3, parseFloat (formatNumber (.fin sg m e)) = .fin sg m3 e3 ∧
      |toRat (.fin false m3 e3) - toRat (.fin false m e)| ≤
        toRat (.fin false m e) / 10 ^ 9 + 1 / 10 ^ 10 := by
  obtain ⟨m6, e6, h6, herr6⟩ := lit1eNeg6_eq
  obtain ⟨m15, e15, h15, hv15⟩ := lit1e15_eq
  have hPpos : 0 < 2 ^ 1074 := Nat.pow_pos (by decide)
  have hPq : (0 : ℚ) < ((2 ^ 1074 : Nat) : ℚ) := by exact_mod_cast hPpos
  -- the hypotheses as inequalities between scaled values
  have hlo' : m6 * 2 ^ e6 ≤ m * 2 ^ e := by
    rw [h6] at hlo
    simp only [JSNumber.ge, JSNumber.abs, JSNumber.key, decide_eq_true_eq] at hlo
    exact_mod_cast hlo
  have hhi' : m * 2 ^ e < 10 ^ 15 * 2 ^ 1074 := by
    rw [h15] at hhi
    simp only [JSNumber.lt, JSNumber.abs, JSNumber.key, decide_eq_true_eq] at hhi
    rw [← hv15]
    exact_mod_cast hhi
  have h1 : 1 / 10 ^ 6 - 1 / 10 ^ 6 / 2 ^ 52 ≤ toRat (.fin false m e) := by
    have h : toRat (.fin false m6 e6) ≤ toRat (.fin false m e) := by
      rw [toRat_fin_false, toRat_fin_false]
      exact div_le_div_of_nonneg_right (by exact_mod_cast hlo') (le_of_lt hPq)
    rw [abs_le] at herr6
    linarith [herr6.1]
  have h2 : toRat (.fin false m e) < 10 ^ 15 := by
    rw [toRat_fin_false, div_lt_iff₀ hPq]
    exact_mod_cast hhi'
  have hX0 : 0 < m * 2 ^ e := by
    rcases Nat.eq_zero_or_pos (m * 2 ^ e) with h | h
    · rw [toRat_fin_false, h, Nat.cast_zero, zero_div] at h1
      norm_num at h1
    · exact h
  -- the guards of `formatNumber`
  have hc2 : strictEq (.fin sg m e) zero = false := by
    have hz : ((m : Int) * 2 ^ e) ≠ 0 := by exact_mod_cast (ne_of_gt hX0)
    cases sg
    · simp only [JSNumber.strictEq, JSNumber.zero, JSNumber.key, decide_eq_false_iff_not]
      intro h
      apply hz
      rw [h]
      simp
    · simp only [JSNumber.strictEq, JSNumber.zero, JSNumber.key, decide_eq_false_iff_not]
      intro h
      apply hz
      rw [← neg_eq_zero, h]
      simp
  have hc3 : gt (abs (.fin sg m e)) MAX_SAFE_INTEGER = false := by
    rw [MAX_SAFE_INTEGER_eq]
    simp only [JSNumber.gt, JSNumber.lt, JSNumber.abs, JSNumber.key, decide_eq_false_iff_not,
      not_lt]
    have : m * 2 ^ e ≤ (2 ^ 53 - 1) * 2 ^ 1074 :=
      le_trans (le_of_lt hhi') (Nat.mul_le_mul_right _ (by norm_num))
    exact_mod_cast this
  have hc4 : ge (abs (.fin sg m e)) lit1e15 = false := by
    rw [h15]
    simp only [JSNumber.ge, JSNumber.abs, JSNumber.key, decide_eq_false_iff_not, not_le]
    rw [← hv15] at hhi'
    exact_mod_cast hhi'
  have hc5 : lt (abs (.fin sg m e)) lit1eNeg6 = false := by
    rw [h6]
    simp only [JSNumber.lt, JSNumber.abs, JSNumber.key, decide_eq_false_iff_not, not_lt]
    exact_mod_cast hlo'
  obtain ⟨m2, e2, hrounded, herr, h3⟩ := rounded_spec sg m e h1 h2
  have hc1 : (1 : ℚ) / 10 ^ 7 ≤ toRat (.fin false m2 e2) := by
    rw [abs_le] at herr
    linarith [herr.1]
  have hc17 : toRat (.fin false m2 e2) < 10 ^ 17 := by
    rw [abs_le] at herr
    linarith [herr.2]
  obtain ⟨hlen, m3, e3, hparse, herr5⟩ := toString_spec sg m2 e2 hc1 hc17 h3
  have hfmt : formatNumber (.fin sg m e) = JSNumber.toString (.fin sg m2 e2) := by
    unfold formatNumber
    simp only [JSNumber.isFinite, Bool.not_true, Bool.false_eq_true, if_false, hc2, hc3, hc4,
      hc5, Bool.false_and, Bool.or_false, hrounded]
    rw [if_neg (by omega)]
  rw [hfmt, hparse]
  refine ⟨m3, e3, rfl, ?_⟩
  clear hparse hfmt hlen h3 hc5 hc4 hc3 hc2 hrounded hX0 hlo' hhi' hv15 h15 h6 hlo hhi hPq hPpos
  generalize toRat (.fin false m e) = a at h1 h2 herr ⊢
  generalize toRat (.fin false m2 e2) = c at herr hc1 hc17 herr5
  generalize toRat (.fin false m3 e3) = w at herr5 ⊢
  rw [abs_le] at herr herr5 ⊢
  obtain ⟨p1, p2⟩ := herr
  obtain ⟨p3, p4⟩ := herr5
  constructor <;> linarith

theorem toRat_fin_true (m e : Nat) : toRat (.fin true m e) = -toRat (.fin false m e) := rfl

theorem toRat_fin_false_nonneg (m e : Nat) : 0 ≤ toRat (.fin false m e) := by
  rw [toRat_fin_false]
  exact div_nonneg (Nat.cast_nonneg _) (Nat.cast_nonneg _)

/-! ## Reachable entries -/

/-- In every reachable page that is not waiting for a new number the entry has
the shape of a typed entry. -/
theorem reachable_entryShape (q : Page) (h : Reachable q)
    (hw : q.calculatorState.waitingForNewNumber = false) :
    EntryShape q.calculatorState.currentNumber :=
  reachable_induction
    (fun q => q.calculatorState.waitingForNewNumber = false →
      EntryShape q.calculatorState.currentNumber)
    (fun p _ => by
      show EntryShape (clear p).calculatorState.currentNumber
      rw [clear_state]
      exact entryShape_zero)
    (fun q k hq => press_entryShape q k hq) q h hw

theorem inputOperationStore_twice (p : Page) (op1 op2 : List Char) :
    inputOperationStore (inputOperationStore p op1) op2 = inputOperationStore p op2 := by
  obtain ⟨st, d⟩ := p
  cases d <;> rfl

theorem digit_singleton_ne_point (d : Char) (hd : isDecimalDigit d = true) :
    [d] ≠ [Char.ofNat 46] := fun h => digit_ne_point d hd (List.head_eq_of_cons_eq h)

theorem guard_singleton (d : Char) (hd : isDecimalDigit d = true) :
    (!isNaN (parseFloat [d]) && gt (abs (parseFloat [d])) MAX_SAFE_INTEGER) = false :=
  guard_digits [d] (List.cons_ne_nil _ _)
    (by intro c hc; rw [List.mem_singleton.1 hc]; exact hd) (by simp)

/-- The decimal key right after `clear()` leaves the entry `0.` with the flag
`isInitialState` still set. -/
theorem clear_point_state (p : Page) :
    (inputNumber (clear p) [Char.ofNat 46]).calculatorState =
      { initialState with currentNumber := [Char.ofNat 48, Char.ofNat 46] } := by
  unfold inputNumber
  rw [if_pos rfl, clear_state]
  rw [if_neg (by decide), if_neg (by decide), if_neg (by decide), updateDisplay_calculatorState]
  rfl

set_option exponentiation.threshold 2000 in
/-- A finite Number above `Number.MAX_SAFE_INTEGER` is at least `1e15`. -/
theorem ge_1e15_of_gt_safe (s : Bool) (m e : Nat)
    (h : gt (abs (.fin s m e)) MAX_SAFE_INTEGER = true) :
    ge (abs (.fin s m e)) lit1e15 = true := by
  obtain ⟨m15, e15, h15, hv15⟩ := lit1e15_eq
  rw [MAX_SAFE_INTEGER_eq] at h
  rw [h15]
  simp only [JSNumber.gt, JSNumber.lt, JSNumber.abs, JSNumber.key, decide_eq_true_eq] at h
  simp only [JSNumber.ge, JSNumber.abs, JSNumber.key, decide_eq_true_eq]
  have h1 : (2 ^ 53 - 1) * 2 ^ 1074 < m * 2 ^ e := by exact_mod_cast h
  have h2 : m15 * 2 ^ e15 ≤ m * 2 ^ e := by
    rw [hv15]
    exact le_trans (Nat.mul_le_mul_right _ (by norm_num)) (le_of_lt h1)
  exact_mod_cast h2

/-! ## The length of a formatted number -/

theorem natDigits_length_pos (n : Nat) : 1 ≤ (natDigits n).length := by
  obtain ⟨L, hL1, hlen, _, _⟩ := natDigitsAux_length (n + 1) n [] (by omega)
  rw [natDigits, hlen, List.length_nil, Nat.zero_add]
  exact hL1

theorem natDigits_length_le_three (n : Nat) (hn : n < 1000) : (natDigits n).length ≤ 3 := by
  obtain ⟨L, hL1, hlen, _, hge⟩ := natDigitsAux_length (n + 1) n [] (by omega)
  rw [natDigits, hlen, List.length_nil, Nat.zero_add]
  by_cases h0 : n = 0
  · subst h0
    have : natDigitsAux (0 + 1) 0 [] = [digitChar 0] := rfl
    rw [this] at hlen
    simp only [List.length_singleton, List.length_nil, Nat.zero_add] at hlen
    omega
  · have h1 := hge h0
    by_contra hcon
    have h3 : 3 ≤ L - 1 := by omega
    have h4 : 10 ^ 3 ≤ 10 ^ (L - 1) := Nat.pow_le_pow_right (by decide) h3
    have h5 : (10 : Nat) ^ 3 = 1000 := by decide
    omega

/-- The text laid out from at least one digit is not empty. -/
theorem layout_length_pos (k s : Nat) (n : Int) (hk : 1 ≤ k) : 1 ≤ (layout k s n).length := by
  have hlen := digitsN_length k s
  unfold layout
  split_ifs <;> simp only [List.length_append, List.length_cons, List.length_nil, hlen,
      List.length_replicate] <;> omega

/-- The text of a Number is never empty. -/
theorem toString_length_pos (x : JSNumber) : 1 ≤ (JSNumber.toString x).length := by
  cases x with
  | nan => decide
  | inf s => cases s <;> decide
  | fin s m e =>
    show 1 ≤ (if m = 0 then _ else _ : List Char).length
    by_cases hm : m = 0
    · rw [if_pos hm]
      decide
    · rw [if_neg hm]
      have hV : 0 < m * 2 ^ e := Nat.mul_pos (Nat.pos_of_ne_zero hm) (Nat.pow_pos (by decide))
      obtain ⟨k, s1, n, hsh, hk1, _⟩ := shortest_spec m e hV
      rw [hsh]
      show 1 ≤ (signPrefix s ++ layout k s1 n).length
      rw [List.length_append]
      have := layout_length_pos k s1 n hk1
      omega

/-- The length of the exponential form with six decimals: the sign, eight
characters of significand, `e`, the sign of the exponent and its digits; the
exponent is the decimal position of the value or one below. -/
theorem toExponential_length (s : Bool) (m e : Nat) (hm : m ≠ 0) :
    ∃ ex : Int, (ex = decPos (m * 2 ^ e) (2 ^ 1074) ∨ ex = decPos (m * 2 ^ e) (2 ^ 1074) - 1) ∧
      (toExponential (.fin s m e) 6).length =
        (signPrefix s).length + 10 + (natDigits ex.natAbs).length := by
  simp only [toExponential]
  rw [if_neg hm]
  split_ifs <;>
    first
    | contradiction
    | (exfalso; omega)
    | (refine ⟨_, Or.inl rfl, ?_⟩
       simp only [List.length_append, List.length_cons, List.length_nil, List.length_take,
         List.length_drop, digitsN_length]
       omega)
    | (refine ⟨_, Or.inr rfl, ?_⟩
       simp only [List.length_append, List.length_cons, List.length_nil, List.length_take,
         List.length_drop, digitsN_length]
       omega)

set_option exponentiation.threshold 5000 in
/-- The decimal position of a finite non-zero Number lies between `-998` and
`999` (in fact between `-323` and `309`). -/
theorem decPos_bounds (m e : Nat) (hm : m ≠ 0) (hm53 : m < 2 ^ 53) (he : e ≤ 2045) :
    -998 ≤ decPos (m * 2 ^ e) (2 ^ 1074) ∧ decPos (m * 2 ^ e) (2 ^ 1074) ≤ 999 := by
  have hV1 : 1 ≤ m * 2 ^ e := Nat.mul_pos (Nat.pos_of_ne_zero hm) (Nat.pow_pos (by decide))
  have hV2 : m * 2 ^ e < 2 ^ 2098 := by
    have h1 : 2 ^ e ≤ 2 ^ 2045 := Nat.pow_le_pow_right (by decide) he
    calc m * 2 ^ e ≤ m * 2 ^ 2045 := Nat.mul_le_mul_left _ h1
      _ < 2 ^ 53 * 2 ^ 2045 := Nat.mul_lt_mul_of_pos_right hm53 (Nat.pow_pos (by decide))
      _ = 2 ^ 2098 := by rw [← Nat.pow_add]
  have hPpos : 0 < 2 ^ 1074 := Nat.pow_pos (by decide)
  obtain ⟨hp1, hp2⟩ := decPos_spec (m * 2 ^ e) (2 ^ 1074) hV1 hPpos
  have hPq : (0 : ℚ) < ((2 ^ 1074 : Nat) : ℚ) := by exact_mod_cast hPpos
  generalize decPos (m * 2 ^ e) (2 ^ 1074) = p at *
  have hc1 : (2 : Nat) ^ 1074 < 10 ^ 999 := by norm_num
  have hc2 : (2 : Nat) ^ 2098 < 10 ^ 999 := by norm_num
  constructor
  · by_contra hcon
    have hle : p ≤ -((999 : Nat) : Int) := by omega
    have h1 := zpow_le_zpow_right₀ (by norm_num : (1 : ℚ) ≤ 10) hle
    rw [zpow_neg, zpow_natCast, ← one_div] at h1
    have h2 := lt_of_lt_of_le hp2 h1
    rw [div_lt_div_iff₀ hPq (by positivity), one_mul] at h2
    have h3 : m * 2 ^ e * 10 ^ 999 < 2 ^ 1074 := by exact_mod_cast h2
    have h4 : 10 ^ 999 ≤ m * 2 ^ e * 10 ^ 999 := Nat.le_mul_of_pos_left _ hV1
    omega
  · by_contra hcon
    have hle : ((999 : Nat) : Int) ≤ p - 1 := by omega
    have h1 := zpow_le_zpow_right₀ (by norm_num : (1 : ℚ) ≤ 10) hle
    rw [zpow_natCast] at h1
    have h2 := le_trans h1 hp1
    rw [le_div_iff₀ hPq] at h2
    have h3 : 10 ^ 999 * 2 ^ 1074 ≤ m * 2 ^ e := by exact_mod_cast h2
    have h4 : 10 ^ 999 ≤ 10 ^ 999 * 2 ^ 1074 := Nat.le_mul_of_pos_right _ hPpos
    omega

/-- The exponential form of a finite non-zero Number has between 11 and 14
characters. -/
theorem toExponential_length_le (s : Bool) (m e : Nat) (hm : m ≠ 0) (hm53 : m < 2 ^ 53)
    (he : e ≤ 2045) :
    1 ≤ (toExponential (.fin s m e) 6).length ∧ (toExponential (.fin s m e) 6).length ≤ 20 := by
  obtain ⟨ex, hex, hlen⟩ := toExponential_length s m e hm
  obtain ⟨hb1, hb2⟩ := decPos_bounds m e hm hm53 he
  have habs : ex.natAbs < 1000 := by omega
  have h1 := natDigits_length_pos ex.natAbs
  have h3 := natDigits_length_le_three ex.natAbs habs
  have hs := signPrefix_length s
  rw [hlen]
  omega

theorem strictEq_zero_of_m_zero (s : Bool) (e : Nat) : strictEq (.fin s 0 e) zero = true := by
  cases s <;> simp [JSNumber.strictEq, JSNumber.zero, JSNumber.key]

/-! ## The claims -/

/-- C1: from every page, `clear()` and its alias `resetState()` leave exactly the
initial state (`currentNumber = "0"`, `previousNumber = null`, `operation = null`,
`waitingForNewNumber = false`, `lastResult = null`, `isInitialState = true`), and
`clear` is idempotent. -/
theorem clear_resets_state (p : Page) :
    (clear p).calculatorState =
        { currentNumber := "0".toList, previousNumber := none, operation := none,
          waitingForNewNumber := false, lastResult := none, isInitialState := true } ∧
      resetState p = clear p ∧ clear (clear p) = clear p := by
  refine ⟨?_, rfl, ?_⟩
  · simp [clear]
  · unfold clear updateDisplay
    cases p.display <;> rfl

/-- C2: for every non-empty sequence of digits passed one by one to `inputNumber`
right after `clear()`, `currentNumber` is the concatenation of the first
`min(n, 12)` digits (leading zeros kept), and `waitingForNewNumber` and
`isInitialState` are both false. -/
theorem digits_concatenate (p : Page) (ds : List Char) (hne : ds ≠ [])
    (hd : ∀ c ∈ ds, isDecimalDigit c = true) :
    (ds.foldl (fun q d => inputNumber q [d]) (clear p)).calculatorState.currentNumber =
        ds.take (min ds.length 12) ∧
      (ds.foldl (fun q d => inputNumber q [d]) (clear p)).calculatorState.waitingForNewNumber =
        false ∧
      (ds.foldl (fun q d => inputNumber q [d]) (clear p)).calculatorState.isInitialState =
        false := by
  cases ds with
  | nil => exact absurd rfl hne
  | cons d rest =>
    have hc : (clear p).calculatorState = initialState := by simp [clear, initialState]
    have hd0 := hd d (List.mem_cons_self _ _)
    have hs := inputNumber_first_digit (clear p) d hd0 (by rw [hc]; rfl) (by rw [hc]; rfl)
    rw [List.foldl_cons]
    have h := foldl_inputNumber_digits rest (inputNumber (clear p) [d])
      (fun c hc => hd c (List.mem_cons_of_mem _ hc)) (by rw [hs, hc]; rfl) (by rw [hs])
      (by
        rw [hs]
        intro c hc
        simp only [List.mem_singleton] at hc
        rw [hc]; exact hd0)
      (by rw [hs]; simp)
    refine ⟨?_, h.2⟩
    rw [h.1, hs]
    simp only [List.singleton_append]
    by_cases hl : (d :: rest).length ≤ 12
    · rw [Nat.min_eq_left hl, List.take_of_length_le hl, List.take_of_length_le (le_refl _)]
    · rw [Nat.min_eq_right (by omega)]

/-- Instance of C2: thirteen digits with a leading zero; the entry keeps the first
twelve. -/
theorem digits_concatenate_witness :
    ("0512345678901".toList.foldl (fun q d => inputNumber q [d])
      (clear (pageOf initialState))).calculatorState.currentNumber = "051234567890".toList :=
  (digits_concatenate (pageOf initialState) "0512345678901".toList (by decide)
    (by decide)).1.trans (by decide)

/-- C3: with `previousNumber` set, `operation` one of the four operators, a divisor
that does not parse to zero under `÷` and a finite arithmetic result, `calculate()`
sets `currentNumber` and `lastResult` to the formatted result, clears
`previousNumber` and `operation`, sets `waitingForNewNumber` and clears
`isInitialState`. -/
theorem calculate_correct (p : Page) (prev op : List Char)
    (hprev : p.calculatorState.previousNumber = some prev)
    (hop : p.calculatorState.operation = some op) (h4 : IsOperator op)
    (hdiv : op = [Char.ofNat 247] →
      strictEq (parseFloat p.calculatorState.currentNumber) zero = false)
    (hfin : isFinite
      (applyOperator op (parseFloat prev) (parseFloat p.calculatorState.currentNumber)) = true) :
    (calculate p).calculatorState =
      { currentNumber :=
          formatNumber
            (applyOperator op (parseFloat prev) (parseFloat p.calculatorState.currentNumber))
        previousNumber := none
        operation := none
        waitingForNewNumber := true
        lastResult :=
          some (formatNumber
            (applyOperator op (parseFloat prev) (parseFloat p.calculatorState.currentNumber)))
        isInitialState := false } := by
  rw [calculate_eq p prev op hprev hop h4, if_neg, calculateFinish_state p _ hfin]
  rintro ⟨h, hz⟩
  rw [hdiv h] at hz
  exact Bool.noConfusion hz

/-- Instance of C3: `7 × 6 =` gives `42`. -/
theorem calculate_correct_witness :
    (calculate (pageOf (pendingState "7".toList [Char.ofNat 215] "6".toList))).calculatorState =
      { currentNumber := "42".toList, previousNumber := none, operation := none,
        waitingForNewNumber := true, lastResult := some "42".toList, isInitialState := false } :=
  (calculate_correct (pageOf (pendingState "7".toList [Char.ofNat 215] "6".toList))
    "7".toList [Char.ofNat 215] rfl rfl (by decide) (by decide) (by decide!)).trans (by decide!)

/-- C4: with `operation = '÷'`, `previousNumber` set and an entry that parses to
zero, `calculate()` yields `currentNumber = "Error"`, `previousNumber = null`,
`operation = null`, `waitingForNewNumber = true` and `lastResult = null`, whatever
the dividend. -/
theorem calculate_divide_by_zero (p : Page) (prev : List Char)
    (hprev : p.calculatorState.previousNumber = some prev)
    (hop : p.calculatorState.operation = some [Char.ofNat 247])
    (hzero : strictEq (parseFloat p.calculatorState.currentNumber) zero = true) :
    (calculate p).calculatorState.currentNumber = "Error".toList ∧
      (calculate p).calculatorState.previousNumber = none ∧
      (calculate p).calculatorState.operation = none ∧
      (calculate p).calculatorState.waitingForNewNumber = true ∧
      (calculate p).calculatorState.lastResult = none := by
  have h4 : IsOperator [Char.ofNat 247] := by decide
  rw [calculate_eq p prev _ hprev hop h4, if_pos ⟨rfl, hzero⟩, calculateError_state]
  simp [errorState, errorString]

/-- Instance of C4: the dividend `Error` over the entry `0.00`. -/
theorem calculate_divide_by_zero_witness :
    (calculate (pageOf (pendingState "Error".toList [Char.ofNat 247]
      "0.00".toList))).calculatorState.currentNumber = "Error".toList :=
  (calculate_divide_by_zero (pageOf (pendingState "Error".toList [Char.ofNat 247] "0.00".toList))
    "Error".toList rfl rfl (by decide!)).1

/-- C5: when no pending calculation is triggered (`previousNumber` is null, or
`operation` is null, or `waitingForNewNumber` is true), `inputOperation(op)` stores
the entry held before the call in `previousNumber`, stores `op` in `operation`,
sets `waitingForNewNumber`, clears `isInitialState`, and leaves `currentNumber` and
`lastResult` unchanged. -/
theorem inputOperation_captures (p : Page) (op : List Char)
    (h : p.calculatorState.previousNumber = none ∨ p.calculatorState.operation = none ∨
      p.calculatorState.waitingForNewNumber = true) :
    (inputOperation p op).calculatorState =
      { currentNumber := p.calculatorState.currentNumber
        previousNumber := some p.calculatorState.currentNumber
        operation := some op
        waitingForNewNumber := true
        lastResult := p.calculatorState.lastResult
        isInitialState := false } := by
  rw [inputOperation_of_not_triggered p op h, inputOperationStore_state]

/-- Instance of C5: pressing `+` in the initial state. -/
theorem inputOperation_captures_witness :
    (inputOperation (pageOf initialState) [Char.ofNat 43]).calculatorState =
      { currentNumber := "0".toList, previousNumber := some "0".toList,
        operation := some [Char.ofNat 43], waitingForNewNumber := true, lastResult := none,
        isInitialState := false } :=
  inputOperation_captures (pageOf initialState) [Char.ofNat 43] (Or.inl rfl)

/-- C6: for every page and every non-empty list of operators `op1 .. opk` pressed
consecutively, the final `operation` is `opk`, and `previousNumber` and
`currentNumber` are what they were right after the first press. -/
theorem consecutive_operators_last_wins (p : Page) (op1 : List Char) (ops : List (List Char)) :
    (ops.foldl inputOperation (inputOperation p op1)).calculatorState.operation =
        some ((op1 :: ops).getLast (List.cons_ne_nil _ _)) ∧
      (ops.foldl inputOperation (inputOperation p op1)).calculatorState.previousNumber =
        (inputOperation p op1).calculatorState.previousNumber ∧
      (ops.foldl inputOperation (inputOperation p op1)).calculatorState.currentNumber =
        (inputOperation p op1).calculatorState.currentNumber := by
  have hs : (inputOperation p op1).calculatorState =
      { (if p.calculatorState.previousNumber ≠ none ∧ p.calculatorState.operation ≠ none ∧
            p.calculatorState.waitingForNewNumber = false then calculate p
          else p).calculatorState with
        previousNumber := some (if p.calculatorState.previousNumber ≠ none ∧
            p.calculatorState.operation ≠ none ∧
            p.calculatorState.waitingForNewNumber = false then calculate p
          else p).calculatorState.currentNumber
        operation := some op1, waitingForNewNumber := true, isInitialState := false } := by
    unfold inputOperation
    rw [inputOperationStore_state]
  exact foldl_inputOperation_waiting ops (inputOperation p op1) op1
    (by rw [hs]) (by rw [hs]) (by rw [hs])

/-- C7: chained operations run left to right. With `previousNumber` and `operation`
set (to one of the four operators), `waitingForNewNumber = false` and a pending
calculation that succeeds (no division by zero, finite result),
`inputOperation(op)` first resolves the pending operation: afterwards
`currentNumber`, `previousNumber` and `lastResult` all hold the formatted result
of the old operation, `operation = op` and `waitingForNewNumber = true`. -/
theorem inputOperation_chains (p : Page) (prev oldOp op : List Char)
    (hprev : p.calculatorState.previousNumber = some prev)
    (hop : p.calculatorState.operation = some oldOp) (h4 : IsOperator oldOp)
    (hw : p.calculatorState.waitingForNewNumber = false)
    (hdiv : oldOp = [Char.ofNat 247] →
      strictEq (parseFloat p.calculatorState.currentNumber) zero = false)
    (hfin : isFinite
      (applyOperator oldOp (parseFloat prev) (parseFloat p.calculatorState.currentNumber)) =
        true) :
    (inputOperation p op).calculatorState.currentNumber =
        formatNumber
          (applyOperator oldOp (parseFloat prev) (parseFloat p.calculatorState.currentNumber)) ∧
      (inputOperation p op).calculatorState.previousNumber =
        some (formatNumber
          (applyOperator oldOp (parseFloat prev) (parseFloat p.calculatorState.currentNumber))) ∧
      (inputOperation p op).calculatorState.lastResult =
        some (formatNumber
          (applyOperator oldOp (parseFloat prev) (parseFloat p.calculatorState.currentNumber))) ∧
      (inputOperation p op).calculatorState.operation = some op ∧
      (inputOperation p op).calculatorState.waitingForNewNumber = true := by
  have hc : (calculate p).calculatorState =
      { currentNumber :=
          formatNumber
            (applyOperator oldOp (parseFloat prev) (parseFloat p.calculatorState.currentNumber))
        previousNumber := none
        operation := none
        waitingForNewNumber := true
        lastResult :=
          some (formatNumber
            (applyOperator oldOp (parseFloat prev)
              (parseFloat p.calculatorState.currentNumber)))
        isInitialState := false } := by
    rw [calculate_eq p prev oldOp hprev hop h4, if_neg, calculateFinish_state p _ hfin]
    rintro ⟨h, hz⟩
    rw [hdiv h] at hz
    exact Bool.noConfusion hz
  unfold inputOperation
  rw [if_pos ⟨by rw [hprev]; simp, by rw [hop]; simp, hw⟩, inputOperationStore_state, hc]
  exact ⟨rfl, rfl, rfl, rfl, rfl⟩

/-- Instance of C7: `2 + 3` followed by `×` leaves the entry `5`. -/
theorem inputOperation_chains_witness :
    (inputOperation (pageOf (pendingState "2".toList [Char.ofNat 43] "3".toList))
        [Char.ofNat 215]).calculatorState.currentNumber = "5".toList :=
  (inputOperation_chains (pageOf (pendingState "2".toList [Char.ofNat 43] "3".toList))
    "2".toList [Char.ofNat 43] [Char.ofNat 215] rfl rfl (by decide) rfl (by decide)
    (by decide!)).1.trans (by decide!)

/-- C8: with `previousNumber = null` or `operation = null`, `calculate()` changes
nothing: every field of the state, and the display, stay as they were. -/
theorem calculate_noop (p : Page)
    (h : p.calculatorState.previousNumber = none ∨ p.calculatorState.operation = none) :
    (calculate p).calculatorState = p.calculatorState ∧ calculate p = p := by
  rw [calculate_of_not_pending p h]
  exact ⟨rfl, rfl⟩

/-- Instance of C8: an operand is stored but no operator. -/
theorem calculate_noop_witness :
    calculate (pageOf { initialState with previousNumber := some "5".toList }) =
      pageOf { initialState with previousNumber := some "5".toList } :=
  (calculate_noop (pageOf { initialState with previousNumber := some "5".toList })
    (Or.inr rfl)).2

/-- C9: with `previousNumber` set and `operation` one of the four operators,
`calculate()` leaves `currentNumber = "Error"` exactly when the operation is `÷`
with an entry that parses to zero, or the arithmetic result is not finite; in
every other case `currentNumber` is the formatted result, which is not `"Error"`. -/
theorem calculate_error_iff (p : Page) (prev op : List Char)
    (hprev : p.calculatorState.previousNumber = some prev)
    (hop : p.calculatorState.operation = some op) (h4 : IsOperator op) :
    ((calculate p).calculatorState.currentNumber = "Error".toList ↔
        (op = [Char.ofNat 247] ∧
          strictEq (parseFloat p.calculatorState.currentNumber) zero = true) ∨
        isFinite (applyOperator op (parseFloat prev)
          (parseFloat p.calculatorState.currentNumber)) = false) ∧
      (¬((op = [Char.ofNat 247] ∧
            strictEq (parseFloat p.calculatorState.currentNumber) zero = true) ∨
          isFinite (applyOperator op (parseFloat prev)
            (parseFloat p.calculatorState.currentNumber)) = false) →
        (calculate p).calculatorState.currentNumber =
            formatNumber (applyOperator op (parseFloat prev)
              (parseFloat p.calculatorState.currentNumber)) ∧
          formatNumber (applyOperator op (parseFloat prev)
              (parseFloat p.calculatorState.currentNumber)) ≠ "Error".toList) := by
  by_cases hz : op = [Char.ofNat 247] ∧
      strictEq (parseFloat p.calculatorState.currentNumber) zero = true
  · have hc : (calculate p).calculatorState.currentNumber = "Error".toList := by
      rw [calculate_eq p prev op hprev hop h4, if_pos hz, calculateError_state]
      rfl
    exact ⟨⟨fun _ => Or.inl hz, fun _ => hc⟩, fun hn => absurd (Or.inl hz) hn⟩
  · by_cases hf : isFinite (applyOperator op (parseFloat prev)
        (parseFloat p.calculatorState.currentNumber)) = true
    · have hc : (calculate p).calculatorState.currentNumber =
          formatNumber (applyOperator op (parseFloat prev)
            (parseFloat p.calculatorState.currentNumber)) := by
        rw [calculate_eq p prev op hprev hop h4, if_neg hz, calculateFinish_state p _ hf]
      have hne := formatNumber_ne_error _ hf
      refine ⟨⟨fun h => ?_, fun h => ?_⟩, fun _ => ⟨hc, hne⟩⟩
      · rw [hc] at h
        exact absurd h hne
      · rcases h with h | h
        · exact absurd h hz
        · rw [hf] at h
          exact Bool.noConfusion h
    · have hf2 : isFinite (applyOperator op (parseFloat prev)
          (parseFloat p.calculatorState.currentNumber)) = false := by
        simpa using hf
      have hc : (calculate p).calculatorState.currentNumber = "Error".toList := by
        rw [calculate_eq p prev op hprev hop h4, if_neg hz,
          calculateFinish_not_finite p _ hf2, calculateError_state]
        rfl
      exact ⟨⟨fun _ => Or.inr hf2, fun _ => hc⟩, fun hn => absurd (Or.inr hf2) hn⟩

/-- Instance of C9: `1 ÷ 3` is not an error. -/
theorem calculate_error_iff_witness :
    (calculate (pageOf (pendingState "1".toList [Char.ofNat 247]
        "3".toList))).calculatorState.currentNumber = "0.3333333333".toList :=
  ((calculate_error_iff (pageOf (pendingState "1".toList [Char.ofNat 247] "3".toList))
    "1".toList [Char.ofNat 247] rfl rfl (by decide)).2 (by decide!)).1.trans (by decide!)

/-- C10: with `operation` one of the four operators and `previousNumber` set, if
`previousNumber` or `currentNumber` does not parse as a number (`parseFloat` gives
NaN), `calculate()` ends in the error state: `currentNumber = "Error"`,
`previousNumber = null`, `operation = null`, `waitingForNewNumber = true`,
`lastResult = null`. -/
theorem calculate_unparsable (p : Page) (prev op : List Char)
    (hprev : p.calculatorState.previousNumber = some prev)
    (hop : p.calculatorState.operation = some op) (h4 : IsOperator op)
    (hnan : isNaN (parseFloat prev) = true ∨
      isNaN (parseFloat p.calculatorState.currentNumber) = true) :
    (calculate p).calculatorState.currentNumber = "Error".toList ∧
      (calculate p).calculatorState.previousNumber = none ∧
      (calculate p).calculatorState.operation = none ∧
      (calculate p).calculatorState.waitingForNewNumber = true ∧
      (calculate p).calculatorState.lastResult = none := by
  have herr : (calculate p).calculatorState = errorState p.calculatorState.isInitialState := by
    rw [calculate_eq p prev op hprev hop h4]
    split_ifs with h
    · exact calculateError_state p
    · have hr : applyOperator op (parseFloat prev) (parseFloat p.calculatorState.currentNumber) =
          .nan := by
        rcases hnan with h1 | h1
        · rw [(isNaN_eq_true _).1 h1, applyOperator_nan_left]
        · rw [(isNaN_eq_true _).1 h1, applyOperator_nan_right]
      rw [hr, calculateFinish_not_finite p .nan rfl, calculateError_state]
  rw [herr]
  simp [errorState, errorString]

/-- Instance of C10: the stored operand is the text `Error`. -/
theorem calculate_unparsable_witness :
    (calculate (pageOf (pendingState "Error".toList [Char.ofNat 43]
      "5".toList))).calculatorState.currentNumber = "Error".toList :=
  (calculate_unparsable (pageOf (pendingState "Error".toList [Char.ofNat 43] "5".toList))
    "Error".toList [Char.ofNat 43] rfl rfl (by decide) (Or.inl (by decide!))).1

/-- C11, as amended: an operation that runs into a divide-by-zero or a non-finite
result leaves `currentNumber = "Error"`. `calculate()` itself also leaves
`previousNumber` and `operation` cleared (null); `inputOperation(op)`, which
resolves the pending calculation first, then stores the entry and the operator as
on every press, so that `previousNumber` holds the text `Error` and `operation`
holds `op`. -/
theorem error_leaves_error_entry (p : Page) (prev oldOp op : List Char)
    (hprev : p.calculatorState.previousNumber = some prev)
    (hop : p.calculatorState.operation = some oldOp) (h4 : IsOperator oldOp)
    (herr : (oldOp = [Char.ofNat 247] ∧
        strictEq (parseFloat p.calculatorState.currentNumber) zero = true) ∨
      isFinite (applyOperator oldOp (parseFloat prev)
        (parseFloat p.calculatorState.currentNumber)) = false) :
    ((calculate p).calculatorState.currentNumber = "Error".toList ∧
        (calculate p).calculatorState.previousNumber = none ∧
        (calculate p).calculatorState.operation = none) ∧
      (p.calculatorState.waitingForNewNumber = false →
        (inputOperation p op).calculatorState.currentNumber = "Error".toList ∧
          (inputOperation p op).calculatorState.previousNumber = some "Error".toList ∧
          (inputOperation p op).calculatorState.operation = some op) := by
  have hc : (calculate p).calculatorState = errorState p.calculatorState.isInitialState := by
    rw [calculate_eq p prev oldOp hprev hop h4]
    split_ifs with hz
    · exact calculateError_state p
    · rcases herr with h | h
      · exact absurd h hz
      · rw [calculateFinish_not_finite p _ h, calculateError_state]
  refine ⟨by rw [hc]; exact ⟨rfl, rfl, rfl⟩, fun hw => ?_⟩
  unfold inputOperation
  rw [if_pos ⟨by rw [hprev]; simp, by rw [hop]; simp, hw⟩, inputOperationStore_state, hc]
  exact ⟨rfl, rfl, rfl⟩

/-- Instance of the amended C11: `5 ÷ 0` followed by `+`. -/
theorem error_leaves_error_entry_witness :
    (inputOperation (pageOf (pendingState "5".toList [Char.ofNat 247] "0".toList))
      [Char.ofNat 43]).calculatorState.previousNumber = some "Error".toList :=
  ((error_leaves_error_entry (pageOf (pendingState "5".toList [Char.ofNat 247] "0".toList))
    "5".toList [Char.ofNat 247] [Char.ofNat 43] rfl rfl (by decide)
    (Or.inl (by decide!))).2 rfl).2.1

/-- Counterexample to C11 as stated: with `5 ÷ 0` pending (the entry parses to
zero, the calculator is not waiting), `inputOperation('+')` runs into the
divide-by-zero, yet afterwards `previousNumber` and `operation` are not null. -/
theorem inputOperation_error_not_cleared :
    strictEq (parseFloat "0".toList) zero = true ∧
      ¬((inputOperation (pageOf (pendingState "5".toList [Char.ofNat 247] "0".toList))
            [Char.ofNat 43]).calculatorState.currentNumber = "Error".toList ∧
        (inputOperation (pageOf (pendingState "5".toList [Char.ofNat 247] "0".toList))
            [Char.ofNat 43]).calculatorState.previousNumber = none ∧
        (inputOperation (pageOf (pendingState "5".toList [Char.ofNat 247] "0".toList))
            [Char.ofNat 43]).calculatorState.operation = none) := by
  decide!

/-- C12: `inputNumber` with a digit or with `.` preserves "`currentNumber` contains
at most one decimal point"; hence after `clear()` every sequence of digit and
decimal inputs leaves at most one `.` in `currentNumber`. -/
theorem decimal_point_at_most_once (p : Page) :
    (∀ c, IsDigitOrPoint c → p.calculatorState.currentNumber.count (Char.ofNat 46) ≤ 1 →
        (inputNumber p [c]).calculatorState.currentNumber.count (Char.ofNat 46) ≤ 1) ∧
      (∀ inputs : List Char, (∀ c ∈ inputs, IsDigitOrPoint c) →
        (inputs.foldl (fun q c => inputNumber q [c])
          (clear p)).calculatorState.currentNumber.count (Char.ofNat 46) ≤ 1) := by
  refine ⟨fun c hc h => inputNumber_count p c hc h, fun inputs hall => ?_⟩
  refine foldl_inputNumber_count inputs (clear p) hall ?_
  have hc : (clear p).calculatorState = initialState := by simp [clear, initialState]
  rw [hc]
  decide

/-- Instance of C12: five presses of `.` among the digits `1 2 3`. -/
theorem decimal_point_at_most_once_witness :
    ("1..2.3..".toList.foldl (fun q c => inputNumber q [c])
      (clear (pageOf initialState))).calculatorState.currentNumber.count (Char.ofNat 46) ≤ 1 :=
  (decimal_point_at_most_once (pageOf initialState)).2 "1..2.3..".toList (by decide)

/-- C13: for every sequence of digit and `.` inputs passed to `inputNumber` after
`clear()` whose first input is a digit, `currentNumber` is the typed sequence with
every `.` after the first one removed, cut to its first twelve characters. -/
theorem typed_entry (p : Page) (inputs : List Char)
    (hall : ∀ c ∈ inputs, IsDigitOrPoint c)
    (hfirst : ∃ d r, inputs = d :: r ∧ isDecimalDigit d = true) :
    (inputs.foldl (fun q c => inputNumber q [c]) (clear p)).calculatorState.currentNumber =
      (dropLaterPoints inputs).take 12 := by
  obtain ⟨d, rest, rfl, hd⟩ := hfirst
  have hc : (clear p).calculatorState = initialState := by simp [clear, initialState]
  have hs := inputNumber_first_digit (clear p) d hd (by rw [hc]; rfl) (by rw [hc]; rfl)
  have hdp := digit_ne_point d hd
  have hT : TypingEntry (inputNumber (clear p) [d]).calculatorState := by
    rw [hs, hc]
    refine ⟨rfl, rfl, ⟨d, [], rfl, hd⟩, ?_, ?_, ?_⟩
    · intro c hcm
      rw [List.mem_singleton.1 hcm]
      exact Or.inl hd
    · show [d].count (Char.ofNat 46) ≤ 1
      rw [List.count_cons_of_ne (Ne.symm hdp), List.count_nil]
      exact Nat.zero_le _
    · show [d].length ≤ 12
      simp
  have hno : Char.ofNat 46 ∉ (inputNumber (clear p) [d]).calculatorState.currentNumber := by
    rw [hs]
    intro h
    exact hdp (List.mem_singleton.1 h).symm
  rw [List.foldl_cons, foldl_typing rest _ (fun c hc => hall c (List.mem_cons_of_mem _ hc)) hT,
    if_neg hno, hs]
  simp [dropLaterPoints, hdp]

/-- Instance of C13: `1 . 2 . 3 . 4` gives `1.234`. -/
theorem typed_entry_witness :
    ("1.2.3.4".toList.foldl (fun q c => inputNumber q [c])
      (clear (pageOf initialState))).calculatorState.currentNumber = "1.234".toList :=
  (typed_entry (pageOf initialState) "1.2.3.4".toList (by decide)
    ⟨Char.ofNat 49, ".2.3.4".toList, by decide, by decide⟩).trans (by decide)

/-- C14: when `currentNumber` already contains `.`, `inputNumber('.')` changes
nothing, neither the state nor the display, also when `waitingForNewNumber` is
true. -/
theorem second_point_ignored (p : Page)
    (h : Char.ofNat 46 ∈ p.calculatorState.currentNumber) :
    inputNumber p [Char.ofNat 46] = p := by
  unfold inputNumber
  rw [if_pos rfl, if_pos h]

/-- Instance of C14: after the result `3.8` the decimal key does not start `0.`. -/
theorem second_point_ignored_witness :
    inputNumber (pageOf (waitingState "3.8".toList)) [Char.ofNat 46] =
      pageOf (waitingState "3.8".toList) :=
  second_point_ignored (pageOf (waitingState "3.8".toList)) (by decide)

/-- C15, as amended: with `waitingForNewNumber = true` and a `currentNumber` that
does not contain `.`, `inputNumber('.')` sets `currentNumber` to `"0."` and
`waitingForNewNumber` to false. -/
theorem point_starts_zero_point (p : Page)
    (hw : p.calculatorState.waitingForNewNumber = true)
    (hno : Char.ofNat 46 ∉ p.calculatorState.currentNumber) :
    (inputNumber p [Char.ofNat 46]).calculatorState.currentNumber = "0.".toList ∧
      (inputNumber p [Char.ofNat 46]).calculatorState.waitingForNewNumber = false := by
  unfold inputNumber
  rw [if_pos rfl, if_neg hno, if_pos hw, updateDisplay_calculatorState]
  exact ⟨rfl, rfl⟩

/-- Instance of the amended C15: the decimal key after the result `42`. -/
theorem point_starts_zero_point_witness :
    (inputNumber (pageOf (waitingState "42".toList))
      [Char.ofNat 46]).calculatorState.currentNumber = "0.".toList :=
  (point_starts_zero_point (pageOf (waitingState "42".toList)) rfl (by decide)).1

/-- Counterexample to C15 as stated: the state after the result `3.8` has
`waitingForNewNumber = true`, yet `inputNumber('.')` leaves `currentNumber = "3.8"`
and `waitingForNewNumber = true`. -/
theorem point_after_decimal_result_ignored :
    (pageOf (waitingState "3.8".toList)).calculatorState.waitingForNewNumber = true ∧
      ¬((inputNumber (pageOf (waitingState "3.8".toList))
            [Char.ofNat 46]).calculatorState.currentNumber = "0.".toList ∧
        (inputNumber (pageOf (waitingState "3.8".toList))
            [Char.ofNat 46]).calculatorState.waitingForNewNumber = false) := by
  decide

/-- C16: with `waitingForNewNumber = true`, `inputNumber(d)` for a digit `d` starts
a fresh entry: `currentNumber = d`, `waitingForNewNumber = false`,
`isInitialState = false`, and `previousNumber`, `operation` and `lastResult` are
unchanged, whatever the old entry was. -/
theorem digit_starts_fresh_entry (p : Page) (d : Char) (hd : isDecimalDigit d = true)
    (hw : p.calculatorState.waitingForNewNumber = true) :
    (inputNumber p [d]).calculatorState =
      { currentNumber := [d]
        previousNumber := p.calculatorState.previousNumber
        operation := p.calculatorState.operation
        waitingForNewNumber := false
        lastResult := p.calculatorState.lastResult
        isInitialState := false } := by
  have hdot : [d] ≠ [Char.ofNat 46] := fun h =>
    digit_ne_point d hd (List.head_eq_of_cons_eq h)
  have hg := guard_digits [d] (List.cons_ne_nil _ _)
    (by intro c hc; rw [List.mem_singleton.1 hc]; exact hd) (by simp)
  unfold inputNumber
  rw [if_neg hdot, if_pos hw, inputNumberCommit_state _ _ _ hg]

/-- Instance of C16: the digit `7` after an error. -/
theorem digit_starts_fresh_entry_witness :
    (inputNumber (pageOf (errorState false)) [Char.ofNat 55]).calculatorState.currentNumber =
      "7".toList :=
  congrArg CalculatorState.currentNumber
    (digit_starts_fresh_entry (pageOf (errorState false)) (Char.ofNat 55) (by decide) rfl)

/-- C17: with `waitingForNewNumber = false`, `isInitialState = false` and a
`currentNumber` of twelve or more characters, `inputNumber` with any digit and
`inputNumber('.')` change nothing: the state and the display are as before (the
functions have no other outcome, so no error is signalled). -/
theorem full_entry_ignores_input (p : Page)
    (hw : p.calculatorState.waitingForNewNumber = false)
    (hi : p.calculatorState.isInitialState = false)
    (hlen : 12 ≤ p.calculatorState.currentNumber.length) :
    (∀ d, isDecimalDigit d = true → inputNumber p [d] = p) ∧
      inputNumber p [Char.ofNat 46] = p := by
  constructor
  · intro d hd
    have hdot : [d] ≠ [Char.ofNat 46] := fun h =>
      digit_ne_point d hd (List.head_eq_of_cons_eq h)
    unfold inputNumber
    rw [if_neg hdot, hw, hi]
    simp only [Bool.false_eq_true, if_false]
    rw [if_pos hlen]
  · unfold inputNumber
    rw [if_pos rfl, hw]
    simp only [Bool.false_eq_true, if_false]
    rw [if_pos hlen]
    split_ifs <;> rfl

/-- Instance of C17: a thirteenth digit after twelve. -/
theorem full_entry_ignores_input_witness :
    inputNumber (pageOf (pendingState "1".toList [Char.ofNat 43] "123456789012".toList))
        [Char.ofNat 51] =
      pageOf (pendingState "1".toList [Char.ofNat 43] "123456789012".toList) :=
  (full_entry_ignores_input
    (pageOf (pendingState "1".toList [Char.ofNat 43] "123456789012".toList)) rfl rfl
    (by decide)).1 (Char.ofNat 51) (by decide)

/-- C18: pressing `=` right after an operator performs the self-operation. When
`inputOperation(op)` triggers no pending calculation and `currentNumber` parses to
`x`, `inputOperation(op)` followed by `calculate()` yields
`currentNumber = formatNumber(x op x)`, or `"Error"` when `op` is `÷` and `x` is
zero. This holds for every `x`, in particular for every finite one: a result that
is not finite is formatted as `"Error"`, which is what `calculate()` writes. -/
theorem equals_after_operator (p : Page) (op : List Char) (h4 : IsOperator op)
    (hno : p.calculatorState.previousNumber = none ∨ p.calculatorState.operation = none ∨
      p.calculatorState.waitingForNewNumber = true) :
    (calculate (inputOperation p op)).calculatorState.currentNumber =
      if op = [Char.ofNat 247] ∧
          strictEq (parseFloat p.calculatorState.currentNumber) zero = true then
        "Error".toList
      else
        formatNumber (applyOperator op (parseFloat p.calculatorState.currentNumber)
          (parseFloat p.calculatorState.currentNumber)) := by
  have hs : (inputOperation p op).calculatorState =
      { p.calculatorState with
        previousNumber := some p.calculatorState.currentNumber, operation := some op,
        waitingForNewNumber := true, isInitialState := false } := by
    rw [inputOperation_of_not_triggered p op hno, inputOperationStore_state]
  have hcur : (inputOperation p op).calculatorState.currentNumber =
      p.calculatorState.currentNumber := by rw [hs]
  rw [calculate_eq (inputOperation p op) p.calculatorState.currentNumber op
    (by rw [hs]) (by rw [hs]) h4, hcur]
  split_ifs with hz
  · rw [calculateError_state]
    rfl
  · by_cases hf : isFinite (applyOperator op (parseFloat p.calculatorState.currentNumber)
        (parseFloat p.calculatorState.currentNumber)) = true
    · rw [calculateFinish_state _ _ hf]
    · have hf2 : isFinite (applyOperator op (parseFloat p.calculatorState.currentNumber)
          (parseFloat p.calculatorState.currentNumber)) = false := by simpa using hf
      rw [calculateFinish_not_finite _ _ hf2, calculateError_state,
        formatNumber_not_finite _ hf2]
      rfl

/-- Instance of C18: `5`, `+`, `=` gives `10`. -/
theorem equals_after_operator_witness :
    (calculate (inputOperation
      (pageOf { initialState with currentNumber := "5".toList, isInitialState := false })
      [Char.ofNat 43])).calculatorState.currentNumber = "10".toList :=
  (equals_after_operator
    (pageOf { initialState with currentNumber := "5".toList, isInitialState := false })
    [Char.ofNat 43] (by decide) (Or.inl rfl)).trans (by decide!)

/-- C19: the keyboard and the mouse paths agree. From every page, a digit key acts
as `inputNumber` of that digit; `.` and `,` as `inputNumber('.')`; `+`, `-`, `*`,
`/` as `inputOperation` of `+`, `-`, `×`, `÷`; `Enter` and `=` as `calculate()`;
`Escape`, `c` and `C` as `clear()`. Each of these keys also has its default action
suppressed. -/
theorem keyboard_mouse_equivalence (p : Page) :
    (∀ d, isDecimalDigit d = true →
        handleKeyboard p [d] = { page := inputNumber p [d], defaultPrevented := true }) ∧
      handleKeyboard p ".".toList =
        { page := inputNumber p ".".toList, defaultPrevented := true } ∧
      handleKeyboard p ",".toList =
        { page := inputNumber p ".".toList, defaultPrevented := true } ∧
      handleKeyboard p "+".toList =
        { page := inputOperation p "+".toList, defaultPrevented := true } ∧
      handleKeyboard p "-".toList =
        { page := inputOperation p "-".toList, defaultPrevented := true } ∧
      handleKeyboard p "*".toList =
        { page := inputOperation p "×".toList, defaultPrevented := true } ∧
      handleKeyboard p "/".toList =
        { page := inputOperation p "÷".toList, defaultPrevented := true } ∧
      handleKeyboard p "Enter".toList = { page := calculate p, defaultPrevented := true } ∧
      handleKeyboard p "=".toList = { page := calculate p, defaultPrevented := true } ∧
      handleKeyboard p "Escape".toList = { page := clear p, defaultPrevented := true } ∧
      handleKeyboard p "c".toList = { page := clear p, defaultPrevented := true } ∧
      handleKeyboard p "C".toList = { page := clear p, defaultPrevented := true } := by
  refine ⟨fun d hd => ?_, rfl, rfl, rfl, rfl, rfl, rfl, rfl, rfl, rfl, rfl, rfl⟩
  unfold handleKeyboard
  rw [if_pos (strLt_digit d hd)]

/-- Instance of C19: the key `7` in the initial state. -/
theorem keyboard_mouse_equivalence_witness :
    handleKeyboard (pageOf initialState) "7".toList =
      { page := inputNumber (pageOf initialState) "7".toList, defaultPrevented := true } :=
  (keyboard_mouse_equivalence (pageOf initialState)).1 (Char.ofNat 55) (by decide)

/-- The keys that `handleKeyboard` does ignore: a key that fails the string test
`key >= '0' && key <= '9'` and is none of the mapped keys changes nothing and keeps
its default action. -/
theorem handleKeyboard_ignores (p : Page) (key : List Char)
    (hrange : (!strLt key [Char.ofNat 48] && !strLt [Char.ofNat 57] key) = false)
    (hkeys : key ∉ [".".toList, ",".toList, "+".toList, "-".toList, "*".toList, "/".toList,
      "Enter".toList, "=".toList, "Escape".toList, "c".toList, "C".toList,
      "Backspace".toList]) :
    handleKeyboard p key = { page := p, defaultPrevented := false } := by
  simp only [List.mem_cons, List.mem_singleton, List.not_mem_nil, or_false, not_or] at hkeys
  obtain ⟨h1, h2, h3, h4, h5, h6, h7, h8, h9, h10, h11, h12⟩ := hkeys
  have k1 : ¬(key = [Char.ofNat 46] ∨ key = [Char.ofNat 44]) := by
    rintro (h | h)
    · exact h1 h
    · exact h2 h
  have k3 : ¬key = [Char.ofNat 43] := h3
  have k4 : ¬key = [Char.ofNat 45] := h4
  have k5 : ¬key = [Char.ofNat 42] := h5
  have k6 : ¬key = [Char.ofNat 47] := h6
  have k7 : ¬(key = "Enter".toList ∨ key = [Char.ofNat 61]) := by
    rintro (h | h)
    · exact h7 h
    · exact h8 h
  have k9 : ¬(key = "Escape".toList ∨ key = [Char.ofNat 99] ∨ key = [Char.ofNat 67]) := by
    rintro (h | h | h)
    · exact h9 h
    · exact h10 h
    · exact h11 h
  unfold handleKeyboard
  rw [hrange]
  simp only [Bool.false_eq_true, if_false]
  rw [if_neg k1, if_neg k3, if_neg k4, if_neg k5, if_neg k6, if_neg k7, if_neg k9, if_neg h12]

/-- C20 fails on the code: the key string `10` is none of the mapped keys, yet it
passes the string test `key >= '0' && key <= '9'`, so `handleKeyboard` suppresses
its default action and hands it to `inputNumber`, which replaces the entry `0` of
the initial state by `10`. -/
theorem handleKeyboard_accepts_multi_character_key :
    "10".toList ∉ ["0".toList, "1".toList, "2".toList, "3".toList, "4".toList, "5".toList,
        "6".toList, "7".toList, "8".toList, "9".toList, ".".toList, ",".toList, "+".toList,
        "-".toList, "*".toList, "/".toList, "Enter".toList, "=".toList, "Escape".toList,
        "c".toList, "C".toList, "Backspace".toList] ∧
      (pageOf initialState).calculatorState.currentNumber = "0".toList ∧
      (handleKeyboard (pageOf initialState) "10".toList).defaultPrevented = true ∧
      (handleKeyboard (pageOf initialState) "10".toList).page.calculatorState.currentNumber =
        "10".toList ∧
      (handleKeyboard (pageOf initialState)
        "10".toList).page.calculatorState.isInitialState = false := by
  decide!

/-- C21: from every page, the Backspace key leaves the old entry without its last
character when the old entry has more than one character, and otherwise sets
`currentNumber` to `"0"` and `isInitialState` to true; the other fields keep their
values. -/
theorem backspace_entry (p : Page) :
    (handleKeyboard p "Backspace".toList).page.calculatorState =
      if 1 < p.calculatorState.currentNumber.length then
        { currentNumber := p.calculatorState.currentNumber.dropLast
          previousNumber := p.calculatorState.previousNumber
          operation := p.calculatorState.operation
          waitingForNewNumber := p.calculatorState.waitingForNewNumber
          lastResult := p.calculatorState.lastResult
          isInitialState := p.calculatorState.isInitialState }
      else
        { currentNumber := "0".toList
          previousNumber := p.calculatorState.previousNumber
          operation := p.calculatorState.operation
          waitingForNewNumber := p.calculatorState.waitingForNewNumber
          lastResult := p.calculatorState.lastResult
          isInitialState := true } := by
  rw [handleKeyboard_backspace]
  exact handleKeyboardBackspace_state p

/-- C22: the Backspace key leaves `previousNumber`, `operation`,
`waitingForNewNumber` and `lastResult` unchanged, and so does any number `n` of
Backspace presses: a pending operation survives them. -/
theorem backspace_keeps_pending (p : Page) (n : Nat) :
    ((handleKeyboard p "Backspace".toList).page.calculatorState.previousNumber =
        p.calculatorState.previousNumber ∧
      (handleKeyboard p "Backspace".toList).page.calculatorState.operation =
        p.calculatorState.operation ∧
      (handleKeyboard p "Backspace".toList).page.calculatorState.waitingForNewNumber =
        p.calculatorState.waitingForNewNumber ∧
      (handleKeyboard p "Backspace".toList).page.calculatorState.lastResult =
        p.calculatorState.lastResult) ∧
    ((List.foldl press p (List.replicate n Key.backspace)).calculatorState.previousNumber =
        p.calculatorState.previousNumber ∧
      (List.foldl press p (List.replicate n Key.backspace)).calculatorState.operation =
        p.calculatorState.operation ∧
      (List.foldl press p (List.replicate n Key.backspace)).calculatorState.waitingForNewNumber =
        p.calculatorState.waitingForNewNumber ∧
      (List.foldl press p (List.replicate n Key.backspace)).calculatorState.lastResult =
        p.calculatorState.lastResult) := by
  have one : ∀ q : Page,
      (handleKeyboard q "Backspace".toList).page.calculatorState.previousNumber =
          q.calculatorState.previousNumber ∧
        (handleKeyboard q "Backspace".toList).page.calculatorState.operation =
          q.calculatorState.operation ∧
        (handleKeyboard q "Backspace".toList).page.calculatorState.waitingForNewNumber =
          q.calculatorState.waitingForNewNumber ∧
        (handleKeyboard q "Backspace".toList).page.calculatorState.lastResult =
          q.calculatorState.lastResult := by
    intro q
    rw [handleKeyboard_backspace]
    show (handleKeyboardBackspace q).calculatorState.previousNumber = _ ∧
      (handleKeyboardBackspace q).calculatorState.operation = _ ∧
      (handleKeyboardBackspace q).calculatorState.waitingForNewNumber = _ ∧
      (handleKeyboardBackspace q).calculatorState.lastResult = _
    rw [handleKeyboardBackspace_state]
    split_ifs <;> exact ⟨rfl, rfl, rfl, rfl⟩
  refine ⟨one p, ?_⟩
  induction n generalizing p with
  | zero => exact ⟨rfl, rfl, rfl, rfl⟩
  | succ n ih =>
    rw [List.replicate_succ, List.foldl_cons]
    obtain ⟨h1, h2, h3, h4⟩ := ih (press p Key.backspace)
    obtain ⟨g1, g2, g3, g4⟩ := one p
    exact ⟨h1.trans g1, h2.trans g2, h3.trans g3, h4.trans g4⟩

/-- C23: in every page reachable from `clear()` through digits, the decimal
point, the four operators, `calculate()`, `clear()` and Backspace, `previousNumber`
and `operation` are both null or both non-null. -/
theorem pending_pair_invariant (q : Page) (h : Reachable q) :
    (q.calculatorState.previousNumber = none ∧ q.calculatorState.operation = none) ∨
      (q.calculatorState.previousNumber ≠ none ∧ q.calculatorState.operation ≠ none) := by
  have hiff : q.calculatorState.previousNumber = none ↔ q.calculatorState.operation = none :=
    reachable_induction
      (fun q => q.calculatorState.previousNumber = none ↔ q.calculatorState.operation = none)
      (fun p => by
        show (clear p).calculatorState.previousNumber = none ↔
          (clear p).calculatorState.operation = none
        rw [clear_state]
        exact ⟨fun _ => rfl, fun _ => rfl⟩)
      (fun q k hq => press_pending q k hq) q h
  by_cases hp : q.calculatorState.previousNumber = none
  · exact Or.inl ⟨hp, hiff.1 hp⟩
  · exact Or.inr ⟨hp, fun ho => hp (hiff.2 ho)⟩

/-- Instance of C23: after `5 +` both fields are set. -/
theorem pending_pair_invariant_witness :
    ((List.foldl press (clear (pageOf initialState))
          [Key.digit 5, Key.plus]).calculatorState.previousNumber = none ∧
        (List.foldl press (clear (pageOf initialState))
          [Key.digit 5, Key.plus]).calculatorState.operation = none) ∨
      ((List.foldl press (clear (pageOf initialState))
          [Key.digit 5, Key.plus]).calculatorState.previousNumber ≠ none ∧
        (List.foldl press (clear (pageOf initialState))
          [Key.digit 5, Key.plus]).calculatorState.operation ≠ none) :=
  pending_pair_invariant _ ⟨pageOf initialState, [Key.digit 5, Key.plus], rfl⟩

/-- C24 fails on the code: after `5 ÷ 0 =` the entry is the sentinel `Error`, and
the Backspace key cuts it to `Erro`, which is neither the sentinel nor the start
of any number (`parseFloat` gives NaN). -/
theorem backspace_cuts_error_sentinel :
    (List.foldl press (clear (pageOf initialState))
        [Key.digit 5, Key.divide, Key.digit 0, Key.equals]).calculatorState.currentNumber =
        "Error".toList ∧
      (List.foldl press (clear (pageOf initialState))
        [Key.digit 5, Key.divide, Key.digit 0, Key.equals,
          Key.backspace]).calculatorState.currentNumber = "Erro".toList ∧
      "Erro".toList ≠ "Error".toList ∧ isNaN (parseFloat "Erro".toList) = true := by
  decide!

/-- C25, as amended: in every reachable page with `waitingForNewNumber = false`
(an entry being typed) `currentNumber` has at most twelve characters, hence at
most twelve digits. -/
theorem typed_entry_cap (q : Page) (h : Reachable q)
    (hw : q.calculatorState.waitingForNewNumber = false) :
    q.calculatorState.currentNumber.length ≤ 12 ∧
      digitCount q.calculatorState.currentNumber ≤ 12 := by
  have hs : EntryShape q.calculatorState.currentNumber :=
    reachable_induction
      (fun q => q.calculatorState.waitingForNewNumber = false →
        EntryShape q.calculatorState.currentNumber)
      (fun p _ => by
        show EntryShape (clear p).calculatorState.currentNumber
        rw [clear_state]
        exact entryShape_zero)
      (fun q k hq => press_entryShape q k hq) q h hw
  exact ⟨hs.2.2.2, le_trans (List.countP_le_length isDecimalDigit) hs.2.2.2⟩

/-- Instance of the amended C25: fifteen digit keys leave an entry of twelve
characters. -/
theorem typed_entry_cap_witness :
    (List.foldl press (clear (pageOf initialState))
      (List.replicate 15 (Key.digit 7))).calculatorState.currentNumber.length ≤ 12 :=
  (typed_entry_cap _ ⟨pageOf initialState, List.replicate 15 (Key.digit 7), rfl⟩
    (by decide!)).1

/-- Counterexample to C25 as stated: `2000 ÷ 3 =` is reachable and leaves the
result `666.6666666667`, which has thirteen digits. -/
theorem computed_result_exceeds_cap :
    Reachable (List.foldl press (clear (pageOf initialState))
        [Key.digit 2, Key.digit 0, Key.digit 0, Key.digit 0, Key.divide, Key.digit 3,
          Key.equals]) ∧
      (List.foldl press (clear (pageOf initialState))
        [Key.digit 2, Key.digit 0, Key.digit 0, Key.digit 0, Key.divide, Key.digit 3,
          Key.equals]).calculatorState.currentNumber = "666.6666666667".toList ∧
      ¬digitCount (List.foldl press (clear (pageOf initialState))
        [Key.digit 2, Key.digit 0, Key.digit 0, Key.digit 0, Key.divide, Key.digit 3,
          Key.equals]).calculatorState.currentNumber ≤ 12 :=
  ⟨⟨pageOf initialState, _, rfl⟩, by decide!, by decide!⟩

/-- C26 fails on the code: the decimal key right after `clear()` changes the
entry to `0.` and leaves `isInitialState` true, because the decimal branch of
`inputNumber` never clears that flag; the next digit then replaces `0.`. -/
theorem point_keeps_initial_flag :
    (press (clear (pageOf initialState)) Key.point).calculatorState.isInitialState = true ∧
      (press (clear (pageOf initialState)) Key.point).calculatorState.currentNumber =
        "0.".toList ∧
      (List.foldl press (clear (pageOf initialState))
        [Key.point, Key.digit 5]).calculatorState.currentNumber = "5".toList := by
  decide!

/-- C27: `lastResult` never influences a computation. When two pages agree on
`currentNumber`, `previousNumber`, `operation`, `waitingForNewNumber`,
`isInitialState` and the displayed string, they still agree on all of these after
any input (digit, decimal point, operator, equals, clear, Backspace). -/
theorem lastResult_never_read (p q : Page) (k : Key) (h : AgreeExceptLastResult p q) :
    AgreeExceptLastResult (press p k) (press q k) := by
  rw [eq_setLastResult_of_agree p q h]
  exact agree_press p k _

/-- Instance of C27: two pages with the pending operation `2 + 3` and different
`lastResult`, and the equals key. -/
theorem lastResult_never_read_witness :
    AgreeExceptLastResult
      (press (pageOf (pendingState "2".toList [Char.ofNat 43] "3".toList)) Key.equals)
      (press (setLastResult (pageOf (pendingState "2".toList [Char.ofNat 43] "3".toList))
        (some "99".toList)) Key.equals) :=
  lastResult_never_read _ _ Key.equals (agree_setLastResult _ _)

/-- C28 fails on the code: while the user types (`waitingForNewNumber = false`,
`isInitialState = false`) `updateDisplay` reformats the entry. After the keys
`0.0000001` the entry is `0.0000001` but the display shows `1.000000e-7`; after
the twelve digits `123456789012` the display shows `123456789011.99998`. -/
theorem typing_display_reformatted :
    (List.foldl press (clear (pageOf initialState))
        [Key.digit 0, Key.point, Key.digit 0, Key.digit 0, Key.digit 0, Key.digit 0,
          Key.digit 0, Key.digit 0, Key.digit 1]) =
      { calculatorState :=
          { currentNumber := "0.0000001".toList, previousNumber := none, operation := none,
            waitingForNewNumber := false, lastResult := none, isInitialState := false }
        display := some "1.000000e-7".toList } ∧
      displayValue
        { currentNumber := "123456789012".toList, previousNumber := none, operation := none,
          waitingForNewNumber := false, lastResult := none, isInitialState := false } =
        "123456789011.99998".toList := by
  decide!

/-- C29: `formatNumber` returns `"Error"` for NaN and for both infinities, and
`"0"` for zero of either sign. -/
theorem formatNumber_special (neg : Bool) (e : Nat) :
    formatNumber .nan = "Error".toList ∧ formatNumber (.inf neg) = "Error".toList ∧
      formatNumber (.fin neg 0 e) = "0".toList := by
  refine ⟨rfl, rfl, ?_⟩
  unfold formatNumber
  have hz : strictEq (.fin neg 0 e) zero = true := by
    cases neg <;> simp [strictEq, key, zero]
  rw [hz]
  rfl

/-- **C30** For every finite `x` with `1e-6 ≤ |x| < 1e15`, parsing
`formatNumber(x)` gives a finite number within `|x| * 1e-9 + 1e-10` of `x`. The
bound by the largest safe integer that the claim also names follows from
`|x| < 1e15`, so it is not a separate hypothesis. -/
theorem formatNumber_round_trip (x : JSNumber) (hfin : isFinite x = true)
    (hlo : ge (abs x) lit1eNeg6 = true) (hhi : lt (abs x) lit1e15 = true) :
    isFinite (parseFloat (formatNumber x)) = true ∧
      |toRat (parseFloat (formatNumber x)) - toRat x| ≤
        |toRat x| * (1 / 10 ^ 9) + 1 / 10 ^ 10 := by
  cases x with
  | nan => exact Bool.noConfusion hfin
  | inf s => exact Bool.noConfusion hfin
  | fin sg m e =>
    obtain ⟨m3, e3, hparse, herr⟩ := formatNumber_fin_round_trip sg m e hlo hhi
    rw [hparse]
    refine ⟨rfl, ?_⟩
    have hnn := toRat_fin_false_nonneg m e
    cases sg
    · rw [abs_of_nonneg hnn]
      rw [mul_one_div]
      exact herr
    · rw [toRat_fin_true, toRat_fin_true, abs_neg, abs_of_nonneg hnn, mul_one_div]
      have e1 : -toRat (.fin false m3 e3) - -toRat (.fin false m e) =
          -(toRat (.fin false m3 e3) - toRat (.fin false m e)) := by ring
      rw [e1, abs_neg]
      exact herr

/-- A witness of C30: the number one. -/
theorem formatNumber_round_trip_witness :
    isFinite (parseFloat (formatNumber (.fin false (2 ^ 52) 1022))) = true ∧
      |toRat (parseFloat (formatNumber (.fin false (2 ^ 52) 1022))) -
          toRat (.fin false (2 ^ 52) 1022)| ≤
        |toRat (.fin false (2 ^ 52) 1022)| * (1 / 10 ^ 9) + 1 / 10 ^ 10 :=
  formatNumber_round_trip (.fin false (2 ^ 52) 1022) rfl (by decide!) (by decide!)

/-- **C31** For every Number, finite or not, `formatNumber` returns a string of
at least 1 and at most 20 characters. The hypothesis says that the value of the
model is a Number, that is NaN, an infinity or a finite value in canonical form. -/
theorem formatNumber_length (x : JSNumber) (hx : IsNumber x) :
    1 ≤ (formatNumber x).length ∧ (formatNumber x).length ≤ 20 := by
  cases x with
  | nan =>
    rw [formatNumber_not_finite .nan rfl]
    decide
  | inf s =>
    rw [formatNumber_not_finite (.inf s) rfl]
    decide
  | fin s m e =>
    obtain ⟨hm53, he, _⟩ := hx
    unfold formatNumber
    simp only [JSNumber.isFinite, Bool.not_true, Bool.false_eq_true, if_false]
    have hexp : strictEq (.fin s m e) zero ≠ true →
        1 ≤ (toExponential (.fin s m e) 6).length ∧
          (toExponential (.fin s m e) 6).length ≤ 20 := by
      intro hz
      have hm : m ≠ 0 := by
        rintro rfl
        exact hz (strictEq_zero_of_m_zero s e)
      exact toExponential_length_le s m e hm hm53 he
    split_ifs with hz hs hr hl
    · decide
    · exact hexp hz
    · exact hexp hz
    · exact hexp hz
    · exact ⟨toString_length_pos _, by omega⟩

/-- Instance of C31: the number one. -/
theorem formatNumber_length_witness :
    1 ≤ (formatNumber (.fin false (2 ^ 52) 1022)).length ∧
      (formatNumber (.fin false (2 ^ 52) 1022)).length ≤ 20 :=
  formatNumber_length (.fin false (2 ^ 52) 1022) (by decide)

/-- **C32** A later operator press absorbs an earlier one: for every page and all
operator strings `op1`, `op2`, `inputOperation(op2)` after `inputOperation(op1)`
leaves exactly the page that `inputOperation(op2)` alone leaves, so the pending
calculation, if any, is resolved with the operator stored before the presses. -/
theorem inputOperation_absorbs (p : Page) (op1 op2 : List Char) :
    inputOperation (inputOperation p op1) op2 = inputOperation p op2 := by
  have hw : (inputOperation p op1).calculatorState.waitingForNewNumber = true := by
    unfold inputOperation
    rw [inputOperationStore_state]
  rw [inputOperation_of_not_triggered (inputOperation p op1) op2 (Or.inr (Or.inr hw))]
  unfold inputOperation
  exact inputOperationStore_twice _ op1 op2

/-- **C33** The function `calculate` is idempotent: applied twice it leaves the
page it leaves when applied once. -/
theorem calculate_idempotent (p : Page) : calculate (calculate p) = calculate p := by
  rcases calculate_cases p with h | ⟨h, _, _⟩
  · rw [h, h]
  · exact calculate_of_not_pending _ (Or.inl h)

/-- **C34** In every page reachable from `clear()` through digits, decimal
points, the four operators, equals, clear and Backspace: when
`waitingForNewNumber` is false, `currentNumber` has between 1 and 12 characters,
starts with a digit, consists of digits and decimal points only, and holds at
most one decimal point; in particular it is not the text `Error`. -/
theorem reachable_typed_entry (q : Page) (h : Reachable q)
    (hw : q.calculatorState.waitingForNewNumber = false) :
    1 ≤ q.calculatorState.currentNumber.length ∧
      q.calculatorState.currentNumber.length ≤ 12 ∧
      (∃ d r, q.calculatorState.currentNumber = d :: r ∧ isDecimalDigit d = true) ∧
      (∀ c ∈ q.calculatorState.currentNumber, isDecimalDigit c = true ∨ c = Char.ofNat 46) ∧
      q.calculatorState.currentNumber.count (Char.ofNat 46) ≤ 1 ∧
      q.calculatorState.currentNumber ≠ "Error".toList := by
  obtain ⟨⟨d, r, hdr, hd⟩, hall, hcount, hlen⟩ := reachable_entryShape q h hw
  refine ⟨?_, hlen, ⟨d, r, hdr, hd⟩, hall, hcount, ?_⟩
  · rw [hdr]
    exact Nat.succ_le_succ (Nat.zero_le _)
  · intro he
    rw [he] at hdr
    have : Char.ofNat 69 = d := List.head_eq_of_cons_eq hdr
    rw [← this] at hd
    exact absurd hd (by decide)

/-- Instance of C34: after `1`, `.`, `5` the entry is `1.5`. -/
theorem reachable_typed_entry_witness :
    1 ≤ (List.foldl press (clear (pageOf initialState))
        [Key.digit 1, Key.point, Key.digit 5]).calculatorState.currentNumber.length ∧
      (List.foldl press (clear (pageOf initialState))
        [Key.digit 1, Key.point, Key.digit 5]).calculatorState.currentNumber.length ≤ 12 :=
  ⟨(reachable_typed_entry _ ⟨pageOf initialState, [Key.digit 1, Key.point, Key.digit 5], rfl⟩
      (by decide!)).1,
    (reachable_typed_entry _ ⟨pageOf initialState, [Key.digit 1, Key.point, Key.digit 5], rfl⟩
      (by decide!)).2.1⟩

/-- **C35** In every page reachable from `clear()` through digits, decimal
points, the four operators, equals, clear and Backspace, and for every digit `d`:
whenever the digit branch of `inputNumber` gets as far as its safe-integer check
(a new number starts, or the entry has fewer than 12 characters), the check on
`newNumber` is false; hence the digit leaves the state unchanged exactly when
`waitingForNewNumber` and `isInitialState` are both false and `currentNumber`
has 12 characters. -/
theorem digit_guard_unreachable (q : Page) (h : Reachable q) (d : Char)
    (hd : isDecimalDigit d = true) :
    ((q.calculatorState.waitingForNewNumber = true ∨ q.calculatorState.isInitialState = true ∨
        q.calculatorState.currentNumber.length < 12) →
      (!isNaN (parseFloat (digitCandidate q.calculatorState d)) &&
        gt (abs (parseFloat (digitCandidate q.calculatorState d))) MAX_SAFE_INTEGER) = false) ∧
    ((inputNumber q [d]).calculatorState = q.calculatorState ↔
      q.calculatorState.waitingForNewNumber = false ∧ q.calculatorState.isInitialState = false ∧
        q.calculatorState.currentNumber.length = 12) := by
  have hdot := digit_singleton_ne_point d hd
  have hg1 := guard_singleton d hd
  have hshape := reachable_entryShape q h
  have happ : q.calculatorState.waitingForNewNumber = false →
      q.calculatorState.currentNumber.length < 12 →
      (!isNaN (parseFloat (q.calculatorState.currentNumber ++ [d])) &&
        gt (abs (parseFloat (q.calculatorState.currentNumber ++ [d]))) MAX_SAFE_INTEGER) =
        false := by
    intro hw hl
    have hs2 := entryShape_append _ d (hshape hw) (Or.inl hd)
      (fun hp => absurd hp (digit_ne_point d hd)) hl
    exact guard_entry _ hs2.1 hs2.2.1 hs2.2.2.1 hs2.2.2.2
  constructor
  · intro hcase
    unfold digitCandidate
    by_cases hw : q.calculatorState.waitingForNewNumber = true
    · rw [hw, Bool.true_or, if_pos rfl]
      exact hg1
    · have hw' : q.calculatorState.waitingForNewNumber = false := by simpa using hw
      by_cases hi : q.calculatorState.isInitialState = true
      · rw [hi, Bool.or_true, if_pos rfl]
        exact hg1
      · have hi' : q.calculatorState.isInitialState = false := by simpa using hi
        rw [hw', hi', Bool.or_false, if_neg (by decide)]
        rcases hcase with hc | hc | hc
        · exact absurd hc hw
        · exact absurd hc hi
        · exact happ hw' hc
  · unfold inputNumber
    rw [if_neg hdot]
    by_cases hw : q.calculatorState.waitingForNewNumber = true
    · rw [if_pos hw, inputNumberCommit_state _ _ _ hg1]
      constructor
      · intro heq
        have := congrArg CalculatorState.waitingForNewNumber heq
        rw [hw] at this
        exact Bool.noConfusion this
      · rintro ⟨h1, _, _⟩
        rw [hw] at h1
        exact Bool.noConfusion h1
    · have hw' : q.calculatorState.waitingForNewNumber = false := by simpa using hw
      rw [if_neg hw]
      by_cases hi : q.calculatorState.isInitialState = true
      · rw [if_pos hi, inputNumberCommit_state _ _ _ hg1]
        constructor
        · intro heq
          have := congrArg CalculatorState.isInitialState heq
          rw [hi] at this
          exact Bool.noConfusion this
        · rintro ⟨_, h2, _⟩
          rw [hi] at h2
          exact Bool.noConfusion h2
      · have hi' : q.calculatorState.isInitialState = false := by simpa using hi
        rw [if_neg hi]
        have hlen := (hshape hw').2.2.2
        by_cases hl : 12 ≤ q.calculatorState.currentNumber.length
        · rw [if_pos hl]
          exact ⟨fun _ => ⟨hw', hi', by omega⟩, fun _ => rfl⟩
        · rw [if_neg hl, inputNumberCommit_state _ _ _ (happ hw' (by omega))]
          constructor
          · intro heq
            have := congrArg (fun s => s.currentNumber.length) heq
            simp only [List.length_append, List.length_singleton] at this
            omega
          · rintro ⟨_, _, h3⟩
            omega

/-- Instance of C35: after twelve digits a further digit changes nothing. -/
theorem digit_guard_unreachable_witness :
    (inputNumber (List.foldl press (clear (pageOf initialState))
        (List.replicate 12 (Key.digit 9))) [Char.ofNat 57]).calculatorState =
      (List.foldl press (clear (pageOf initialState))
        (List.replicate 12 (Key.digit 9))).calculatorState :=
  (digit_guard_unreachable _ ⟨pageOf initialState, List.replicate 12 (Key.digit 9), rfl⟩
    (Char.ofNat 57) (by decide)).2.2 (by decide!)

/-- **C36** While `isInitialState` is true and `waitingForNewNumber` is false, a
digit replaces the whole entry whatever it holds: `inputNumber(d)` sets
`currentNumber` to exactly `d`. In particular `clear()`, `inputNumber('.')`,
`inputNumber(d)` ends with `currentNumber = d`, not with `0.` followed by `d`. -/
theorem initial_digit_replaces_entry (d : Char) (hd : isDecimalDigit d = true) :
    (∀ q : Page, q.calculatorState.isInitialState = true →
      q.calculatorState.waitingForNewNumber = false →
      (inputNumber q [d]).calculatorState.currentNumber = [d]) ∧
    (∀ p : Page,
      (inputNumber (inputNumber (clear p) [Char.ofNat 46]) [d]).calculatorState.currentNumber =
        [d]) := by
  have h1 : ∀ q : Page, q.calculatorState.isInitialState = true →
      q.calculatorState.waitingForNewNumber = false →
      (inputNumber q [d]).calculatorState.currentNumber = [d] := by
    intro q hi hw
    rw [inputNumber_first_digit q d hd hw hi]
  refine ⟨h1, ?_⟩
  intro p
  apply h1
  · rw [clear_point_state]
    rfl
  · rw [clear_point_state]
    rfl

/-- Instance of C36: `clear()`, `.`, `5` leaves the entry `5`. -/
theorem initial_digit_replaces_entry_witness :
    (inputNumber (inputNumber (clear (pageOf initialState)) [Char.ofNat 46])
      [Char.ofNat 53]).calculatorState.currentNumber = [Char.ofNat 53] :=
  (initial_digit_replaces_entry (Char.ofNat 53) (by decide)).2 (pageOf initialState)

/-- **C37** For every page and every input string, in particular every digit and
the decimal point, `inputNumber` leaves `previousNumber`, `operation` and
`lastResult` unchanged. The property does not depend on what the input is, so
the statement carries no condition on it. -/
theorem inputNumber_keeps_pending (p : Page) (number : List Char) :
    (inputNumber p number).calculatorState.previousNumber =
        p.calculatorState.previousNumber ∧
      (inputNumber p number).calculatorState.operation = p.calculatorState.operation ∧
      (inputNumber p number).calculatorState.lastResult = p.calculatorState.lastResult :=
  inputNumber_frame p number

/-- **C38** The safe-integer branch of `formatNumber` is redundant: every Number
whose absolute value exceeds `Number.MAX_SAFE_INTEGER` is at least `1e15` in
absolute value, and `formatNumber` with that branch removed returns the string
`formatNumber` returns, for every input. -/
theorem formatNumber_safe_branch_redundant (x : JSNumber) :
    (gt (abs x) MAX_SAFE_INTEGER = true → ge (abs x) lit1e15 = true) ∧
      formatNumberNoSafeBranch x = formatNumber x := by
  have h1 : gt (abs x) MAX_SAFE_INTEGER = true → ge (abs x) lit1e15 = true := by
    cases x with
    | nan =>
      intro h
      rw [MAX_SAFE_INTEGER_eq] at h
      exact Bool.noConfusion h
    | inf s =>
      intro _
      show ge (.inf false) lit1e15 = true
      decide!
    | fin s m e => exact ge_1e15_of_gt_safe s m e
  refine ⟨h1, ?_⟩
  unfold formatNumberNoSafeBranch formatNumber
  by_cases hs : gt (abs x) MAX_SAFE_INTEGER = true
  · rw [hs, h1 hs]
    simp only [Bool.true_or, if_true]
  · rw [if_neg hs]

/-- Instance of C38: the Number `2^54`. -/
theorem formatNumber_safe_branch_redundant_witness :
    ge (abs (.fin false (2 ^ 52) 1076)) lit1e15 = true ∧
      formatNumberNoSafeBranch (.fin false (2 ^ 52) 1076) =
        formatNumber (.fin false (2 ^ 52) 1076) :=
  ⟨(formatNumber_safe_branch_redundant (.fin false (2 ^ 52) 1076)).1 (by decide!),
    (formatNumber_safe_branch_redundant (.fin false (2 ^ 52) 1076)).2⟩

end Calculator
